import Mathlib

/-!
# Integration Manager and persisted preference State of the menu tool

A shallow embedding of

* `internal/integration/state.go`   (type `State`: favorites and recents, persisted as JSON),
* `internal/integration/manager.go` (type `Manager`: registry, `LoadAll`, `Search`),
* `internal/integration/types.go`   (types `Item`, `Integration`, `Config`, `Manager`),
* `internal/executor/executor.go`   (method `ValidateCommand`),
* `toolbox/types.go`, `toolbox/search.go` (types `Tool`, `Registry`; `SearchTools`,
  `matchesTool`, `GetToolsByCategory`).

Conventions of the embedding.

* A Go slice is `GoSlice α = Option (List α)`; `none` is the `nil` slice.
* A Go map with string keys is `GoMap V = Option (List (String × V))`; `none` is the `nil`
  map, and in the association list the first entry of a key is the entry of the map.
* A Go `error` is `Option GoError`; `none` is the `nil` error.
* A run-time panic is the `.error` side of `Panics`; a normal return is the `.ok` side.
* Methods of `*State` take the receiver and return the receiver as it is after the call.
  The operating system (home directory, file contents, injected faults) is the explicit
  value `OS`, and the clock read by `AddRecent` is the explicit argument `now`.
* `sort.Slice` is the relation `SortedBy` (any permutation that its `less` does not
  contradict), with insertion sort as one run of it; a function that sorts or ranges over a
  map is a relation over the possible outcomes, next to an executable run.
* `strings.ToLower` lower-cases by the table `unicode.ToLower` of the Unicode standard. The
  table is the parameter `UnicodeTables` of every function that lower-cases, fixed on ASCII
  only, so what is proved holds for every such table.
* The read/write lock of `State` is not modelled: every method holds it from entry to exit,
  so the methods are atomic with respect to each other.
-/

namespace MenuGo

/-! ## Go values -/

/-- A Go `error` value: its message and what `os.IsNotExist` reports for it. -/
structure GoError where
  msg : String
  isNotExist : Bool
deriving DecidableEq

/-- Result of a computation that may end in a run-time panic (`.error`, with the message of
the panic) instead of returning (`.ok`). -/
abbrev Panics (α : Type) := Except String α

/-- A Go slice: `none` is the `nil` slice, `some l` a non-nil slice with elements `l`. -/
abbrev GoSlice (α : Type) := Option (List α)

/-- The elements a `range` loop over the slice visits (none for the `nil` slice). -/
def GoSlice.elems {α : Type} : GoSlice α → List α
  | none => []
  | some l => l

/-- Association list lookup: the first entry with the key. -/
def alookup {V : Type} (k : String) : List (String × V) → Option V
  | [] => none
  | (k', v) :: rest => if k' = k then some v else alookup k rest

/-- Association list update: replaces the value of the first entry with the key, or adds a new
entry when the key is absent. -/
def aset {V : Type} (k : String) (v : V) : List (String × V) → List (String × V)
  | [] => [(k, v)]
  | (k', v') :: rest => if k' = k then (k, v) :: rest else (k', v') :: aset k v rest

/-- A Go map with string keys: `none` is the `nil` map. -/
abbrev GoMap (V : Type) := Option (List (String × V))

/-- Value of `m[k]` for a map of slices: the `nil` slice when the map is `nil` or has no entry
for `k`. -/
def GoMap.get {α : Type} (m : GoMap (GoSlice α)) (k : String) : GoSlice α :=
  match m with
  | none => none
  | some l => (alookup k l).getD none

/-- Statement `m[k] = v`: panics on the `nil` map. -/
def GoMap.set {V : Type} (m : GoMap V) (k : String) (v : V) : Panics (GoMap V) :=
  match m with
  | none => .error "assignment to entry in nil map"
  | some l => .ok (some (aset k v l))

/-- Call `append(s, xs...)` read as a value: the elements of `s` followed by `xs`. -/
def goAppend {α : Type} (s : GoSlice α) (xs : List α) : GoSlice α :=
  match s, xs with
  | none, [] => none
  | s, xs => some (s.elems ++ xs)

/-! ## JSON documents (`encoding/json`) -/

/-- A JSON value. Numbers written as integer literals are `num`; every other number literal
is `real`. -/
inductive JSON where
  | null
  | bool (b : Bool)
  | num (n : Int)
  | real (lit : String)
  | str (s : String)
  | arr (xs : List JSON)
  | obj (kvs : List (String × JSON))

/-- Contents of a file as `encoding/json` sees them: bytes that its scanner rejects (they are
no JSON text, or the text is nested deeper than the scanner allows), or the text of a JSON
value. -/
inductive FileData where
  | invalid
  | text (j : JSON)

/-! ## The operating system -/

/-- The part of the operating system the State touches. `files p` is what `os.ReadFile p`
returns; `mkdirFault` and `writeFault` give the error `os.MkdirAll` and `os.WriteFile` fail
with on a path, if any. -/
structure OS where
  homeDir : Except GoError String
  files : String → Except GoError FileData
  mkdirFault : String → Option GoError
  writeFault : String → Option GoError

/-- Call `os.WriteFile(path, data, 0644)`: fails with the injected fault, otherwise the file
holds `data` afterwards. A failed write is taken to leave the file as it was. -/
def OS.WriteFile (os : OS) (path : String) (data : FileData) : OS × Option GoError :=
  match os.writeFault path with
  | some e => (os, some e)
  | none => ({ os with files := fun p => if p = path then .ok data else os.files p }, none)

/-- Call `filepath.Join(dir, name)`, without the cleaning of the path. -/
def filepathJoin (dir name : String) : String :=
  dir ++ "/" ++ name

/-- Call `filepath.Dir(path)`, without the cleaning of the path: the path up to its last
separator, `"."` when there is no separator and `"/"` for a file directly under the root. -/
def filepathDir (path : String) : String :=
  if path.data.contains '/' then
    match (path.data.reverse.dropWhile (fun c => c != '/')).drop 1 with
    | [] => "/"
    | ds => String.mk ds.reverse
  else "."

/-! ## State (`state.go`) -/

/-- Go struct `RecentItem`. `LastAccessed` is an `int64` of Unix seconds; no arithmetic is done
on it, so it is an `Int`. -/
structure RecentItem where
  ItemID : String
  LastAccessed : Int
deriving DecidableEq

/-- Go struct `State`, without its lock. -/
structure State where
  Favorites : GoMap (GoSlice String)
  Recents : GoMap (GoSlice RecentItem)
  statePath : String

/-- The State `NewState` builds before it loads the file: two empty, non-nil maps. -/
def State.empty (statePath : String) : State :=
  { Favorites := some [], Recents := some [], statePath := statePath }

/-! ### Persistence: `json.MarshalIndent` and `json.Unmarshal` on a `State` -/

/-- Keys of a map, each once, in ascending order: the order `encoding/json` writes them in. -/
def sortedKeys {V : Type} (l : List (String × V)) : List String :=
  ((l.map Prod.fst).dedup).insertionSort (fun a b => a ≤ b)

/-- JSON form of a Go map: `null` for the `nil` map, otherwise an object with the keys in
ascending order. -/
def marshalMap {V : Type} (f : V → JSON) : GoMap V → JSON
  | none => .null
  | some l => .obj ((sortedKeys l).filterMap (fun k => (alookup k l).map (fun v => (k, f v))))

/-- JSON form of a `[]string`: `null` for the `nil` slice. -/
def marshalStrings : GoSlice String → JSON
  | none => .null
  | some l => .arr (l.map JSON.str)

/-- JSON form of a `RecentItem`, with the keys of its `json` tags. -/
def marshalRecentItem (r : RecentItem) : JSON :=
  .obj [("item_id", .str r.ItemID), ("last_accessed", .num r.LastAccessed)]

/-- JSON form of a `[]RecentItem`: `null` for the `nil` slice. -/
def marshalRecents : GoSlice RecentItem → JSON
  | none => .null
  | some l => .arr (l.map marshalRecentItem)

/-- The document `json.MarshalIndent(s, "", "  ")` writes: the two exported fields under the
keys of their `json` tags. Marshalling a `State` cannot fail. -/
def marshalState (s : State) : JSON :=
  .obj [("favorites", marshalMap marshalStrings s.Favorites),
        ("recents", marshalMap marshalRecents s.Recents)]

/-- An `UnmarshalTypeError`: the JSON value does not fit the Go type. -/
def jsonTypeError (value goType : String) : GoError :=
  { msg := "json: cannot unmarshal " ++ value ++ " into Go value of type " ++ goType,
    isNotExist := false }

/-- The decoder keeps the first type error it meets and goes on (`d.saveError`). -/
def saveError (saved next : Option GoError) : Option GoError :=
  match saved with
  | some e => some e
  | none => next

/-- The case mapping `unicode.ToLower`, which `strings.ToLower` applies to every character of
a string. The mapping is a table of the Unicode standard and no part of this repository, so
the embedding takes it as a parameter. What is fixed is its value on the ASCII characters: the
letters `A` to `Z` go to `a` to `z` and every other ASCII character goes to itself. -/
structure UnicodeTables where
  ToLower : Char → Char
  ToLower_ascii : ∀ c : Char, c.toNat < 128 → ToLower c = c.toLower

/-- The table that changes the ASCII letters only. On a text of ASCII characters every table
gives the lower-case form that this one gives. -/
def asciiTables : UnicodeTables :=
  { ToLower := Char.toLower, ToLower_ascii := fun _ _ => rfl }

/-- Call `strings.ToLower(s)`: every character is replaced by its lower-case form. -/
def stringsToLower (u : UnicodeTables) (s : String) : String :=
  String.mk (s.data.map u.ToLower)

/-- Whether a text is made of ASCII characters. -/
def isASCII (s : String) : Bool :=
  s.data.all (fun c => c.toNat < 128)

/-- Whether the simple case folding of Unicode, by which `encoding/json` compares an object
key with a field name, identifies the character `c` of a key with the ASCII character `t` of
a tag: the two are the same ASCII letter in either case or the same character, or `c` is one
of the two characters outside ASCII that fold to an ASCII letter, the Kelvin sign U+212A
(folds to `k`) and the long s U+017F (folds to `s`). -/
def foldsTo (t c : Char) : Bool :=
  c.toLower == t.toLower || (t.toLower == 'k' && c.toNat == 0x212A) ||
  (t.toLower == 's' && c.toNat == 0x17F)

/-- Whether the characters of a key fold to the characters of a tag, one by one. -/
def foldsToAll : List Char → List Char → Bool
  | [], [] => true
  | t :: tag, c :: key => foldsTo t c && foldsToAll tag key
  | _, _ => false

/-- Whether an object key names the struct field with this `json` tag: the match is exact or
under simple case folding. The tags of `State` and `RecentItem` are ASCII texts. -/
def keyMatches (tag key : String) : Bool :=
  key == tag || foldsToAll tag.data key.data

/-- Decode into a Go `string` that holds `old`; `null` leaves it as it is. -/
def decodeString (old : String) : JSON → String × Option GoError
  | .str s => (s, none)
  | .null => (old, none)
  | _ => (old, some (jsonTypeError "value" "string"))

/-- Decode into a Go `int64` that holds `old`; `null` leaves it as it is, and a number must be
an integer literal in the range of `int64`. -/
def decodeInt64 (old : Int) : JSON → Int × Option GoError
  | .num n =>
    if -(2 ^ 63) ≤ n ∧ n < 2 ^ 63 then (n, none)
    else (old, some (jsonTypeError "number" "int64"))
  | .null => (old, none)
  | _ => (old, some (jsonTypeError "value" "int64"))

/-- One key of an object decoded into a `RecentItem`; unknown keys are skipped. -/
def decodeRecentField (acc : RecentItem × Option GoError) (kv : String × JSON) :
    RecentItem × Option GoError :=
  if keyMatches "item_id" kv.1 then
    let r := decodeString acc.1.ItemID kv.2
    ({ acc.1 with ItemID := r.1 }, saveError acc.2 r.2)
  else if keyMatches "last_accessed" kv.1 then
    let r := decodeInt64 acc.1.LastAccessed kv.2
    ({ acc.1 with LastAccessed := r.1 }, saveError acc.2 r.2)
  else acc

/-- Decode into a `RecentItem` that holds `old`. -/
def decodeRecentItem (old : RecentItem) : JSON → RecentItem × Option GoError
  | .obj kvs => kvs.foldl decodeRecentField (old, none)
  | .null => (old, none)
  | _ => (old, some (jsonTypeError "value" "RecentItem"))

/-- First error in a list of decoding results. -/
def firstError {α : Type} (rs : List (α × Option GoError)) : Option GoError :=
  rs.foldl (fun saved r => saveError saved r.2) none

/-- Decode into a fresh (zero) slice: `null` gives the `nil` slice, an array gives a non-nil
slice with one element per array element, each decoded into a zero value. -/
def decodeSlice {α : Type} (elem : JSON → α × Option GoError) (goType : String) :
    JSON → GoSlice α × Option GoError
  | .arr xs => (some (xs.map (fun x => (elem x).1)), firstError (xs.map elem))
  | .null => (none, none)
  | _ => (none, some (jsonTypeError "value" goType))

/-- One key of an object decoded into a map: the element is decoded into a zero value and
stored under the key, replacing an earlier entry. -/
def decodeMapEntry {V : Type} (elem : JSON → V × Option GoError)
    (acc : List (String × V) × Option GoError) (kv : String × JSON) :
    List (String × V) × Option GoError :=
  let r := elem kv.2
  (aset kv.1 r.1 acc.1, saveError acc.2 r.2)

/-- Decode into a Go map that holds `old`: `null` makes it the `nil` map; an object adds its
entries to the existing map (a `nil` map is allocated first). -/
def decodeMap {V : Type} (elem : JSON → V × Option GoError) (goType : String)
    (old : GoMap V) : JSON → GoMap V × Option GoError
  | .obj kvs =>
    let r := kvs.foldl (decodeMapEntry elem) (old.getD [], none)
    (some r.1, r.2)
  | .null => (none, none)
  | _ => (old, some (jsonTypeError "value" goType))

/-- One key of the top-level object decoded into a `State`; unknown keys are skipped. -/
def decodeStateField (acc : State × Option GoError) (kv : String × JSON) :
    State × Option GoError :=
  if keyMatches "favorites" kv.1 then
    let r := decodeMap (decodeSlice (decodeString "") "[]string") "map[string][]string"
      acc.1.Favorites kv.2
    ({ acc.1 with Favorites := r.1 }, saveError acc.2 r.2)
  else if keyMatches "recents" kv.1 then
    let r := decodeMap
      (decodeSlice (decodeRecentItem { ItemID := "", LastAccessed := 0 }) "[]RecentItem")
      "map[string][]RecentItem" acc.1.Recents kv.2
    ({ acc.1 with Recents := r.1 }, saveError acc.2 r.2)
  else acc

/-- Call `json.Unmarshal(data, s)`: the State as the decoder leaves it, and the error. Bytes
that are not JSON text are rejected before anything is stored. -/
def Unmarshal (data : FileData) (s : State) : State × Option GoError :=
  match data with
  | .invalid => (s, some { msg := "invalid character in JSON text", isNotExist := false })
  | .text (.obj kvs) => kvs.foldl decodeStateField (s, none)
  | .text .null => (s, none)
  | .text _ => (s, some (jsonTypeError "value" "State"))

/-- Method `saveUnlocked`: create the directory, marshal, write the file. -/
def State.saveUnlocked (s : State) (os : OS) : OS × Option GoError :=
  match os.mkdirFault (filepathDir s.statePath) with
  | some e => (os, some e)
  | none => os.WriteFile s.statePath (.text (marshalState s))

/-- Method `Save`: the same steps as `saveUnlocked`, under the read lock. -/
def State.Save (s : State) (os : OS) : OS × Option GoError :=
  match os.mkdirFault (filepathDir s.statePath) with
  | some e => (os, some e)
  | none => os.WriteFile s.statePath (.text (marshalState s))

/-- Method `Load`: read the file at `statePath` and unmarshal it into the receiver. -/
def State.Load (s : State) (os : OS) : State × Option GoError :=
  match os.files s.statePath with
  | .error e => (s, some e)
  | .ok data => Unmarshal data s

/-- The config directory `NewState` uses: `configDir`, or `~/.config/menu` when it is empty,
which needs the home directory. -/
def resolveConfigDir (os : OS) (configDir : String) : Except GoError String :=
  if configDir = "" then
    match os.homeDir with
    | .error e => .error e
    | .ok home => .ok (filepathJoin (filepathJoin home ".config") "menu")
  else .ok configDir

/-- Function `NewState`: the State (`none` is the `nil` pointer) and the error. -/
def NewState (os : OS) (configDir : String) : Option State × Option GoError :=
  match resolveConfigDir os configDir with
  | .error e => (none, some e)
  | .ok dir =>
    let s := State.empty (filepathJoin dir "state.json")
    match s.Load os with
    | (s', some e) => if !e.isNotExist then (none, some e) else (some s', none)
    | (s', none) => (some s', none)

/-! ### Favorites -/

/-- Method `AddFavorite`. Returns the State and the operating system after the call and the
error of the call. -/
def State.AddFavorite (s : State) (os : OS) (integration itemID : String) :
    Panics (State × OS × Option GoError) :=
  -- if s.Favorites[integration] == nil then s.Favorites[integration] = []string{}
  match (if (s.Favorites.get integration).isNone then s.Favorites.set integration (some [])
         else .ok s.Favorites) with
  | .error p => .error p
  | .ok favs =>
    let s1 := { s with Favorites := favs }
    -- for _, id := range s.Favorites[integration]: if id == itemID then return nil
    if (s1.Favorites.get integration).elems.any (fun id => id == itemID) then
      .ok (s1, os, none)
    else
      -- s.Favorites[integration] = append(s.Favorites[integration], itemID)
      match s1.Favorites.set integration (goAppend (s1.Favorites.get integration) [itemID]) with
      | .error p => .error p
      | .ok favs2 =>
        let s2 := { s1 with Favorites := favs2 }
        let r := s2.saveUnlocked os
        .ok (s2, r.1, r.2)

/-- Method `RemoveFavorite`. -/
def State.RemoveFavorite (s : State) (os : OS) (integration itemID : String) :
    Panics (State × OS × Option GoError) :=
  let favorites := (s.Favorites.get integration).elems
  -- for i, id := range favorites: if id == itemID then remove index i, save, return
  match favorites.findIdx? (fun id => id == itemID) with
  | some i =>
    match s.Favorites.set integration (some (favorites.take i ++ favorites.drop (i + 1))) with
    | .error p => .error p
    | .ok favs =>
      let s1 := { s with Favorites := favs }
      let r := s1.saveUnlocked os
      .ok (s1, r.1, r.2)
  | none => .ok (s, os, none)

/-- Method `IsFavorite`. -/
def State.IsFavorite (s : State) (integration itemID : String) : Bool :=
  (s.Favorites.get integration).elems.any (fun id => id == itemID)

/-- Method `GetFavorites`: a copy of the list, the empty (non-nil) slice when there is none. -/
def State.GetFavorites (s : State) (integration : String) : List String :=
  match s.Favorites.get integration with
  | none => []
  | some favorites => favorites

/-! ### Recents -/

/-- Constant `MaxRecentItems` declared inside `AddRecent`. -/
def MaxRecentItems : Nat := 20

/-- Method `AddRecent`; `now` is the value of `time.Now().Unix()`. -/
def State.AddRecent (s : State) (os : OS) (now : Int) (integration itemID : String) :
    Panics (State × OS × Option GoError) :=
  -- if s.Recents[integration] == nil then s.Recents[integration] = []RecentItem{}
  match (if (s.Recents.get integration).isNone then s.Recents.set integration (some [])
         else .ok s.Recents) with
  | .error p => .error p
  | .ok recs =>
    let s1 := { s with Recents := recs }
    let recents := (s1.Recents.get integration).elems
    match recents.findIdx? (fun recent => recent.ItemID == itemID) with
    | some i =>
      -- s.Recents[integration][i].LastAccessed = now
      let updated := recents.modify (fun r => { r with LastAccessed := now }) i
      -- item := s.Recents[integration][i]
      match updated[i]? with
      | none => .error "index out of range"
      | some item =>
        -- append([]RecentItem{item}, append(recents[:i], recents[i+1:]...)...)
        match s1.Recents.set integration
            (some ([item] ++ (updated.take i ++ updated.drop (i + 1)))) with
        | .error p => .error p
        | .ok recs2 =>
          let s2 := { s1 with Recents := recs2 }
          let r := s2.saveUnlocked os
          .ok (s2, r.1, r.2)
    | none =>
      -- prepend the new entry
      let added := [{ ItemID := itemID, LastAccessed := now }] ++ recents
      -- if len > MaxRecentItems then truncate to the first MaxRecentItems
      let bounded := if added.length > MaxRecentItems then added.take MaxRecentItems else added
      match s1.Recents.set integration (some bounded) with
      | .error p => .error p
      | .ok recs2 =>
        let s2 := { s1 with Recents := recs2 }
        let r := s2.saveUnlocked os
        .ok (s2, r.1, r.2)

/-- Method `GetRecents`: the item ids, most recently used first. -/
def State.GetRecents (s : State) (integration : String) : List String :=
  match s.Recents.get integration with
  | none => []
  | some recents => recents.map (fun recent => recent.ItemID)

/-- Method `GetRecentTimestamp`: `none` is the `nil` pointer. -/
def State.GetRecentTimestamp (s : State) (integration itemID : String) : Option Int :=
  ((s.Recents.get integration).elems.find? (fun recent => recent.ItemID == itemID)).map
    (fun recent => recent.LastAccessed)

/-! ## Items, Integrations and the Manager (`types.go`, `manager.go`) -/

/-- A value of type `interface{}`. The Manager only copies such values. -/
inductive Dyn where
  | nil
  | str (s : String)
  | int (n : Int)
  | bool (b : Bool)
  | strs (xs : List String)
deriving DecidableEq

/-- Go struct `Item`. -/
structure Item where
  ID : String
  Title : String
  Description : String
  Category : String
  Icon : String
  Tags : GoSlice String
  Keywords : GoSlice String
  Status : String
  Priority : Int
  Favorite : Bool
  Recent : Bool
  Details : GoMap Dyn
  Executable : Bool
  Command : String
  IsInteractive : Bool
  Source : String
  RawData : Dyn
  Metadata : GoMap Dyn
  LastAccessed : Option Int
deriving DecidableEq

/-- Go interface `Integration`: a value of the interface is given by what each of its methods
returns. `Load`, `Get`, `Search`, `Execute` and `Refresh` return a Go error next to their
result; the context argument is not modelled (what a call returns under the context it is
given is part of the value). -/
structure Integration where
  Name : String
  IntegrationType : String
  Load : GoSlice Item × Option GoError
  Get : String → Option Item × Option GoError
  Search : String → GoSlice Item × Option GoError
  Execute : Item → String × Option GoError
  SupportsExecution : Bool
  Refresh : Option GoError

/-- Go struct `Config`. -/
structure Config where
  ConfigDir : String
  DataDir : String
  EnableCache : Bool
  EnableFavorites : Bool
  EnableRecents : Bool
  MaxRecentItems : Int
  IntegrationConfigs : GoMap Dyn

/-- Go struct `Manager`; `config` and `state` are pointers, `none` is `nil`. -/
structure Manager where
  integrations : GoMap Integration
  config : Option Config
  state : Option State

/-- The Config `NewManager` uses when it is given none. -/
def defaultConfig : Config :=
  { ConfigDir := "", DataDir := "", EnableCache := true, EnableFavorites := true,
    EnableRecents := true, MaxRecentItems := 20, IntegrationConfigs := none }

/-- Function `NewManager`: the State is built from `config.ConfigDir` alone, and the Manager
goes on without a State when that fails. -/
def NewManager (os : OS) (config : Option Config) : Manager :=
  let config := match config with
    | none => defaultConfig
    | some c => c
  let state := match NewState os config.ConfigDir with
    | (_, some _) => none
    | (state, none) => state
  { integrations := some [], config := some config, state := state }

/-- Entries of an association list whose key is not in `seen` and not the key of an earlier
entry. -/
def entriesFrom {V : Type} (seen : List String) : List (String × V) → List (String × V)
  | [] => []
  | (k, v) :: rest =>
    if k ∈ seen then entriesFrom seen rest else (k, v) :: entriesFrom (k :: seen) rest

/-- The key/value pairs a `range` loop over the map visits, each key once (in the order of
the association list; Go does not fix the order). -/
def GoMap.entries {V : Type} : GoMap V → List (String × V)
  | none => []
  | some l => entriesFrom [] l

/-- Value of `m[k]` with the comma-ok form: `none` when the key is absent. -/
def GoMap.find {V : Type} (m : GoMap V) (k : String) : Option V :=
  match m with
  | none => none
  | some l => alookup k l

/-- Shared data of the workers of `LoadAll`: the result map and the errors sent to the error
channel so far. -/
structure LoadAllAcc where
  results : List (String × GoSlice Item)
  errs : List GoError

/-- Effect of the worker that `LoadAll` starts for the map entry `w`: it calls `Load`, and
either sends the error, wrapped with the name, to the channel, or stores the items under the
name in the result map while it holds the mutex. -/
def loadWorker (acc : LoadAllAcc) (w : String × Integration) : LoadAllAcc :=
  match w.2.Load with
  | (_, some err) =>
    { acc with errs := acc.errs ++ [{ msg := w.1 ++ ": " ++ err.msg, isNotExist := false }] }
  | (items, none) => { acc with results := aset w.1 items acc.results }

/-- What `LoadAll` returns when its workers take effect in the order `schedule`: the result
map, and the combined error when a worker sent one. Every worker has a single effect on the
shared data (the buffered channel holds one error per Integration, so no send blocks), and
`wg.Wait` lets all of them finish first. -/
def LoadAll.run (schedule : List (String × Integration)) :
    GoMap (GoSlice Item) × Option GoError :=
  let acc := schedule.foldl loadWorker { results := [], errs := [] }
  if acc.errs.length > 0 then
    (some acc.results,
      some { msg := "errors loading integrations: [" ++
                " ".intercalate (acc.errs.map (fun e => e.msg)) ++ "]",
             isNotExist := false })
  else (some acc.results, none)

/-- Method `LoadAll` as a relation: `r` is a possible return value when `r` is what the
workers produce under some order of the registered Integrations. -/
def Manager.LoadAll (m : Manager) (r : GoMap (GoSlice Item) × Option GoError) : Prop :=
  ∃ schedule : List (String × Integration),
    schedule.Perm m.integrations.entries ∧ LoadAll.run schedule = r

/-- Effect of the worker that `Search` starts for the map entry `w`: a failing Integration
and an empty result leave the result map alone. -/
def searchWorker (query : String) (results : List (String × GoSlice Item))
    (w : String × Integration) : List (String × GoSlice Item) :=
  match w.2.Search query with
  | (_, some _) => results
  | (items, none) => if items.elems.length > 0 then aset w.1 items results else results

/-- What `Search` returns when its workers take effect in the order `schedule`. -/
def Search.run (query : String) (schedule : List (String × Integration)) :
    GoMap (GoSlice Item) × Option GoError :=
  (some (schedule.foldl (searchWorker query) []), none)

/-- Method `Search` as a relation, as for `LoadAll`. -/
def Manager.Search (m : Manager) (query : String)
    (r : GoMap (GoSlice Item) × Option GoError) : Prop :=
  ∃ schedule : List (String × Integration),
    schedule.Perm m.integrations.entries ∧ Search.run query schedule = r

/-! ## Example values -/

/-- The zero value of `Item`. -/
def Item.zero : Item :=
  { ID := "", Title := "", Description := "", Category := "", Icon := "", Tags := none,
    Keywords := none, Status := "", Priority := 0, Favorite := false, Recent := false,
    Details := none, Executable := false, Command := "", IsInteractive := false, Source := "",
    RawData := .nil, Metadata := none, LastAccessed := none }

/-- An Integration like the mock of the tests: `Load` and `Search` return the given results,
every other method returns its zero value. -/
def mockIntegration (name : String) (load : GoSlice Item × Option GoError)
    (search : String → GoSlice Item × Option GoError) : Integration :=
  { Name := name, IntegrationType := "static", Load := load, Get := fun _ => (none, none),
    Search := search, Execute := fun _ => ("", none), SupportsExecution := false,
    Refresh := none }

/-- An item of the example Integrations. -/
def exItem : Item := { Item.zero with ID := "item1", Title := "Matching Item" }

/-- An Integration whose `Load` and `Search` succeed: `Search` finds `exItem` for the query
`"match"` and nothing otherwise. -/
def exWorking : Integration :=
  mockIntegration "notes" (some [exItem], none)
    (fun q => if q = "match" then (some [exItem], none) else (some [], none))

/-- An Integration whose `Load` and `Search` fail. -/
def exBroken : Integration :=
  mockIntegration "tasks" (none, some { msg := "task: command not found", isNotExist := false })
    (fun _ => (some [exItem], some { msg := "task: command not found", isNotExist := false }))

/-- A Manager without State in which both example Integrations are registered. -/
def exManager : Manager :=
  { integrations := some [("notes", exWorking), ("tasks", exBroken)], config := none,
    state := none }

/-! ## Reachable States -/

/-- The recents list of an Integration, with the timestamps, as a `range` loop sees it. -/
def State.recentsOf (s : State) (integration : String) : List RecentItem :=
  (s.Recents.get integration).elems

/-- States reachable from the empty State (the State of a fresh install) by calls of
`AddFavorite`, `RemoveFavorite` and `AddRecent` that return; each call may meet any state of
the operating system and any clock value, and may return an error from saving. -/
inductive Reachable : State → Prop where
  | empty (statePath : String) : Reachable (State.empty statePath)
  | addFavorite {s s' : State} {os os' : OS} {err : Option GoError} (integration itemID : String) :
      Reachable s → s.AddFavorite os integration itemID = .ok (s', os', err) → Reachable s'
  | removeFavorite {s s' : State} {os os' : OS} {err : Option GoError}
      (integration itemID : String) :
      Reachable s → s.RemoveFavorite os integration itemID = .ok (s', os', err) → Reachable s'
  | addRecent {s s' : State} {os os' : OS} {err : Option GoError} (now : Int)
      (integration itemID : String) :
      Reachable s → s.AddRecent os now integration itemID = .ok (s', os', err) → Reachable s'

/-- A State in which the Integration `"x"` has the recents `b` (used at time 2) and `a` (used
at time 1), as left by `AddRecent("x","a")` and `AddRecent("x","b")` on the empty State. -/
def exStateBA : State :=
  { Favorites := some [],
    Recents := some [("x", some [{ ItemID := "b", LastAccessed := 2 },
                                 { ItemID := "a", LastAccessed := 1 }])],
    statePath := "/cfg/state.json" }

/-- An operating system of a fresh install in which every operation succeeds: no state file
exists yet. -/
def exFreshOS : OS :=
  { homeDir := .ok "/home/u",
    files := fun _ => .error { msg := "no such file or directory", isNotExist := true },
    mkdirFault := fun _ => none,
    writeFault := fun _ => none }

/-- The State after the calls `AddRecent(integration, id)` for the ids of the list in turn, the
clock advancing by one second per call; the error of a call is dropped, as a caller may. -/
def State.addRecents (s : State) (os : OS) (now : Int) (integration : String) :
    List String → Panics (State × OS)
  | [] => .ok (s, os)
  | id :: rest =>
    match s.AddRecent os now integration id with
    | .error p => .error p
    | .ok (s', os', _) => State.addRecents s' os' (now + 1) integration rest

/-- A Config that asks for at most two recent items. -/
def exConfigMax2 : Config :=
  { defaultConfig with ConfigDir := "/cfg", MaxRecentItems := 2 }

/-- Value of `GetRecents("x")` after `AddRecent("x","a")`, `AddRecent("x","b")`,
`AddRecent("x","c")` on the State of the Manager that `NewManager` builds from `exConfigMax2`
on a fresh install; `none` when the Manager has no State or a call panics. -/
def exRecentsMax2 : Option (List String) :=
  match (NewManager exFreshOS (some exConfigMax2)).state with
  | none => none
  | some s =>
    match s.addRecents exFreshOS 1 "x" ["a", "b", "c"] with
    | .error _ => none
    | .ok (s', _) => some (s'.GetRecents "x")

/-- Twenty distinct item ids. -/
def exTwentyIds : List String :=
  ["i01", "i02", "i03", "i04", "i05", "i06", "i07", "i08", "i09", "i10",
   "i11", "i12", "i13", "i14", "i15", "i16", "i17", "i18", "i19", "i20"]

/-- The recents of `"x"` after `AddRecent` of the twenty ids of `exTwentyIds` at the times 1 to
20: the last one added is in front. -/
def exTwentyRecents : List RecentItem :=
  [{ ItemID := "i20", LastAccessed := 20 }, { ItemID := "i19", LastAccessed := 19 },
   { ItemID := "i18", LastAccessed := 18 }, { ItemID := "i17", LastAccessed := 17 },
   { ItemID := "i16", LastAccessed := 16 }, { ItemID := "i15", LastAccessed := 15 },
   { ItemID := "i14", LastAccessed := 14 }, { ItemID := "i13", LastAccessed := 13 },
   { ItemID := "i12", LastAccessed := 12 }, { ItemID := "i11", LastAccessed := 11 },
   { ItemID := "i10", LastAccessed := 10 }, { ItemID := "i09", LastAccessed := 9 },
   { ItemID := "i08", LastAccessed := 8 }, { ItemID := "i07", LastAccessed := 7 },
   { ItemID := "i06", LastAccessed := 6 }, { ItemID := "i05", LastAccessed := 5 },
   { ItemID := "i04", LastAccessed := 4 }, { ItemID := "i03", LastAccessed := 3 },
   { ItemID := "i02", LastAccessed := 2 }, { ItemID := "i01", LastAccessed := 1 }]

/-- The State with the recents `exTwentyRecents` for `"x"`. -/
def exStateTwenty : State :=
  { Favorites := some [], Recents := some [("x", some exTwentyRecents)],
    statePath := "/cfg/state.json" }

/-- A State in which `"x"` has the favorites `a`, `b`, `c`, in the order they were added. -/
def exStateFavs : State :=
  { Favorites := some [("x", some ["a", "b", "c"])], Recents := some [],
    statePath := "/cfg/state.json" }

/-- An operating system in which the state file cannot be written: the disk is full. -/
def exFullDiskOS : OS :=
  { homeDir := .ok "/home/u",
    files := fun _ => .error { msg := "no such file or directory", isNotExist := true },
    mkdirFault := fun _ => none,
    writeFault := fun _ => some { msg := "no space left on device", isNotExist := false } }

/-- An operating system in which the state file exists and cannot be read. -/
def exUnreadableOS : OS :=
  { homeDir := .ok "/home/u",
    files := fun _ => .error { msg := "permission denied", isNotExist := false },
    mkdirFault := fun _ => none,
    writeFault := fun _ => none }

/-- An operating system in which the state file holds a document whose `favorites` field is
an array instead of an object. -/
def exMalformedOS : OS :=
  { homeDir := .ok "/home/u",
    files := fun _ => .ok (.text (.obj [("favorites", .arr [.str "ls"])])),
    mkdirFault := fun _ => none,
    writeFault := fun _ => none }

/-- An operating system in which the state file holds a document whose only key is
`favorite` followed by the long s (U+017F), with an array as its value: the key folds to
`favorites`, and an array does not fit the map. -/
def exLongSKeyOS : OS :=
  { homeDir := .ok "/home/u",
    files := fun _ => .ok (.text (.obj [("favorite\u017f", .arr [.str "ls"])])),
    mkdirFault := fun _ => none,
    writeFault := fun _ => none }

/-! ## The Manager: registry and State (`manager.go`) -/

/-- Method `Register`. The argument is an interface value, `none` is the `nil` interface. -/
def Manager.Register (m : Manager) (integration : Option Integration) :
    Panics (Manager × Option GoError) :=
  match integration with
  | none => .ok (m, some { msg := "cannot register nil integration", isNotExist := false })
  | some i =>
    let name := i.Name
    if name = "" then
      .ok (m, some { msg := "integration name cannot be empty", isNotExist := false })
    else
      match m.integrations.find name with
      | some _ =>
        .ok (m, some { msg := "integration \"" ++ name ++ "\" already registered",
                       isNotExist := false })
      | none =>
        -- m.integrations[name] = integration
        match m.integrations.set name i with
        | .error p => .error p
        | .ok registry => .ok ({ m with integrations := registry }, none)

/-- Method `Get` of the Manager: the Integration (`none` is `nil`) and the error. -/
def Manager.Get (m : Manager) (name : String) : Option Integration × Option GoError :=
  match m.integrations.find name with
  | none => (none, some { msg := "integration \"" ++ name ++ "\" not found", isNotExist := false })
  | some integration => (some integration, none)

/-- An order in which a `range` loop may visit the entries of the registry. -/
abbrev RegistryOrder := List (String × Integration)

/-- What `List` returns when its loop visits the map entries in the order `order`: the names
are collected in that order and sorted with `sort.Strings`. -/
def Manager.List.run (order : RegistryOrder) : List String :=
  (order.map Prod.fst).insertionSort (fun a b => a ≤ b)

/-- Method `List` as a relation: `names` is a possible return value when it is what the loop
and the sort produce under some order of iteration over the map. -/
def Manager.List (m : Manager) (names : List String) : Prop :=
  ∃ order : RegistryOrder,
    order.Perm m.integrations.entries ∧ Manager.List.run order = names

/-- Method `MarkRecent`; `now` is the clock value read by `AddRecent`. Returns the Manager
and the operating system after the call and the error of the call. -/
def Manager.MarkRecent (m : Manager) (os : OS) (now : Int) (integrationName itemID : String) :
    Panics (Manager × OS × Option GoError) :=
  match m.state with
  | none => .ok (m, os, none)
  | some state =>
    match m.Get integrationName with
    | (_, some err) => .ok (m, os, some err)
    | (none, none) => .error "nil pointer dereference"
    | (some integration, none) =>
      match integration.Get itemID with
      | (_, some err) => .ok (m, os, some err)
      | (_, none) =>
        match state.AddRecent os now integrationName itemID with
        | .error p => .error p
        | .ok (state', os', err) => .ok ({ m with state := some state' }, os', err)

/-- Method `ToggleFavorite`. -/
def Manager.ToggleFavorite (m : Manager) (os : OS) (integrationName itemID : String) :
    Panics (Manager × OS × Option GoError) :=
  match m.state with
  | none => .ok (m, os, some { msg := "state not available", isNotExist := false })
  | some state =>
    if state.IsFavorite integrationName itemID then
      match state.RemoveFavorite os integrationName itemID with
      | .error p => .error p
      | .ok (state', os', err) => .ok ({ m with state := some state' }, os', err)
    else
      match state.AddFavorite os integrationName itemID with
      | .error p => .error p
      | .ok (state', os', err) => .ok ({ m with state := some state' }, os', err)

/-- Method `IsFavorite` of the Manager. -/
def Manager.IsFavorite (m : Manager) (integrationName itemID : String) : Bool :=
  match m.state with
  | none => false
  | some state => state.IsFavorite integrationName itemID

/-- Body of the loop of `EnrichItems` for one item: the copy gets its `Favorite` from the
State, and `Recent` and `LastAccessed` when the State has a timestamp for it. -/
def enrichItem (state : State) (integrationName : String) (item : Item) : Item :=
  let enriched := { item with Favorite := state.IsFavorite integrationName item.ID }
  match state.GetRecentTimestamp integrationName item.ID with
  | some timestamp => { enriched with Recent := true, LastAccessed := some timestamp }
  | none => enriched

/-- Method `EnrichItems`. It writes to the slice it allocates only; the slice it is given is
read. -/
def Manager.EnrichItems (m : Manager) (integrationName : String) (items : GoSlice Item) :
    GoSlice Item :=
  match m.state with
  | none => items
  | some state => some (items.elems.map (enrichItem state integrationName))

/-- The Manager after `Register` has been called for each Integration of the list in turn, the
returned errors being dropped, as the tests do. -/
def registerAll (m : Manager) : List Integration → Panics Manager
  | [] => .ok m
  | i :: rest =>
    match m.Register (some i) with
    | .error p => .error p
    | .ok (m', _) => registerAll m' rest

/-- A Manager with an empty registry and no State. -/
def exEmptyManager : Manager :=
  { integrations := some [], config := none, state := none }

/-- An Integration like the mock of the tests with the given name. -/
def exNamed (name : String) : Integration :=
  mockIntegration name (some [], none) (fun _ => (some [], none))

/-- A State with the favorite `a` and the recent item `b` (used at time 7) for `"x"`. -/
def exStateEnrich : State :=
  { Favorites := some [("x", some ["a"])],
    Recents := some [("x", some [{ ItemID := "b", LastAccessed := 7 }])],
    statePath := "/cfg/state.json" }

/-- A Manager with the State `exStateEnrich` in which `exWorking` is registered as `"x"`. -/
def exManagerEnrich : Manager :=
  { integrations := some [("x", exWorking)], config := none, state := some exStateEnrich }

/-- Items as an Integration produces them: `a` and `b`, neither marked. -/
def exPlainItems : List Item :=
  [{ Item.zero with ID := "a", Title := "first" }, { Item.zero with ID := "b", Title := "second" }]

/-- An item that is already marked as recent, with a timestamp, before it is enriched. -/
def exStaleItem : Item :=
  { Item.zero with ID := "c", Recent := true, LastAccessed := some 5 }

/-- An operating system in which the state file lists the favorite `a` of `"x"` twice. -/
def exDuplicateOS : OS :=
  { homeDir := .ok "/home/u",
    files := fun _ =>
      .ok (.text (.obj [("favorites", .obj [("x", .arr [.str "a", .str "a"])])])),
    mkdirFault := fun _ => none,
    writeFault := fun _ => none }

/-- The Manager that `NewManager` builds from that state file. -/
def exManagerDuplicate : Manager :=
  NewManager exDuplicateOS (some { defaultConfig with ConfigDir := "/cfg" })

/-- Value of `IsFavorite("x","a")` after `ToggleFavorite("x","a")` on `exManagerDuplicate`, with
the error of the call; `none` when the call panics. -/
def exToggleDuplicate : Option (Bool × Option GoError) :=
  match exManagerDuplicate.ToggleFavorite exDuplicateOS "x" "a" with
  | .error _ => none
  | .ok (m', _, err) => some (m'.IsFavorite "x" "a", err)

/-- The Manager without State that `NewManager` builds when the state file cannot be read. -/
def exManagerNoState : Manager :=
  NewManager exUnreadableOS (some { defaultConfig with ConfigDir := "/cfg" })

/-! ## `EnrichItems` with the slices it works on -/

/-- One round of the loop of `EnrichItems` on the pair of the caller's slice and the slice
`enriched`: the item at the index is copied to `enriched` at that index, and the copy is given
its flags. No round assigns to the caller's slice. -/
def EnrichItems.round (state : State) (integrationName : String)
    (mem : GoSlice Item × List Item) (e : Nat × Item) : GoSlice Item × List Item :=
  (mem.1, mem.2.set e.1 (enrichItem state integrationName e.2))

/-- Method `EnrichItems` with the caller's slice: the pair of the caller's slice after the call
and the slice returned. `enriched` starts as `make([]Item, len(items))`, and the loop visits
the items with their indices. -/
def EnrichItems.withInput (m : Manager) (integrationName : String) (items : GoSlice Item) :
    GoSlice Item × GoSlice Item :=
  match m.state with
  | none => (items, items)
  | some state =>
    let enriched := List.replicate items.elems.length Item.zero
    let mem := (items.elems.enumFrom 0).foldl (EnrichItems.round state integrationName)
      (items, enriched)
    (mem.1, some mem.2)

/-! ## Filtering (`manager.go`) -/

/-- Go struct `Filter`. -/
structure Filter where
  Query : String
  Categories : GoSlice String
  Tags : GoSlice String
  Status : String
  Favorites : Bool
  Recent : Bool

/-- Whether the characters `sub` occur in a row somewhere in the given characters. -/
def containsChars (sub : List Char) : List Char → Bool
  | [] => sub.isPrefixOf []
  | c :: rest => sub.isPrefixOf (c :: rest) || containsChars sub rest

/-- Call `strings.Contains(s, substr)`. -/
def stringsContains (s substr : String) : Bool :=
  containsChars substr.data s.data

/-- Helper `contains`: whether the slice holds the string. -/
def contains (slice : GoSlice String) (item : String) : Bool :=
  slice.elems.any (fun s => s == item)

/-- Helper `containsAny`: whether some string of the slice, lower-cased, contains the
query. -/
def containsAny (u : UnicodeTables) (slice : GoSlice String) (query : String) : Bool :=
  slice.elems.any (fun s => stringsContains (stringsToLower u s) query)

/-- Function `matchesFilter`: each criterion that is active and not met returns false. -/
def matchesFilter (u : UnicodeTables) (item : Item) (filter : Filter) : Bool :=
  if filter.Query != "" &&
      (!stringsContains (stringsToLower u item.Title) (stringsToLower u filter.Query) &&
       !stringsContains (stringsToLower u item.Description) (stringsToLower u filter.Query) &&
       !containsAny u item.Tags (stringsToLower u filter.Query) &&
       !containsAny u item.Keywords (stringsToLower u filter.Query)) then false
  else if filter.Categories.elems.length > 0 && !contains filter.Categories item.Category then
    false
  else if filter.Tags.elems.length > 0 &&
      !filter.Tags.elems.any (fun tag => contains item.Tags tag) then false
  else if filter.Status != "" && item.Status != filter.Status then false
  else if filter.Favorites && !item.Favorite then false
  else if filter.Recent && !item.Recent then false
  else true

/-- Function `FilterItems`: the slice it is given when no criterion is active, otherwise a new
slice with the items that match, in their order. -/
def FilterItems (u : UnicodeTables) (items : GoSlice Item) (filter : Filter) : GoSlice Item :=
  if filter.Query == "" && filter.Categories.elems.length == 0 &&
      filter.Tags.elems.length == 0 && filter.Status == "" &&
      !filter.Favorites && !filter.Recent then items
  else some (items.elems.filter (fun item => matchesFilter u item filter))

/-- The criteria of a filter as the specification words them: every active criterion holds
for the item. -/
def SatisfiesCriteria (u : UnicodeTables) (item : Item) (filter : Filter) : Prop :=
  (filter.Query ≠ "" →
    (stringsToLower u filter.Query).data <:+: (stringsToLower u item.Title).data ∨
    (stringsToLower u filter.Query).data <:+: (stringsToLower u item.Description).data ∨
    (∃ tag ∈ item.Tags.elems,
      (stringsToLower u filter.Query).data <:+: (stringsToLower u tag).data) ∨
    (∃ keyword ∈ item.Keywords.elems,
      (stringsToLower u filter.Query).data <:+: (stringsToLower u keyword).data)) ∧
  (filter.Categories.elems ≠ [] → item.Category ∈ filter.Categories.elems) ∧
  (filter.Tags.elems ≠ [] → ∃ tag ∈ filter.Tags.elems, tag ∈ item.Tags.elems) ∧
  (filter.Status ≠ "" → item.Status = filter.Status) ∧
  (filter.Favorites = true → item.Favorite = true) ∧
  (filter.Recent = true → item.Recent = true)

/-- Whether the texts `matchesFilter` lower-cases for an item are made of ASCII characters. -/
def asciiItem (item : Item) : Bool :=
  isASCII item.Title && isASCII item.Description && item.Tags.elems.all isASCII &&
  item.Keywords.elems.all isASCII

/-- Two items whose titles are `École` and `école`. -/
def exEcoleItems : List Item :=
  [{ Item.zero with ID := "1", Title := "\u00c9cole" },
   { Item.zero with ID := "2", Title := "\u00e9cole" }]

/-- Whether no criterion of the filter is active. -/
def Filter.inactive (filter : Filter) : Prop :=
  filter.Query = "" ∧ filter.Categories.elems = [] ∧ filter.Tags.elems = [] ∧
  filter.Status = "" ∧ filter.Favorites = false ∧ filter.Recent = false

/-- The zero value of `Filter`. -/
def Filter.zero : Filter :=
  { Query := "", Categories := none, Tags := none, Status := "", Favorites := false,
    Recent := false }

/-- The two items of the specification's example: a `Dev` item tagged `go` and an `Ops` item
tagged `docker`. -/
def exFilterItems : List Item :=
  [{ Item.zero with ID := "1", Title := "Go Testing", Category := "Dev", Tags := some ["go"] },
   { Item.zero with ID := "2", Title := "Docker Basics", Category := "Ops",
                    Tags := some ["docker"] }]

/-! ## Sorting (`sort.Slice`, `manager.go`) -/

/-- Comparison `a < b` of two Go strings: lexicographic on the characters. -/
def stringLess (a b : String) : Bool :=
  decide (a.data < b.data)

/-- Contract of `sort.Slice(x, less)`: afterwards the slice holds a permutation of its
elements in which no element is less than an earlier one. The sort is not stable: elements
that are equivalent under `less` may end in any order. -/
def SortedBy {α : Type} (less : α → α → Bool) (xs out : List α) : Prop :=
  out.Perm xs ∧ out.Pairwise (fun a b => less b a = false)

/-- One run of `sort.Slice`: insertion sort, the algorithm `sort.Slice` uses on short
slices. -/
def sortSlice {α : Type} (less : α → α → Bool) (xs : List α) : List α :=
  xs.insertionSort (fun a b => less b a = false)

/-- What `sort.Slice` asks of `less`: a strict weak order. -/
structure StrictWeakOrder {α : Type} (less : α → α → Bool) : Prop where
  irrefl : ∀ a, less a a = false
  asymm : ∀ a b, less a b = true → less b a = false
  trans : ∀ a b c, less a b = true → less b c = true → less a c = true
  incomp_trans : ∀ a b c, less a b = false → less b a = false →
    less b c = false → less c b = false → less a c = false ∧ less c a = false

/-- Go type `SortOption`, a string. -/
abbrev SortOption := String

/-- Constant `SortByTitle`. -/
def SortByTitle : SortOption := "title"

/-- Constant `SortByRecent`. -/
def SortByRecent : SortOption := "recent"

/-- Constant `SortByPriority`. -/
def SortByPriority : SortOption := "priority"

/-- Constant `SortByCategory`. -/
def SortByCategory : SortOption := "category"

/-- The `less` function of `SortItems` for `SortByTitle`. -/
def lessByTitle (a b : Item) : Bool :=
  stringLess a.Title b.Title

/-- The `less` function of `SortItems` for `SortByRecent`: an item without `LastAccessed` is
never less, an item with one is less than an item without, and of two items with one the later
timestamp is less. -/
def lessByRecent (a b : Item) : Bool :=
  match a.LastAccessed, b.LastAccessed with
  | none, _ => false
  | some _, none => true
  | some x, some y => decide (x > y)

/-- The `less` function of `SortItems` for `SortByPriority`. -/
def lessByPriority (a b : Item) : Bool :=
  decide (a.Priority > b.Priority)

/-- The `less` function of `SortItems` for `SortByCategory`. -/
def lessByCategory (a b : Item) : Bool :=
  if a.Category == b.Category then stringLess a.Title b.Title
  else stringLess a.Category b.Category

/-- The `less` function the `switch` of `SortItems` picks; `none` when no case applies. -/
def sortLess (sortBy : SortOption) : Option (Item → Item → Bool) :=
  if sortBy = SortByTitle then some lessByTitle
  else if sortBy = SortByRecent then some lessByRecent
  else if sortBy = SortByPriority then some lessByPriority
  else if sortBy = SortByCategory then some lessByCategory
  else none

/-- Function `SortItems` as a relation: it returns nothing and sorts the slice it is given in
place, so `after` is a possible content of that slice after the call. A `nil` slice stays
`nil`, and an option without a case leaves the slice as it is. -/
def SortItems (items : GoSlice Item) (sortBy : SortOption) (after : GoSlice Item) : Prop :=
  match sortLess sortBy with
  | none => after = items
  | some less =>
    match items with
    | none => after = none
    | some xs => ∃ out, SortedBy less xs out ∧ after = some out

/-! ## Combining filters -/

/-- The filter that carries the criteria of both filters: each criterion is taken from the
first filter when it is set there, and from the second otherwise. -/
def Filter.combine (f1 f2 : Filter) : Filter :=
  { Query := if f1.Query = "" then f2.Query else f1.Query,
    Categories := if f1.Categories.elems = [] then f2.Categories else f1.Categories,
    Tags := if f1.Tags.elems = [] then f2.Tags else f1.Tags,
    Status := if f1.Status = "" then f2.Status else f1.Status,
    Favorites := f1.Favorites || f2.Favorites,
    Recent := f1.Recent || f2.Recent }

/-- Two filters set disjoint criteria: no criterion is active in both. -/
def Filter.DisjointCriteria (f1 f2 : Filter) : Prop :=
  (f1.Query = "" ∨ f2.Query = "") ∧
  (f1.Categories.elems = [] ∨ f2.Categories.elems = []) ∧
  (f1.Tags.elems = [] ∨ f2.Tags.elems = []) ∧
  (f1.Status = "" ∨ f2.Status = "") ∧
  (f1.Favorites = false ∨ f2.Favorites = false) ∧
  (f1.Recent = false ∨ f2.Recent = false)

/-- The query half of the filter of the test "Multiple filters", which asks for the query
`tutorial` and the tag `vim`. -/
def exFilterQuery : Filter :=
  { Filter.zero with Query := "tutorial" }

/-- The tag half of the filter of the test "Multiple filters". -/
def exFilterTag : Filter :=
  { Filter.zero with Tags := some ["vim"] }

/-- The three items of the test `TestFilterItems`. -/
def exTestFilterItems : List Item :=
  [{ Item.zero with ID := "1", Title := "Go Testing", Category := "Programming",
                    Tags := some ["go", "testing"] },
   { Item.zero with ID := "2", Title := "Docker Basics", Category := "DevOps",
                    Tags := some ["docker"] },
   { Item.zero with ID := "3", Title := "Vim Tutorial", Category := "Editors",
                    Tags := some ["vim", "tutorial"] }]

/-! ## Sorting: a run, and examples -/

/-- One run of `SortItems`: the content of the caller's slice after the call when `sort.Slice`
sorts by insertion. -/
def SortItems.run (items : GoSlice Item) (sortBy : SortOption) : GoSlice Item :=
  match sortLess sortBy with
  | none => items
  | some less =>
    match items with
    | none => none
    | some xs => some (sortSlice less xs)

/-- The three items of the test `TestSortItems`. -/
def exTestSortItems : List Item :=
  [{ Item.zero with ID := "1", Title := "C Item", Category := "Cat1", Priority := 10,
                    LastAccessed := some 500 },
   { Item.zero with ID := "2", Title := "A Item", Category := "Cat2", Priority := 50,
                    LastAccessed := some 1000 },
   { Item.zero with ID := "3", Title := "B Item", Category := "Cat1", Priority := 30 }]

/-- The items of the specification's example: categories `B`, `A`, `A` with the titles `x`,
`z`, `y`. -/
def exCategoryItems : List Item :=
  [{ Item.zero with Category := "B", Title := "x" },
   { Item.zero with Category := "A", Title := "z" },
   { Item.zero with Category := "A", Title := "y" }]

/-- The order the specification gives for them: `A/y`, `A/z`, `B/x`. -/
def exCategorySorted : List Item :=
  [{ Item.zero with Category := "A", Title := "y" },
   { Item.zero with Category := "A", Title := "z" },
   { Item.zero with Category := "B", Title := "x" }]

/-- The ids of the items of a slice, in order. -/
def itemIDs (items : GoSlice Item) : List String :=
  items.elems.map (fun item => item.ID)

/-! ## `FilterItems` with the slices it works on -/

/-- One round of the loop of `FilterItems` on the pair of the caller's slice and the slice
`filtered`: an item that does not match is skipped, an item that matches is appended to
`filtered`. No round assigns to the caller's slice. -/
def FilterItems.round (u : UnicodeTables) (filter : Filter) (mem : GoSlice Item × List Item)
    (item : Item) :
    GoSlice Item × List Item :=
  if !matchesFilter u item filter then mem
  else (mem.1, mem.2 ++ [item])

/-- Function `FilterItems` with the caller's slice: the pair of the caller's slice after the
call and the slice returned. -/
def FilterItems.withInput (u : UnicodeTables) (items : GoSlice Item) (filter : Filter) :
    GoSlice Item × GoSlice Item :=
  if filter.Query == "" && filter.Categories.elems.length == 0 &&
      filter.Tags.elems.length == 0 && filter.Status == "" &&
      !filter.Favorites && !filter.Recent then (items, items)
  else
    let mem := items.elems.foldl (FilterItems.round u filter) (items, [])
    (mem.1, some mem.2)

/-! ## Command validation (`executor.go`) -/

/-- Predicate `unicode.IsSpace`: the white space characters `strings.TrimSpace` removes. -/
def unicodeIsSpace (c : Char) : Bool :=
  let n := c.toNat
  (9 ≤ n && n ≤ 13) || n == 32 || n == 0x85 || n == 0xA0 || n == 0x1680 ||
  (0x2000 ≤ n && n ≤ 0x200A) || n == 0x2028 || n == 0x2029 || n == 0x202F ||
  n == 0x205F || n == 0x3000

/-- Call `strings.TrimSpace(s)`: `s` without its leading and trailing white space. -/
def stringsTrimSpace (s : String) : String :=
  String.mk ((s.data.dropWhile unicodeIsSpace).reverse.dropWhile unicodeIsSpace).reverse

/-- The slice `dangerous` of `ValidateCommand`; the last pattern is the fork bomb. -/
def dangerous : List String :=
  ["rm -rf /", "dd if=/dev/zero", "mkfs.", ":()\x7b :|:& \x7d;:"]

/-- Method `ValidateCommand`: the error for the first dangerous pattern that the trimmed,
lower-cased command contains, `none` (the `nil` error) when it contains none. -/
def ValidateCommand (u : UnicodeTables) (command : String) : Option GoError :=
  let cmdLower := stringsToLower u (stringsTrimSpace command)
  match dangerous.find? (fun danger => stringsContains cmdLower danger) with
  | some danger =>
    some { msg := "command contains potentially dangerous pattern: " ++ danger,
           isNotExist := false }
  | none => none

/-! ## The toolbox: search (`toolbox/types.go`, `toolbox/search.go`) -/

/-- Go struct `Example`. -/
structure Example where
  Cmd : String
  Desc : String
deriving DecidableEq

/-- Go struct `Tool`. -/
structure Tool where
  Category : String
  Description : String
  InstalledVia : String
  Usage : String
  WhyUse : String
  Examples : GoSlice Example
  SeeAlso : GoSlice String
  Tags : GoSlice String
  DocsURL : String
deriving DecidableEq

/-- Go struct `Registry`. -/
structure Registry where
  Tools : GoMap Tool

/-- Go struct `SearchResult`. -/
structure SearchResult where
  Name : String
  Tool : Tool
deriving DecidableEq

/-- The text `matchesTool` builds in `searchable`: the lower-cased name, description and
`WhyUse`, joined by single spaces, and then each lower-cased tag after a space. -/
def searchableText (u : UnicodeTables) (name : String) (tool : Tool) : String :=
  tool.Tags.elems.foldl (fun searchable tag => searchable ++ " " ++ stringsToLower u tag)
    (stringsToLower u name ++ " " ++ stringsToLower u tool.Description ++ " " ++
      stringsToLower u tool.WhyUse)

/-- Function `matchesTool`: whether the query occurs in the searchable text. -/
def matchesTool (u : UnicodeTables) (name : String) (tool : Tool) (query : String) : Bool :=
  stringsContains (searchableText u name tool) query

/-- An order in which a `range` loop may visit the tools of the registry. -/
abbrev ToolOrder := List (String × Tool)

/-- The loop of `SearchTools` and `GetToolsByCategory` under an order of iteration: the tools
that `keep` accepts are appended to `results` in that order. -/
def collectTools (keep : String → Tool → Bool) (order : ToolOrder) : List SearchResult :=
  order.foldl (fun results e =>
    if keep e.1 e.2 then results ++ [{ Name := e.1, Tool := e.2 }] else results) []

/-- The `less` function both pass to `sort.Slice`. -/
def lessByName (a b : SearchResult) : Bool :=
  stringLess a.Name b.Name

/-- Function `SearchTools` as a relation: `results` is a possible return value when it is a
possible outcome of the sort on what the loop collects under some order of iteration over the
map. The registry is a pointer that is not `nil`. -/
def SearchTools (u : UnicodeTables) (registry : Registry) (query : String)
    (results : List SearchResult) : Prop :=
  ∃ order : ToolOrder, order.Perm registry.Tools.entries ∧
    SortedBy lessByName
      (collectTools (fun name tool => matchesTool u name tool (stringsToLower u query)) order)
      results

/-- One run of `SearchTools`: the loop visits the map in the order of its entries and the sort
is by insertion. -/
def SearchTools.run (u : UnicodeTables) (registry : Registry) (query : String) :
    List SearchResult :=
  sortSlice lessByName
    (collectTools (fun name tool => matchesTool u name tool (stringsToLower u query))
      registry.Tools.entries)

/-- Function `GetToolsByCategory` as a relation, in the same way. -/
def GetToolsByCategory (registry : Registry) (category : String)
    (results : List SearchResult) : Prop :=
  ∃ order : ToolOrder, order.Perm registry.Tools.entries ∧
    SortedBy lessByName (collectTools (fun _ tool => tool.Category == category) order) results

/-- One run of `GetToolsByCategory`. -/
def GetToolsByCategory.run (registry : Registry) (category : String) : List SearchResult :=
  sortSlice lessByName
    (collectTools (fun _ tool => tool.Category == category) registry.Tools.entries)

/-- Two queries differ only in letter case: they have the same length and at every position
the two characters have the same lower-case form. -/
def DifferOnlyInCase (u : UnicodeTables) (q₁ q₂ : String) : Prop :=
  List.Forall₂ (fun a b => u.ToLower a = u.ToLower b) q₁.data q₂.data

/-- The zero value of `Tool`. -/
def Tool.zero : Tool :=
  { Category := "", Description := "", InstalledVia := "", Usage := "", WhyUse := "",
    Examples := none, SeeAlso := none, Tags := none, DocsURL := "" }

/-- The tool of the test `TestMatchesTool`, which is matched under the name `ripgrep`. -/
def exRipgrep : Tool :=
  { Tool.zero with Description := "Fast search tool", Tags := some ["search", "grep"],
                   WhyUse := "Better than grep" }

/-- The registry of the test `TestSearchTools`. -/
def exRegistry : Registry :=
  { Tools := some [
      ("git-delta", { Tool.zero with Category := "version-control",
                                     Description := "Syntax-highlighting pager for git",
                                     Tags := some ["git", "diff", "pager"] }),
      ("ripgrep", { Tool.zero with Category := "search",
                                   Description := "Fast text search tool",
                                   Tags := some ["search", "grep"] }),
      ("bat", { Tool.zero with Category := "file-viewer",
                               Description := "Cat with syntax highlighting",
                               Tags := some ["syntax", "cat"] })] }

/-- The registry of the test `TestGetToolsByCategory`, with `lazygit` stored before `git`. -/
def exRegistryCategories : Registry :=
  { Tools := some [
      ("lazygit", { Tool.zero with Category := "version-control" }),
      ("ripgrep", { Tool.zero with Category := "search" }),
      ("git", { Tool.zero with Category := "version-control" })] }

/-- The criterion of the specification for `matchesTool`: the query occurs in the lower-cased
tool name, in the lower-cased description, in the lower-cased `WhyUse` text or in one of the
lower-cased tags. -/
def OccursInField (u : UnicodeTables) (name : String) (tool : Tool) (query : String) : Prop :=
  query.data <:+: (stringsToLower u name).data ∨
  query.data <:+: (stringsToLower u tool.Description).data ∨
  query.data <:+: (stringsToLower u tool.WhyUse).data ∨
  ∃ tag ∈ tool.Tags.elems, query.data <:+: (stringsToLower u tag).data

/-- A tool whose description is `Éditeur`. -/
def exEditeur : Tool :=
  { Tool.zero with Description := "\u00c9diteur" }

/-- Whether the texts `matchesTool` searches for a tool are made of ASCII characters. -/
def asciiTool (name : String) (tool : Tool) : Bool :=
  isASCII name && isASCII tool.Description && isASCII tool.WhyUse &&
  tool.Tags.elems.all isASCII

/-! ## Reachable States under a clock that does not run backwards -/

/-- States reachable from the empty State by calls of `AddFavorite`, `RemoveFavorite` and
`AddRecent` that return, where the clock value of each `AddRecent` call is at least every
timestamp stored in the State at that moment. -/
inductive ReachableMonotone : State → Prop where
  | empty (statePath : String) : ReachableMonotone (State.empty statePath)
  | addFavorite {s s' : State} {os os' : OS} {err : Option GoError} (integration itemID : String) :
      ReachableMonotone s → s.AddFavorite os integration itemID = .ok (s', os', err) →
      ReachableMonotone s'
  | removeFavorite {s s' : State} {os os' : OS} {err : Option GoError}
      (integration itemID : String) :
      ReachableMonotone s → s.RemoveFavorite os integration itemID = .ok (s', os', err) →
      ReachableMonotone s'
  | addRecent {s s' : State} {os os' : OS} {err : Option GoError} (now : Int)
      (integration itemID : String) :
      ReachableMonotone s →
      (∀ n, ∀ r ∈ s.recentsOf n, r.LastAccessed ≤ now) →
      s.AddRecent os now integration itemID = .ok (s', os', err) → ReachableMonotone s'

/-- The State after `AddRecent("x","a")` at time 1 on the empty State. -/
def exStateA : State :=
  { Favorites := some [],
    Recents := some [("x", some [{ ItemID := "a", LastAccessed := 1 }])],
    statePath := "/cfg/state.json" }

/-- The State after `AddRecent("x","a")` at time 3 on `exStateBA`: `a` is back at the front. -/
def exStateAB : State :=
  { Favorites := some [],
    Recents := some [("x", some [{ ItemID := "a", LastAccessed := 3 },
                                 { ItemID := "b", LastAccessed := 2 }])],
    statePath := "/cfg/state.json" }

/-! ## State documents with a `null` field -/

/-- An operating system in which the state file holds the document whose `favorites` field is
`null`. -/
def exNullFavoritesOS : OS :=
  { homeDir := .ok "/home/u",
    files := fun _ => .ok (.text (.obj [("favorites", .null)])),
    mkdirFault := fun _ => none,
    writeFault := fun _ => none }

/-- An operating system in which the state file holds the document whose `recents` field is
`null`. -/
def exNullRecentsOS : OS :=
  { homeDir := .ok "/home/u",
    files := fun _ => .ok (.text (.obj [("recents", .null)])),
    mkdirFault := fun _ => none,
    writeFault := fun _ => none }

/-- An operating system in which the state file holds the empty object: both fields are
missing. -/
def exMissingFieldsOS : OS :=
  { homeDir := .ok "/home/u",
    files := fun _ => .ok (.text (.obj [])),
    mkdirFault := fun _ => none,
    writeFault := fun _ => none }

/-! # Theorems -/

/-! ## Association lists -/

theorem alookup_aset_self {V : Type} (k : String) (v : V) (l : List (String × V)) :
    alookup k (aset k v l) = some v := by
  induction l with
  | nil => simp [aset, alookup]
  | cons e rest ih =>
    obtain ⟨k', v'⟩ := e
    by_cases h : k' = k
    · simp [aset, alookup, h]
    · simp [aset, alookup, h, ih]

theorem alookup_aset_ne {V : Type} {k k' : String} (h : k ≠ k') (v : V)
    (l : List (String × V)) : alookup k' (aset k v l) = alookup k' l := by
  induction l with
  | nil => simp [aset, alookup, h]
  | cons e rest ih =>
    obtain ⟨k₀, v₀⟩ := e
    by_cases h₀ : k₀ = k
    · subst h₀
      simp [aset, alookup, h]
    · simp [aset, alookup, h₀, ih]

theorem mem_entriesFrom {V : Type} (k : String) (v : V) (l : List (String × V)) :
    ∀ seen : List String, (k, v) ∈ entriesFrom seen l ↔ k ∉ seen ∧ alookup k l = some v := by
  induction l with
  | nil => intro seen; simp [entriesFrom, alookup]
  | cons e rest ih =>
    intro seen
    obtain ⟨k₀, v₀⟩ := e
    by_cases hs : k₀ ∈ seen
    · simp only [entriesFrom, hs, if_true, ih, alookup]
      constructor
      · rintro ⟨hk, hl⟩
        have : k₀ ≠ k := fun h => hk (h ▸ hs)
        simp [this, hk, hl]
      · rintro ⟨hk, hl⟩
        have : k₀ ≠ k := fun h => hk (h ▸ hs)
        simp [this] at hl
        exact ⟨hk, hl⟩
    · simp only [entriesFrom, hs, if_false, List.mem_cons, ih, alookup, Prod.mk.injEq]
      by_cases hk : k₀ = k
      · subst hk
        simp [hs, eq_comm]
      · have hk' : ¬ k = k₀ := fun h => hk h.symm
        simp [hk, hk']

theorem nodup_keys_entriesFrom {V : Type} (l : List (String × V)) :
    ∀ seen : List String, ((entriesFrom seen l).map Prod.fst).Nodup := by
  induction l with
  | nil => intro seen; simp [entriesFrom]
  | cons e rest ih =>
    intro seen
    obtain ⟨k₀, v₀⟩ := e
    by_cases hs : k₀ ∈ seen
    · simpa [entriesFrom, hs] using ih seen
    · simp only [entriesFrom, hs, if_false, List.map_cons, List.nodup_cons]
      refine ⟨?_, ih _⟩
      intro hmem
      obtain ⟨⟨k, v⟩, hin, hk⟩ := List.mem_map.1 hmem
      simp only at hk
      subst hk
      have := (mem_entriesFrom k v rest (k :: seen)).1 hin
      simp at this

theorem alookup_eq_some_iff_mem {V : Type} {l : List (String × V)}
    (hn : (l.map Prod.fst).Nodup) (k : String) (v : V) :
    alookup k l = some v ↔ (k, v) ∈ l := by
  induction l with
  | nil => simp [alookup]
  | cons e rest ih =>
    obtain ⟨k₀, v₀⟩ := e
    simp only [List.map_cons, List.nodup_cons] at hn
    by_cases hk : k₀ = k
    · subst hk
      simp only [alookup, if_true, Option.some.injEq, List.mem_cons, Prod.mk.injEq, true_and]
      constructor
      · intro h; exact Or.inl h.symm
      · rintro (h | h)
        · exact h.symm
        · exact absurd (List.mem_map.2 ⟨(k₀, v), h, rfl⟩) hn.1
    · have hk' : ¬ k = k₀ := fun h => hk h.symm
      simp [alookup, hk, hk', ih hn.2]

theorem alookup_perm {V : Type} {l₁ l₂ : List (String × V)} (hp : l₁.Perm l₂)
    (hn : (l₂.map Prod.fst).Nodup) (k : String) : alookup k l₁ = alookup k l₂ := by
  have hn₁ : (l₁.map Prod.fst).Nodup := (hp.map Prod.fst).nodup_iff.2 hn
  ext v
  simp only [Option.mem_def]
  rw [alookup_eq_some_iff_mem hn₁, alookup_eq_some_iff_mem hn, hp.mem_iff]

theorem alookup_entriesFrom_nil {V : Type} (l : List (String × V)) (k : String) :
    alookup k (entriesFrom [] l) = alookup k l := by
  ext v
  simp only [Option.mem_def]
  rw [alookup_eq_some_iff_mem (nodup_keys_entriesFrom l []), mem_entriesFrom]
  simp


/-! ## `LoadAll` and `Search` -/

theorem GoMap.find_eq_alookup_entries {V : Type} (m : GoMap V) (k : String) :
    m.find k = alookup k m.entries := by
  cases m with
  | none => simp [GoMap.find, GoMap.entries, alookup]
  | some l => simp [GoMap.find, GoMap.entries, alookup_entriesFrom_nil]

theorem GoMap.nodup_keys_entries {V : Type} (m : GoMap V) :
    (m.entries.map Prod.fst).Nodup := by
  cases m with
  | none => simp [GoMap.entries]
  | some l => exact nodup_keys_entriesFrom l []

/-- A schedule of the workers looks up like the map it was taken from. -/
theorem alookup_schedule {V : Type} (m : GoMap V) {schedule : List (String × V)}
    (hp : schedule.Perm m.entries) (k : String) : alookup k schedule = m.find k := by
  rw [GoMap.find_eq_alookup_entries]
  exact alookup_perm hp (GoMap.nodup_keys_entries m) k

theorem foldl_loadWorker_results (n : String) :
    ∀ (ws : List (String × Integration)) (acc : LoadAllAcc), (ws.map Prod.fst).Nodup →
      alookup n (ws.foldl loadWorker acc).results =
        match alookup n ws with
        | some i => if i.Load.2 = none then some i.Load.1 else alookup n acc.results
        | none => alookup n acc.results := by
  intro ws
  induction ws with
  | nil => intro acc _; simp [alookup]
  | cons w rest ih =>
    intro acc hn
    obtain ⟨k, i⟩ := w
    simp only [List.map_cons, List.nodup_cons] at hn
    rw [List.foldl_cons, ih _ hn.2]
    by_cases hk : k = n
    · subst hk
      have hrest : alookup k rest = none := by
        cases hr : alookup k rest with
        | none => rfl
        | some v =>
          exact absurd (List.mem_map.2 ⟨(k, v), (alookup_eq_some_iff_mem hn.2 k v).1 hr, rfl⟩) hn.1
      rw [hrest]
      simp only [alookup, if_true]
      rcases hL : i.Load with ⟨items, _ | err⟩
      · simp [loadWorker, hL, alookup_aset_self]
      · simp [loadWorker, hL]
    · have hacc : alookup n (loadWorker acc (k, i)).results = alookup n acc.results := by
        rcases hL : i.Load with ⟨items, _ | err⟩
        · simp [loadWorker, hL, alookup_aset_ne hk]
        · simp [loadWorker, hL]
      simp only [alookup, hk, if_false, hacc]

theorem foldl_loadWorker_errs :
    ∀ (ws : List (String × Integration)) (acc : LoadAllAcc),
      (ws.foldl loadWorker acc).errs.length > 0 ↔
        acc.errs.length > 0 ∨ ∃ w ∈ ws, w.2.Load.2 ≠ none := by
  intro ws
  induction ws with
  | nil => intro acc; simp
  | cons w rest ih =>
    intro acc
    rw [List.foldl_cons, ih]
    rcases hL : w.2.Load with ⟨items, _ | err⟩
    · simp [loadWorker, hL]
    · simp [loadWorker, hL]

/-- Claim C1. `LoadAll` returns, and whatever the order in which its workers take effect, the
returned map has, for every name, an entry exactly when an Integration is registered under
that name and its `Load` returned no error, the entry is the slice that `Load` returned (be it
empty or nil), and the returned error is non-nil exactly when the `Load` of some registered
Integration returned an error. -/
theorem LoadAll_returns_successful_loads (m : Manager) :
    (∃ r, m.LoadAll r) ∧
    ∀ r : GoMap (GoSlice Item) × Option GoError, m.LoadAll r →
      (∀ n : String, r.1.find n =
          match m.integrations.find n with
          | some i => if i.Load.2 = none then some i.Load.1 else none
          | none => none) ∧
      (r.2 ≠ none ↔ ∃ n i, m.integrations.find n = some i ∧ i.Load.2 ≠ none) := by
  refine ⟨⟨_, _, List.Perm.refl _, rfl⟩, ?_⟩
  intro r h
  obtain ⟨schedule, hp, rfl⟩ := h
  have hn : (schedule.map Prod.fst).Nodup :=
    (hp.map Prod.fst).nodup_iff.2 (GoMap.nodup_keys_entries _)
  have hres : ∀ n : String,
      alookup n (schedule.foldl loadWorker { results := [], errs := [] }).results =
        match m.integrations.find n with
        | some i => if i.Load.2 = none then some i.Load.1 else none
        | none => none := by
    intro n
    rw [foldl_loadWorker_results n schedule _ hn, alookup_schedule _ hp]
    simp [alookup]
  have herr : (schedule.foldl loadWorker { results := [], errs := [] }).errs.length > 0 ↔
      ∃ n i, m.integrations.find n = some i ∧ i.Load.2 ≠ none := by
    rw [foldl_loadWorker_errs]
    constructor
    · rintro (h0 | ⟨⟨n, i⟩, hw, hf⟩)
      · simp at h0
      · refine ⟨n, i, ?_, hf⟩
        rw [← alookup_schedule _ hp]
        exact (alookup_eq_some_iff_mem hn n i).2 hw
    · rintro ⟨n, i, hfind, hf⟩
      refine Or.inr ⟨(n, i), ?_, hf⟩
      rw [← alookup_schedule _ hp] at hfind
      exact (alookup_eq_some_iff_mem hn n i).1 hfind
  unfold LoadAll.run
  by_cases he : (schedule.foldl loadWorker { results := [], errs := [] }).errs.length > 0
  · simp only [he, if_true]
    exact ⟨fun n => by simpa [GoMap.find] using hres n, by simpa using herr.1 he⟩
  · simp only [he, if_false]
    refine ⟨fun n => by simpa [GoMap.find] using hres n, ?_⟩
    constructor
    · intro h; exact absurd rfl h
    · intro h; exact absurd (herr.2 h) he


theorem exManager_schedule :
    [("tasks", exBroken), ("notes", exWorking)].Perm exManager.integrations.entries := by
  have : exManager.integrations.entries = [("notes", exWorking), ("tasks", exBroken)] := by
    simp [exManager, GoMap.entries, entriesFrom]
  rw [this]
  exact List.Perm.swap _ _ _

/-- Witness for C1: with one working and one broken Integration, and the broken one's worker
first, `LoadAll` returns the working one's items under its name, nothing under the broken
one's name, and a non-nil error. -/
theorem LoadAll_returns_successful_loads_witness :
    exManager.LoadAll (LoadAll.run [("tasks", exBroken), ("notes", exWorking)]) ∧
    (LoadAll.run [("tasks", exBroken), ("notes", exWorking)]).1.find "notes"
      = some (some [exItem]) ∧
    (LoadAll.run [("tasks", exBroken), ("notes", exWorking)]).1.find "tasks" = none ∧
    (LoadAll.run [("tasks", exBroken), ("notes", exWorking)]).2 ≠ none := by
  have hrun : exManager.LoadAll (LoadAll.run [("tasks", exBroken), ("notes", exWorking)]) :=
    ⟨_, exManager_schedule, rfl⟩
  have h := (LoadAll_returns_successful_loads exManager).2 _ hrun
  refine ⟨hrun, ?_, ?_, ?_⟩
  · rw [h.1 "notes"]
    simp [exManager, GoMap.find, alookup, exWorking, mockIntegration]
  · rw [h.1 "tasks"]
    simp [exManager, GoMap.find, alookup, exBroken, mockIntegration]
  · rw [h.2]
    exact ⟨"tasks", exBroken, by simp [exManager, GoMap.find, alookup],
      by simp [exBroken, mockIntegration]⟩

theorem foldl_searchWorker (query n : String) :
    ∀ (ws : List (String × Integration)) (acc : List (String × GoSlice Item)),
      (ws.map Prod.fst).Nodup →
      alookup n (ws.foldl (searchWorker query) acc) =
        match alookup n ws with
        | some i =>
          if (i.Search query).2 = none ∧ (i.Search query).1.elems.length > 0
          then some (i.Search query).1 else alookup n acc
        | none => alookup n acc := by
  intro ws
  induction ws with
  | nil => intro acc _; simp [alookup]
  | cons w rest ih =>
    intro acc hn
    obtain ⟨k, i⟩ := w
    simp only [List.map_cons, List.nodup_cons] at hn
    rw [List.foldl_cons, ih _ hn.2]
    by_cases hk : k = n
    · subst hk
      have hrest : alookup k rest = none := by
        cases hr : alookup k rest with
        | none => rfl
        | some v =>
          exact absurd (List.mem_map.2 ⟨(k, v), (alookup_eq_some_iff_mem hn.2 k v).1 hr, rfl⟩) hn.1
      rw [hrest]
      simp only [alookup, if_true]
      rcases hS : i.Search query with ⟨items, _ | err⟩
      · by_cases hlen : items.elems.length > 0
        · simp [searchWorker, hS, hlen, alookup_aset_self]
        · simp [searchWorker, hS, hlen]
      · simp [searchWorker, hS]
    · have hacc : alookup n (searchWorker query acc (k, i)) = alookup n acc := by
        rcases hS : i.Search query with ⟨items, _ | err⟩
        · by_cases hlen : items.elems.length > 0
          · simp [searchWorker, hS, hlen, alookup_aset_ne hk]
          · simp [searchWorker, hS, hlen]
        · simp [searchWorker, hS]
      simp only [alookup, hk, if_false, hacc]

/-- Claim C2. `Search` returns, and whatever the order in which its workers take effect, the
returned error is nil, and the returned map has an entry for a name exactly when an
Integration is registered under that name and its `Search` returned no error and at least one
item; the entry is the slice that `Search` returned. -/
theorem Search_returns_nonempty_successes (m : Manager) (query : String) :
    (∃ r, m.Search query r) ∧
    ∀ r : GoMap (GoSlice Item) × Option GoError, m.Search query r →
      r.2 = none ∧
      ∀ n : String, r.1.find n =
        match m.integrations.find n with
        | some i =>
          if (i.Search query).2 = none ∧ (i.Search query).1.elems.length > 0
          then some (i.Search query).1 else none
        | none => none := by
  refine ⟨⟨_, _, List.Perm.refl _, rfl⟩, ?_⟩
  intro r h
  obtain ⟨schedule, hp, rfl⟩ := h
  have hn : (schedule.map Prod.fst).Nodup :=
    (hp.map Prod.fst).nodup_iff.2 (GoMap.nodup_keys_entries _)
  refine ⟨rfl, fun n => ?_⟩
  change alookup n (schedule.foldl (searchWorker query) []) = _
  rw [foldl_searchWorker query n schedule _ hn, alookup_schedule _ hp]
  simp [alookup]

/-- Witness for C2: the working Integration finds one item for `"match"`, the broken one
returns an error (next to a non-empty list); `Search` returns only the former, and no error. -/
theorem Search_returns_nonempty_successes_witness :
    exManager.Search "match" (Search.run "match" [("tasks", exBroken), ("notes", exWorking)]) ∧
    (Search.run "match" [("tasks", exBroken), ("notes", exWorking)]).2 = none ∧
    (Search.run "match" [("tasks", exBroken), ("notes", exWorking)]).1.find "notes"
      = some (some [exItem]) ∧
    (Search.run "match" [("tasks", exBroken), ("notes", exWorking)]).1.find "tasks" = none := by
  have hrun : exManager.Search "match"
      (Search.run "match" [("tasks", exBroken), ("notes", exWorking)]) :=
    ⟨_, exManager_schedule, rfl⟩
  have h := (Search_returns_nonempty_successes exManager "match").2 _ hrun
  refine ⟨hrun, h.1, ?_, ?_⟩
  · rw [h.2 "notes"]
    simp [exManager, GoMap.find, alookup, exWorking, mockIntegration, GoSlice.elems]
  · rw [h.2 "tasks"]
    simp [exManager, GoMap.find, alookup, exBroken, mockIntegration]


/-! ## Lists: the first match of a `range` loop -/

/-- The index found by a loop that stops at the first match splits the list there. -/
theorem findIdx?_split {α : Type} (p : α → Bool) :
    ∀ (l : List α) (i : Nat), l.findIdx? p = some i →
      ∃ pre x post, l = pre ++ x :: post ∧ pre.length = i ∧ p x = true ∧
        ∀ y ∈ pre, p y = false := by
  intro l
  induction l with
  | nil => intro i h; simp at h
  | cons a rest ih =>
    intro i h
    by_cases ha : p a = true
    · simp [List.findIdx?_cons, ha] at h
      subst h
      exact ⟨[], a, rest, rfl, rfl, ha, by simp⟩
    · simp [List.findIdx?_cons, ha] at h
      obtain ⟨j, hj, rfl⟩ := h
      obtain ⟨pre, x, post, hl, hlen, hx, hpre⟩ := ih j hj
      refine ⟨a :: pre, x, post, by simp [hl], by simp [hlen], hx, ?_⟩
      intro y hy
      rcases List.mem_cons.1 hy with h | h
      · subst h; simpa using ha
      · exact hpre y h

theorem findIdx?_none_iff {α : Type} (p : α → Bool) (l : List α) :
    l.findIdx? p = none ↔ ∀ y ∈ l, p y = false := by
  induction l with
  | nil => simp
  | cons a rest ih =>
    by_cases ha : p a = true
    · simp [List.findIdx?_cons, ha]
    · simp [List.findIdx?_cons, ha, ih]

theorem findIdx?_append_first {α : Type} (p : α → Bool) (pre post : List α) (x : α)
    (hx : p x = true) (hpre : ∀ y ∈ pre, p y = false) :
    (pre ++ x :: post).findIdx? p = some pre.length := by
  induction pre with
  | nil => simp [List.findIdx?_cons, hx]
  | cons a rest ih =>
    have ha : p a = false := hpre a (List.mem_cons_self _ _)
    have := ih (fun y hy => hpre y (List.mem_cons_of_mem _ hy))
    simp [List.findIdx?_cons, ha, this]

theorem modify_append_length {α : Type} (f : α → α) (pre post : List α) (x : α) :
    (pre ++ x :: post).modify f pre.length = pre ++ f x :: post := by
  induction pre with
  | nil => rfl
  | cons a rest ih => simpa [List.modify] using ih

theorem take_append_length {α : Type} (pre post : List α) :
    (pre ++ post).take pre.length = pre := by
  simp

theorem drop_append_length_succ {α : Type} (pre post : List α) (x : α) :
    (pre ++ x :: post).drop (pre.length + 1) = post := by
  induction pre with
  | nil => rfl
  | cons a rest ih => simp

theorem getElem?_append_length {α : Type} (pre post : List α) (x : α) :
    (pre ++ x :: post)[pre.length]? = some x := by
  induction pre with
  | nil => simp
  | cons a rest ih => simpa using ih

theorem erase_append_first {α : Type} [DecidableEq α] (pre post : List α) (x : α)
    (hpre : x ∉ pre) : (pre ++ x :: post).erase x = pre ++ post := by
  induction pre with
  | nil => simp
  | cons a rest ih =>
    have ha : a ≠ x := fun h => hpre (h ▸ List.mem_cons_self _ _)
    have hr : x ∉ rest := fun h => hpre (List.mem_cons_of_mem _ h)
    simp [List.erase_cons, ha, ih hr]


/-! ## Maps of slices -/

theorem aset_aset {V : Type} (k : String) (v v' : V) (l : List (String × V)) :
    aset k v (aset k v' l) = aset k v l := by
  induction l with
  | nil => simp [aset]
  | cons e rest ih =>
    obtain ⟨k₀, v₀⟩ := e
    by_cases h : k₀ = k
    · simp [aset, h]
    · simp [aset, h, ih]

theorem GoMap.get_aset_self {α : Type} (k : String) (v : GoSlice α)
    (l : List (String × GoSlice α)) : GoMap.get (some (aset k v l)) k = v := by
  simp [GoMap.get, alookup_aset_self]

theorem GoMap.get_aset_ne {α : Type} {k k' : String} (h : k ≠ k') (v : GoSlice α)
    (l : List (String × GoSlice α)) :
    GoMap.get (some (aset k v l)) k' = GoMap.get (some l) k' := by
  simp [GoMap.get, alookup_aset_ne h]

theorem GoSlice.elems_eq_nil_of_isNone {α : Type} {s : GoSlice α} (h : s.isNone = true) :
    s.elems = [] := by
  cases s with
  | none => rfl
  | some l => simp at h

theorem GoSlice.eq_some_elems {α : Type} {s : GoSlice α} (h : s.isNone = false) :
    s = some s.elems := by
  cases s with
  | none => simp at h
  | some l => rfl

/-! ## Favorites -/

theorem State.GetFavorites_eq (s : State) (n : String) :
    s.GetFavorites n = (s.Favorites.get n).elems := by
  unfold State.GetFavorites GoSlice.elems
  cases s.Favorites.get n <;> rfl

theorem State.IsFavorite_iff (s : State) (n id : String) :
    s.IsFavorite n id = true ↔ id ∈ s.GetFavorites n := by
  rw [State.GetFavorites_eq]
  simp [State.IsFavorite]

theorem State.AddFavorite_nil (s : State) (os : OS) (n id : String) (h : s.Favorites = none) :
    s.AddFavorite os n id = .error "assignment to entry in nil map" := by
  simp [State.AddFavorite, h, GoMap.get, GoMap.set]

theorem State.AddFavorite_of_mem (s : State) (os : OS) (n id : String)
    (h : id ∈ s.GetFavorites n) : s.AddFavorite os n id = .ok (s, os, none) := by
  rw [State.GetFavorites_eq] at h
  have hne : (s.Favorites.get n).isNone = false := by
    cases hg : s.Favorites.get n with
    | none => simp [hg, GoSlice.elems] at h
    | some l => rfl
  have hany : (s.Favorites.get n).elems.any (fun x => x == id) = true := by
    simpa using h
  simp only [State.AddFavorite, hne, Bool.false_eq_true, if_false, hany, if_true]

theorem State.AddFavorite_of_not_mem (s : State) (os : OS) (n id : String)
    (l : List (String × GoSlice String)) (hl : s.Favorites = some l)
    (h : id ∉ s.GetFavorites n) :
    s.AddFavorite os n id =
      .ok ({ s with Favorites := some (aset n (some (s.GetFavorites n ++ [id])) l) },
           (State.saveUnlocked
              { s with Favorites := some (aset n (some (s.GetFavorites n ++ [id])) l) } os).1,
           (State.saveUnlocked
              { s with Favorites := some (aset n (some (s.GetFavorites n ++ [id])) l) } os).2) := by
  obtain ⟨favs, recs, path⟩ := s
  simp only at hl
  subst hl
  rcases ha : alookup n l with _ | _ | x
  · simp [State.AddFavorite, State.GetFavorites, GoMap.get, GoMap.set, ha, GoSlice.elems,
      goAppend, aset_aset, alookup_aset_self]
  · simp [State.AddFavorite, State.GetFavorites, GoMap.get, GoMap.set, ha, GoSlice.elems,
      goAppend, aset_aset, alookup_aset_self]
  · have hx : id ∉ x := by
      simpa [State.GetFavorites, GoMap.get, ha] using h
    simp [State.AddFavorite, State.GetFavorites, GoMap.get, GoMap.set, ha, GoSlice.elems,
      goAppend, hx]


theorem State.RemoveFavorite_of_not_mem (s : State) (os : OS) (n id : String)
    (h : id ∉ s.GetFavorites n) : s.RemoveFavorite os n id = .ok (s, os, none) := by
  rw [State.GetFavorites_eq] at h
  have hnone : (s.Favorites.get n).elems.findIdx? (fun x => x == id) = none := by
    rw [findIdx?_none_iff]
    intro y hy
    have : y ≠ id := fun e => h (e ▸ hy)
    simpa using this
  simp only [State.RemoveFavorite, hnone]

theorem State.Favorites_ne_none_of_mem (s : State) (n id : String) (h : id ∈ s.GetFavorites n) :
    ∃ l, s.Favorites = some l := by
  cases hf : s.Favorites with
  | none => simp [State.GetFavorites, GoMap.get, hf] at h
  | some l => exact ⟨l, rfl⟩

theorem State.RemoveFavorite_of_mem (s : State) (os : OS) (n id : String)
    (l : List (String × GoSlice String)) (hl : s.Favorites = some l)
    (h : id ∈ s.GetFavorites n) :
    s.RemoveFavorite os n id =
      .ok ({ s with Favorites := some (aset n (some ((s.GetFavorites n).erase id)) l) },
           (State.saveUnlocked
              { s with Favorites := some (aset n (some ((s.GetFavorites n).erase id)) l) } os).1,
           (State.saveUnlocked
              { s with Favorites := some (aset n (some ((s.GetFavorites n).erase id)) l) } os).2) := by
  rw [State.GetFavorites_eq] at h ⊢
  have hsome : ∃ i, (s.Favorites.get n).elems.findIdx? (fun x => x == id) = some i := by
    cases hf : (s.Favorites.get n).elems.findIdx? (fun x => x == id) with
    | some i => exact ⟨i, rfl⟩
    | none =>
      have := (findIdx?_none_iff _ _).1 hf id h
      simp at this
  obtain ⟨i, hi⟩ := hsome
  obtain ⟨pre, x, post, hsplit, hlen, hx, hpre⟩ := findIdx?_split _ _ _ hi
  have hxid : x = id := by simpa using hx
  subst hxid
  have hpre' : x ∉ pre := fun hm => by simpa using hpre x hm
  have hrem : (s.Favorites.get n).elems.take i ++ (s.Favorites.get n).elems.drop (i + 1)
      = (s.Favorites.get n).elems.erase x := by
    rw [hsplit, ← hlen, erase_append_first pre post x hpre', drop_append_length_succ]
    simp
  unfold State.RemoveFavorite
  simp only []
  rw [hi]
  simp only [hl, GoMap.set]
  rw [← hl, hrem]

/-! ## Recents -/

theorem State.GetRecents_eq (s : State) (n : String) :
    s.GetRecents n = (s.recentsOf n).map (fun r => r.ItemID) := by
  unfold State.GetRecents State.recentsOf GoSlice.elems
  cases s.Recents.get n <;> rfl

theorem State.AddRecent_nil (s : State) (os : OS) (now : Int) (n id : String)
    (h : s.Recents = none) :
    s.AddRecent os now n id = .error "assignment to entry in nil map" := by
  simp [State.AddRecent, h, GoMap.get, GoMap.set]

theorem State.Recents_ne_none_of_mem (s : State) (n id : String) (h : id ∈ s.GetRecents n) :
    ∃ l, s.Recents = some l := by
  cases hf : s.Recents with
  | none => simp [State.GetRecents, GoMap.get, hf] at h
  | some l => exact ⟨l, rfl⟩

/-- The first entry of `id` in a recents list that holds `id`. -/
theorem recents_split (rs : List RecentItem) (id : String)
    (h : id ∈ rs.map (fun r => r.ItemID)) :
    ∃ pre t post, rs = pre ++ { ItemID := id, LastAccessed := t } :: post ∧
      id ∉ pre.map (fun r => r.ItemID) ∧
      rs.findIdx? (fun r => r.ItemID == id) = some pre.length := by
  cases hf : rs.findIdx? (fun r => r.ItemID == id) with
  | none =>
    obtain ⟨r, hr, hrid⟩ := List.mem_map.1 h
    have := (findIdx?_none_iff _ _).1 hf r hr
    simp [hrid] at this
  | some i =>
    obtain ⟨pre, x, post, hsplit, hlen, hx, hpre⟩ := findIdx?_split _ _ _ hf
    obtain ⟨xid, t⟩ := x
    have hxid : xid = id := by simpa using hx
    subst hxid
    refine ⟨pre, t, post, hsplit, ?_, by rw [hlen]⟩
    intro hm
    obtain ⟨r, hr, hrid⟩ := List.mem_map.1 hm
    have := hpre r hr
    simp [hrid] at this

theorem State.AddRecent_of_mem (s : State) (os : OS) (now : Int) (n id : String)
    (l : List (String × GoSlice RecentItem)) (hl : s.Recents = some l)
    (pre post : List RecentItem) (t : Int)
    (hsplit : s.recentsOf n = pre ++ { ItemID := id, LastAccessed := t } :: post)
    (hpre : id ∉ pre.map (fun r => r.ItemID)) :
    s.AddRecent os now n id =
      .ok ({ s with Recents := some (aset n
              (some ({ ItemID := id, LastAccessed := now } :: (pre ++ post))) l) },
           (State.saveUnlocked { s with Recents := some (aset n
              (some ({ ItemID := id, LastAccessed := now } :: (pre ++ post))) l) }
              os).1,
           (State.saveUnlocked { s with Recents := some (aset n
              (some ({ ItemID := id, LastAccessed := now } :: (pre ++ post))) l) }
              os).2) := by
  obtain ⟨favs, recs, path⟩ := s
  simp only at hl
  subst hl
  simp only [State.recentsOf] at hsplit
  have hne : (GoMap.get (some l) n).isNone = false := by
    cases hg : GoMap.get (some l) n with
    | none => simp [hg, GoSlice.elems] at hsplit
    | some l => rfl
  have hidx : (pre ++ { ItemID := id, LastAccessed := t } :: post).findIdx?
      (fun r => r.ItemID == id) = some pre.length := by
    apply findIdx?_append_first
    · simp
    · intro y hy
      have : y.ItemID ≠ id := fun e => hpre (List.mem_map.2 ⟨y, hy, e⟩)
      simpa using this
  simp only [State.AddRecent, hne, Bool.false_eq_true, if_false, hidx, hsplit,
    modify_append_length, getElem?_append_length, take_append_length, drop_append_length_succ,
    GoMap.set]
  rfl

theorem State.AddRecent_of_not_mem (s : State) (os : OS) (now : Int) (n id : String)
    (l : List (String × GoSlice RecentItem)) (hl : s.Recents = some l)
    (h : id ∉ s.GetRecents n) :
    s.AddRecent os now n id =
      .ok ({ s with Recents := some (aset n
              (some (({ ItemID := id, LastAccessed := now } :: s.recentsOf n).take MaxRecentItems))
              l) },
           (State.saveUnlocked { s with Recents := some (aset n
              (some (({ ItemID := id, LastAccessed := now } :: s.recentsOf n).take MaxRecentItems))
              l) }
              os).1,
           (State.saveUnlocked { s with Recents := some (aset n
              (some (({ ItemID := id, LastAccessed := now } :: s.recentsOf n).take MaxRecentItems))
              l) }
              os).2) := by
  rw [State.GetRecents_eq] at h
  have hbound : ∀ added : List RecentItem,
      (if added.length > MaxRecentItems then added.take MaxRecentItems else added)
        = added.take MaxRecentItems := by
    intro added
    by_cases hlen : added.length > MaxRecentItems
    · simp [hlen]
    · simp only [hlen, if_false]
      exact (List.take_of_length_le (by omega)).symm
  have hidx : ∀ rs : List RecentItem, id ∉ rs.map (fun r => r.ItemID) →
      rs.findIdx? (fun r => r.ItemID == id) = none := by
    intro rs hrs
    rw [findIdx?_none_iff]
    intro y hy
    have : y.ItemID ≠ id := fun e => hrs (List.mem_map.2 ⟨y, hy, e⟩)
    simpa using this
  obtain ⟨favs, recs, path⟩ := s
  simp only at hl
  subst hl
  unfold State.AddRecent
  simp only [hbound]
  rcases ha : alookup n l with _ | _ | x
  · simp [State.recentsOf, GoMap.get, GoMap.set, ha, GoSlice.elems, aset_aset,
      alookup_aset_self]
  · simp [State.recentsOf, GoMap.get, GoMap.set, ha, GoSlice.elems, aset_aset,
      alookup_aset_self]
  · have hx : id ∉ x.map (fun r => r.ItemID) := by
      simpa [State.recentsOf, GoMap.get, ha, GoSlice.elems] using h
    simp [State.recentsOf, GoMap.get, GoMap.set, ha, GoSlice.elems, hidx x hx]


/-! ## What one call does to the lists -/

theorem State.saveUnlocked_err (s : State) (os : OS) :
    (s.saveUnlocked os).2 =
      match os.mkdirFault (filepathDir s.statePath) with
      | some e => some e
      | none => os.writeFault s.statePath := by
  unfold State.saveUnlocked OS.WriteFile
  cases os.mkdirFault (filepathDir s.statePath) with
  | some e => rfl
  | none => cases os.writeFault s.statePath <;> rfl

/-- Effect of `AddFavorite` on a State whose `Favorites` map is not nil. -/
theorem State.AddFavorite_step (s : State) (os : OS) (n id : String)
    (hne : s.Favorites ≠ none) :
    ∃ s' os' err, s.AddFavorite os n id = .ok (s', os', err) ∧
      s'.GetFavorites n = (if id ∈ s.GetFavorites n then s.GetFavorites n
                           else s.GetFavorites n ++ [id]) ∧
      (∀ n', n ≠ n' → s'.GetFavorites n' = s.GetFavorites n') ∧
      s'.Favorites ≠ none ∧ s'.Recents = s.Recents ∧ s'.statePath = s.statePath ∧
      (id ∈ s.GetFavorites n → s' = s ∧ os' = os ∧ err = none) ∧
      (id ∉ s.GetFavorites n → os' = (s'.saveUnlocked os).1 ∧ err = (s'.saveUnlocked os).2) := by
  obtain ⟨l, hl⟩ : ∃ l, s.Favorites = some l := by
    cases hf : s.Favorites with
    | none => exact absurd hf hne
    | some l => exact ⟨l, rfl⟩
  by_cases h : id ∈ s.GetFavorites n
  · refine ⟨s, os, none, State.AddFavorite_of_mem s os n id h, by simp [h], fun _ _ => rfl, hne,
      rfl, rfl, fun _ => ⟨rfl, rfl, rfl⟩, fun h' => absurd h h'⟩
  · refine ⟨_, _, _, State.AddFavorite_of_not_mem s os n id l hl h, ?_, ?_, by simp, rfl, rfl,
      fun h' => absurd h' h, fun _ => ⟨rfl, rfl⟩⟩
    · simp only [h, if_false]
      rw [State.GetFavorites_eq]
      simp only [GoMap.get_aset_self, GoSlice.elems]
    · intro n' hn'
      simp only [State.GetFavorites_eq, GoMap.get_aset_ne hn']
      rw [hl]

/-- Effect of `RemoveFavorite`: it never panics. -/
theorem State.RemoveFavorite_step (s : State) (os : OS) (n id : String) :
    ∃ s' os' err, s.RemoveFavorite os n id = .ok (s', os', err) ∧
      s'.GetFavorites n = (s.GetFavorites n).erase id ∧
      (∀ n', n ≠ n' → s'.GetFavorites n' = s.GetFavorites n') ∧
      (s.Favorites ≠ none → s'.Favorites ≠ none) ∧
      s'.Recents = s.Recents ∧ s'.statePath = s.statePath ∧
      (id ∉ s.GetFavorites n → s' = s ∧ os' = os ∧ err = none) ∧
      (id ∈ s.GetFavorites n → os' = (s'.saveUnlocked os).1 ∧ err = (s'.saveUnlocked os).2) := by
  by_cases h : id ∈ s.GetFavorites n
  · obtain ⟨l, hl⟩ := State.Favorites_ne_none_of_mem s n id h
    refine ⟨_, _, _, State.RemoveFavorite_of_mem s os n id l hl h, ?_, ?_, by simp, rfl, rfl,
      fun h' => absurd h h', fun _ => ⟨rfl, rfl⟩⟩
    · rw [State.GetFavorites_eq]
      simp only [GoMap.get_aset_self, GoSlice.elems]
    · intro n' hn'
      simp only [State.GetFavorites_eq, GoMap.get_aset_ne hn']
      rw [hl]
  · refine ⟨s, os, none, State.RemoveFavorite_of_not_mem s os n id h, ?_, fun _ _ => rfl,
      fun h' => h', rfl, rfl, fun _ => ⟨rfl, rfl, rfl⟩, fun h' => absurd h' h⟩
    exact (List.erase_of_not_mem h).symm

/-- Effect of `AddRecent` of an id that is not in the list, on a State whose `Recents` map is
not nil. -/
theorem State.AddRecent_step_new (s : State) (os : OS) (now : Int) (n id : String)
    (hne : s.Recents ≠ none) (h : id ∉ s.GetRecents n) :
    ∃ s', s.AddRecent os now n id = .ok (s', (s'.saveUnlocked os).1, (s'.saveUnlocked os).2) ∧
      s'.recentsOf n
        = ({ ItemID := id, LastAccessed := now } :: s.recentsOf n).take MaxRecentItems ∧
      (∀ n', n ≠ n' → s'.recentsOf n' = s.recentsOf n') ∧
      s'.Recents ≠ none ∧ s'.Favorites = s.Favorites ∧ s'.statePath = s.statePath := by
  obtain ⟨l, hl⟩ : ∃ l, s.Recents = some l := by
    cases hf : s.Recents with
    | none => exact absurd hf hne
    | some l => exact ⟨l, rfl⟩
  refine ⟨_, State.AddRecent_of_not_mem s os now n id l hl h, ?_, ?_, by simp, rfl, rfl⟩
  · simp only [State.recentsOf, GoMap.get_aset_self, GoSlice.elems]
  · intro n' hn'
    simp only [State.recentsOf, GoMap.get_aset_ne hn', hl]

/-- Effect of `AddRecent` of an id that is in the list: `pre` are the entries before its first
entry, `post` the entries after it. -/
theorem State.AddRecent_step_present (s : State) (os : OS) (now : Int) (n id : String)
    (pre post : List RecentItem) (t : Int)
    (hsplit : s.recentsOf n = pre ++ { ItemID := id, LastAccessed := t } :: post)
    (hpre : id ∉ pre.map (fun r => r.ItemID)) :
    ∃ s', s.AddRecent os now n id = .ok (s', (s'.saveUnlocked os).1, (s'.saveUnlocked os).2) ∧
      s'.recentsOf n = { ItemID := id, LastAccessed := now } :: (pre ++ post) ∧
      (∀ n', n ≠ n' → s'.recentsOf n' = s.recentsOf n') ∧
      s'.Recents ≠ none ∧ s'.Favorites = s.Favorites ∧ s'.statePath = s.statePath := by
  have hmem : id ∈ s.GetRecents n := by
    rw [State.GetRecents_eq, hsplit]
    simp
  obtain ⟨l, hl⟩ := State.Recents_ne_none_of_mem s n id hmem
  refine ⟨_, State.AddRecent_of_mem s os now n id l hl pre post t hsplit hpre, ?_, ?_, by simp,
    rfl, rfl⟩
  · simp only [State.recentsOf, GoMap.get_aset_self, GoSlice.elems]
  · intro n' hn'
    simp only [State.recentsOf, GoMap.get_aset_ne hn', hl]


/-! ## Invariants of the reachable States -/

theorem State.recentsOf_empty (p n : String) : (State.empty p).recentsOf n = [] := by
  simp [State.recentsOf, State.empty, GoMap.get, alookup, GoSlice.elems]

theorem State.GetFavorites_empty (p n : String) : (State.empty p).GetFavorites n = [] := by
  simp [State.GetFavorites, State.empty, GoMap.get, alookup]

/-- Both maps are allocated, no list holds an id twice, and no recents list is longer than
`MaxRecentItems`, in every reachable State. -/
theorem Reachable.inv {s : State} (h : Reachable s) :
    s.Favorites ≠ none ∧ s.Recents ≠ none ∧
    ∀ n, (s.GetFavorites n).Nodup ∧ (s.GetRecents n).Nodup ∧
      (s.recentsOf n).length ≤ MaxRecentItems := by
  induction h with
  | empty p =>
    refine ⟨by simp [State.empty], by simp [State.empty], fun n => ?_⟩
    simp [State.GetRecents_eq, State.recentsOf_empty, State.GetFavorites_empty]
  | @addFavorite s s' os os' err n id _ hcall ih =>
    obtain ⟨hF, hR, hL⟩ := ih
    obtain ⟨s'', os'', err'', heq, hfav, hother, hF', hR', _, _, _⟩ :=
      State.AddFavorite_step s os n id hF
    rw [heq] at hcall
    injection hcall with hcall
    injection hcall with hs _
    subst hs
    refine ⟨hF', by rw [hR']; exact hR, fun m => ?_⟩
    have hrec : s''.recentsOf m = s.recentsOf m := by simp [State.recentsOf, hR']
    refine ⟨?_, by rw [State.GetRecents_eq, hrec, ← State.GetRecents_eq]; exact (hL m).2.1,
      by rw [hrec]; exact (hL m).2.2⟩
    by_cases hm : n = m
    · subst hm
      rw [hfav]
      by_cases hid : id ∈ s.GetFavorites n
      · simpa [hid] using (hL n).1
      · simp only [hid, if_false]
        exact List.Nodup.append (hL n).1 (List.nodup_singleton id) (by simpa using hid)
    · rw [hother m hm]; exact (hL m).1
  | @removeFavorite s s' os os' err n id _ hcall ih =>
    obtain ⟨hF, hR, hL⟩ := ih
    obtain ⟨s'', os'', err'', heq, hfav, hother, hF', hR', _, _, _⟩ :=
      State.RemoveFavorite_step s os n id
    rw [heq] at hcall
    injection hcall with hcall
    injection hcall with hs _
    subst hs
    refine ⟨hF' hF, by rw [hR']; exact hR, fun m => ?_⟩
    have hrec : s''.recentsOf m = s.recentsOf m := by simp [State.recentsOf, hR']
    refine ⟨?_, by rw [State.GetRecents_eq, hrec, ← State.GetRecents_eq]; exact (hL m).2.1,
      by rw [hrec]; exact (hL m).2.2⟩
    by_cases hm : n = m
    · subst hm
      rw [hfav]
      exact (hL n).1.erase id
    · rw [hother m hm]; exact (hL m).1
  | @addRecent s s' os os' err now n id _ hcall ih =>
    obtain ⟨hF, hR, hL⟩ := ih
    by_cases hid : id ∈ s.GetRecents n
    · have hid' := hid
      rw [State.GetRecents_eq] at hid'
      obtain ⟨pre, t, post, hsplit, hpre, _⟩ := recents_split _ id hid'
      obtain ⟨s'', heq, hrec, hother, hR', hF', _⟩ :=
        State.AddRecent_step_present s os now n id pre post t hsplit hpre
      rw [heq] at hcall
      injection hcall with hcall
      injection hcall with hs _
      subst hs
      refine ⟨by rw [hF']; exact hF, hR', fun m => ?_⟩
      have hfav : s''.GetFavorites m = s.GetFavorites m := by
        simp [State.GetFavorites_eq, hF']
      refine ⟨by rw [hfav]; exact (hL m).1, ?_⟩
      by_cases hm : n = m
      · subst hm
        have hnd := (hL n).2.1
        have hlen := (hL n).2.2
        rw [State.GetRecents_eq, hsplit] at hnd
        rw [hsplit] at hlen
        rw [State.GetRecents_eq, hrec]
        constructor
        · have hperm : (List.map (fun r => r.ItemID)
              ({ ItemID := id, LastAccessed := now } :: (pre ++ post))).Perm
              (List.map (fun r => r.ItemID)
                (pre ++ { ItemID := id, LastAccessed := t } :: post)) := by
            simp only [List.map_cons, List.map_append]
            exact List.perm_middle.symm
          exact hperm.nodup_iff.2 hnd
        · simpa using hlen
      · rw [State.GetRecents_eq, hother m hm, ← State.GetRecents_eq]
        exact (hL m).2
    · obtain ⟨s'', heq, hrec, hother, hR', hF', _⟩ :=
        State.AddRecent_step_new s os now n id hR hid
      rw [heq] at hcall
      injection hcall with hcall
      injection hcall with hs _
      subst hs
      refine ⟨by rw [hF']; exact hF, hR', fun m => ?_⟩
      have hfav : s''.GetFavorites m = s.GetFavorites m := by
        simp [State.GetFavorites_eq, hF']
      refine ⟨by rw [hfav]; exact (hL m).1, ?_⟩
      by_cases hm : n = m
      · subst hm
        rw [State.GetRecents_eq, hrec]
        constructor
        · rw [List.map_take]
          have hcons : (List.map (fun r => r.ItemID)
              ({ ItemID := id, LastAccessed := now } :: s.recentsOf n)).Nodup := by
            simp only [List.map_cons, List.nodup_cons]
            refine ⟨?_, ?_⟩
            · rw [← State.GetRecents_eq]; exact hid
            · rw [← State.GetRecents_eq]; exact (hL n).2.1
          exact hcons.sublist (List.take_sublist _ _)
        · exact List.length_take_le _ _
      · rw [State.GetRecents_eq, hother m hm, ← State.GetRecents_eq]
        exact (hL m).2


/-! ## Recents: most recently used first -/

theorem State.recentsOf_eq_nil_of_GetRecents (s : State) (n : String)
    (h : s.GetRecents n = []) : s.recentsOf n = [] := by
  rw [State.GetRecents_eq] at h
  exact List.map_eq_nil_iff.1 h

/-- Two calls of `AddRecent` with distinct ids on an Integration without recents. -/
theorem State.AddRecent_two_new (s : State) (os₁ os₂ : OS) (t₁ t₂ : Int) (n a b : String)
    (hne : s.Recents ≠ none) (hempty : s.GetRecents n = []) (hab : a ≠ b) :
    ∃ s₁ o₁ e₁ s₂ o₂ e₂,
      s.AddRecent os₁ t₁ n a = .ok (s₁, o₁, e₁) ∧
      s₁.AddRecent os₂ t₂ n b = .ok (s₂, o₂, e₂) ∧
      s₂.recentsOf n = [{ ItemID := b, LastAccessed := t₂ }, { ItemID := a, LastAccessed := t₁ }] ∧
      s₂.Recents ≠ none := by
  have h0 := State.recentsOf_eq_nil_of_GetRecents s n hempty
  obtain ⟨s₁, hc₁, hr₁, _, hne₁, _⟩ :=
    State.AddRecent_step_new s os₁ t₁ n a hne (by simp [hempty])
  rw [h0] at hr₁
  have hr₁' : s₁.recentsOf n = [{ ItemID := a, LastAccessed := t₁ }] := by
    rw [hr₁]; simp [MaxRecentItems]
  obtain ⟨s₂, hc₂, hr₂, _, hne₂, _⟩ :=
    State.AddRecent_step_new s₁ os₂ t₂ n b hne₁
      (by rw [State.GetRecents_eq, hr₁']; simpa using fun h => hab h.symm)
  rw [hr₁'] at hr₂
  refine ⟨s₁, _, _, s₂, _, _, hc₁, hc₂, ?_, hne₂⟩
  rw [hr₂]; simp [MaxRecentItems]

theorem State.GetRecentTimestamp_head (s : State) (n id : String) (t : Int)
    (rest : List RecentItem)
    (h : s.recentsOf n = { ItemID := id, LastAccessed := t } :: rest) :
    s.GetRecentTimestamp n id = some t := by
  unfold State.recentsOf at h
  simp [State.GetRecentTimestamp, h]

/-- Claim C3. `AddRecent(name, id)` for an id that is in the recents of `name` returns, and
afterwards the list has the same length, starts with `id` at the current time, and goes on
with the other previous entries (those before and those after the first entry of `id`) in
their previous order with their timestamps. From no recents for `"x"`, the calls
`a`, `b`, `a` give `GetRecents("x") = [a, b]`. -/
theorem AddRecent_present_moves_to_front :
    (∀ (s : State) (os : OS) (now : Int) (n id : String), id ∈ s.GetRecents n →
      ∃ s' os' err pre t post,
        s.AddRecent os now n id = .ok (s', os', err) ∧
        s.recentsOf n = pre ++ { ItemID := id, LastAccessed := t } :: post ∧
        id ∉ pre.map (fun r => r.ItemID) ∧
        s'.recentsOf n = { ItemID := id, LastAccessed := now } :: (pre ++ post) ∧
        (s'.recentsOf n).length = (s.recentsOf n).length ∧
        s'.GetRecentTimestamp n id = some now) ∧
    (∀ (s : State) (os₁ os₂ os₃ : OS) (t₁ t₂ t₃ : Int),
      s.Recents ≠ none → s.GetRecents "x" = [] →
      ∃ s₁ o₁ e₁ s₂ o₂ e₂ s₃ o₃ e₃,
        s.AddRecent os₁ t₁ "x" "a" = .ok (s₁, o₁, e₁) ∧
        s₁.AddRecent os₂ t₂ "x" "b" = .ok (s₂, o₂, e₂) ∧
        s₂.AddRecent os₃ t₃ "x" "a" = .ok (s₃, o₃, e₃) ∧
        s₃.GetRecents "x" = ["a", "b"]) := by
  constructor
  · intro s os now n id h
    have h' := h
    rw [State.GetRecents_eq] at h'
    obtain ⟨pre, t, post, hsplit, hpre, _⟩ := recents_split _ id h'
    obtain ⟨s', hcall, hrec, _⟩ :=
      State.AddRecent_step_present s os now n id pre post t hsplit hpre
    refine ⟨s', _, _, pre, t, post, hcall, hsplit, hpre, hrec, ?_,
      State.GetRecentTimestamp_head s' n id now _ hrec⟩
    rw [hrec, hsplit]
    simp only [List.length_cons, List.length_append]
    omega
  · intro s os₁ os₂ os₃ t₁ t₂ t₃ hne hempty
    obtain ⟨s₁, o₁, e₁, s₂, o₂, e₂, hc₁, hc₂, hr₂, hne₂⟩ :=
      State.AddRecent_two_new s os₁ os₂ t₁ t₂ "x" "a" "b" hne hempty (by decide)
    obtain ⟨s₃, hc₃, hr₃, _⟩ :=
      State.AddRecent_step_present s₂ os₃ t₃ "x" "a"
        [{ ItemID := "b", LastAccessed := t₂ }] [] t₁ (by rw [hr₂]; rfl) (by simp)
    refine ⟨s₁, o₁, e₁, s₂, o₂, e₂, s₃, _, _, hc₁, hc₂, hc₃, ?_⟩
    rw [State.GetRecents_eq, hr₃]
    rfl

/-- Witness for C3: in the State left by `a` then `b`, `AddRecent("x","a")` at time 3 moves
`a` in front of `b` and keeps the timestamp of `b`. -/
theorem AddRecent_present_moves_to_front_witness :
    "a" ∈ exStateBA.GetRecents "x" ∧
    ∃ s' os' err, exStateBA.AddRecent exFreshOS 3 "x" "a" = .ok (s', os', err) ∧
      s'.recentsOf "x" = [{ ItemID := "a", LastAccessed := 3 },
                          { ItemID := "b", LastAccessed := 2 }] := by
  have hmem : "a" ∈ exStateBA.GetRecents "x" := by decide
  refine ⟨hmem, ?_⟩
  obtain ⟨s', os', err, pre, t, post, hcall, hsplit, hpre, hrec, _⟩ :=
    AddRecent_present_moves_to_front.1 exStateBA exFreshOS 3 "x" "a" hmem
  refine ⟨s', os', err, hcall, ?_⟩
  have hlist : exStateBA.recentsOf "x"
      = [{ ItemID := "b", LastAccessed := 2 }, { ItemID := "a", LastAccessed := 1 }] := by
    decide
  rw [hlist] at hsplit
  -- the first entry of `a` is the second entry of the list
  match pre, hsplit, hpre with
  | [], hsplit, _ => simp at hsplit
  | [p], hsplit, _ =>
    simp only [List.cons_append, List.nil_append, List.cons.injEq] at hsplit
    obtain ⟨hp, _, hpost⟩ := hsplit
    rw [hrec, ← hp, ← hpost]
    rfl
  | p :: q :: pre', hsplit, hpre =>
    simp only [List.cons_append, List.cons.injEq] at hsplit
    obtain ⟨_, hq, _⟩ := hsplit
    exact absurd (by simp [← hq]) hpre


/-! ## The bound on the recents -/

/-- Claim C4, on the failing input. The Manager is configured with `MaxRecentItems = 2`, and
after `a`, `b`, `c` on a fresh install `GetRecents("x")` is `[c, b, a]`, not `[c, b]`: three
entries, more than the configured two. The State that `NewManager` builds is the same for
every value of `MaxRecentItems`: the setting is stored in the Config and read nowhere, and
`AddRecent` truncates at its own constant 20. -/
theorem configured_maximum_is_ignored :
    exConfigMax2.MaxRecentItems = 2 ∧
    exRecentsMax2 = some ["c", "b", "a"] ∧
    exRecentsMax2 ≠ some ["c", "b"] ∧
    MaxRecentItems = 20 ∧
    (∀ (os : OS) (config : Config) (m : Int),
      (NewManager os (some { config with MaxRecentItems := m })).state
        = (NewManager os (some config)).state) :=
  ⟨by decide, by decide, by decide, rfl, fun _ _ _ => rfl⟩

theorem Reachable.addRecents {s : State} (h : Reachable s) :
    ∀ (ids : List String) (os : OS) (now : Int) (n : String) (s' : State) (os' : OS),
      s.addRecents os now n ids = .ok (s', os') → Reachable s' := by
  intro ids
  induction ids generalizing s with
  | nil =>
    intro os now n s' os' hrun
    simp only [State.addRecents, Except.ok.injEq, Prod.mk.injEq] at hrun
    exact hrun.1 ▸ h
  | cons id rest ih =>
    intro os now n s' os' hrun
    simp only [State.addRecents] at hrun
    rcases hcall : s.AddRecent os now n id with p | ⟨s₁, os₁, e₁⟩
    · simp [hcall] at hrun
    · simp only [hcall] at hrun
      exact ih (Reachable.addRecent now n id h hcall) os₁ (now + 1) n s' os' hrun

theorem exStateTwenty_reachable : Reachable exStateTwenty := by
  have hrun : ∃ os', (State.empty "/cfg/state.json").addRecents exFreshOS 1 "x" exTwentyIds
      = .ok (exStateTwenty, os') := ⟨_, rfl⟩
  obtain ⟨os', hrun⟩ := hrun
  exact Reachable.addRecents (Reachable.empty _) _ _ _ _ _ _ hrun


/-- Claim C5. `AddRecent` of an id that is not in a recents list of length `n` returns, and
afterwards the list is the new entry `(id, now)` followed by the first `min n 19` previous
entries in their order. In every State reachable from the empty State every recents list has
at most 20 entries, and when `AddRecent` of a new id meets a list of 20 entries the entry
that is dropped is the last one. -/
theorem AddRecent_new_keeps_nineteen :
    (∀ (s : State) (os : OS) (now : Int) (n id : String),
      s.Recents ≠ none → id ∉ s.GetRecents n →
      ∃ s' os' err, s.AddRecent os now n id = .ok (s', os', err) ∧
        s'.recentsOf n = { ItemID := id, LastAccessed := now } ::
          (s.recentsOf n).take (min (s.recentsOf n).length 19)) ∧
    (∀ s : State, Reachable s → ∀ n : String, (s.recentsOf n).length ≤ 20) ∧
    (∀ (s : State) (os : OS) (now : Int) (n id : String),
      Reachable s → id ∉ s.GetRecents n → (s.recentsOf n).length = 20 →
      ∃ s' os' err, s.AddRecent os now n id = .ok (s', os', err) ∧
        s'.recentsOf n = { ItemID := id, LastAccessed := now } :: (s.recentsOf n).dropLast) := by
  have hnew : ∀ (s : State) (os : OS) (now : Int) (n id : String),
      s.Recents ≠ none → id ∉ s.GetRecents n →
      ∃ s' os' err, s.AddRecent os now n id = .ok (s', os', err) ∧
        s'.recentsOf n = { ItemID := id, LastAccessed := now } :: (s.recentsOf n).take 19 := by
    intro s os now n id hne hid
    obtain ⟨s', hcall, hrec, _⟩ := State.AddRecent_step_new s os now n id hne hid
    exact ⟨s', _, _, hcall, by rw [hrec]; rfl⟩
  refine ⟨?_, ?_, ?_⟩
  · intro s os now n id hne hid
    obtain ⟨s', os', err, hcall, hrec⟩ := hnew s os now n id hne hid
    refine ⟨s', os', err, hcall, ?_⟩
    rw [hrec]
    congr 1
    by_cases hlen : (s.recentsOf n).length ≤ 19
    · rw [Nat.min_eq_left hlen, List.take_of_length_le hlen, List.take_of_length_le (le_refl _)]
    · rw [Nat.min_eq_right (by omega)]
  · intro s hs n
    exact ((Reachable.inv hs).2.2 n).2.2
  · intro s os now n id hs hid hlen
    obtain ⟨s', os', err, hcall, hrec⟩ := hnew s os now n id (Reachable.inv hs).2.1 hid
    refine ⟨s', os', err, hcall, ?_⟩
    rw [hrec, List.dropLast_eq_take, hlen]

/-- Witness for C5: `exStateTwenty` is reachable and holds 20 recents for `"x"`; `AddRecent`
of a new id puts it in front and drops the last entry, `i01`. -/
theorem AddRecent_new_keeps_nineteen_witness :
    Reachable exStateTwenty ∧ "new" ∉ exStateTwenty.GetRecents "x" ∧
    (exStateTwenty.recentsOf "x").length = 20 ∧
    ∃ s' os' err, exStateTwenty.AddRecent exFreshOS 21 "x" "new" = .ok (s', os', err) ∧
      s'.recentsOf "x"
        = { ItemID := "new", LastAccessed := 21 } :: exTwentyRecents.dropLast :=
  ⟨exStateTwenty_reachable, by decide, by decide,
    AddRecent_new_keeps_nineteen.2.2 exStateTwenty exFreshOS 21 "x" "new"
      exStateTwenty_reachable (by decide) (by decide)⟩

/-! ## Favorites -/

theorem State.Favorites_ne_none_of_AddFavorite {s s' : State} {os os' : OS}
    {err : Option GoError} {n id : String}
    (h : s.AddFavorite os n id = .ok (s', os', err)) : s.Favorites ≠ none := by
  intro hnil
  rw [State.AddFavorite_nil s os n id hnil] at h
  cases h

/-- Claim C6. `AddFavorite(name, id)` returns on every State whose Favorites map is allocated
(on the nil map it panics), and when it has returned, a second call with the same arguments
returns nil and leaves the State, hence Favorites and Recents, and the file as they were after
the first call. From no favorites for `"x"`, `AddFavorite("x","a")` twice gives
`GetFavorites("x") = [a]`. -/
theorem AddFavorite_idempotent :
    (∀ (s : State) (os : OS) (n id : String),
      (s.Favorites ≠ none → ∃ s₁ os₁ e₁, s.AddFavorite os n id = .ok (s₁, os₁, e₁)) ∧
      (s.Favorites = none → ∃ p, s.AddFavorite os n id = .error p)) ∧
    (∀ (s s₁ : State) (os os₁ os₂ : OS) (e₁ : Option GoError) (n id : String),
      s.AddFavorite os n id = .ok (s₁, os₁, e₁) →
      s₁.AddFavorite os₂ n id = .ok (s₁, os₂, none) ∧ s₁.IsFavorite n id = true) ∧
    (∀ (s : State) (os os₂ : OS), s.Favorites ≠ none → s.GetFavorites "x" = [] →
      ∃ s₁ os₁ e₁, s.AddFavorite os "x" "a" = .ok (s₁, os₁, e₁) ∧
        s₁.AddFavorite os₂ "x" "a" = .ok (s₁, os₂, none) ∧
        s₁.GetFavorites "x" = ["a"]) := by
  have hmem : ∀ (s s₁ : State) (os os₁ : OS) (e₁ : Option GoError) (n id : String),
      s.AddFavorite os n id = .ok (s₁, os₁, e₁) → id ∈ s₁.GetFavorites n := by
    intro s s₁ os os₁ e₁ n id hcall
    obtain ⟨s', os', err, heq, hfav, _⟩ :=
      State.AddFavorite_step s os n id (State.Favorites_ne_none_of_AddFavorite hcall)
    rw [heq] at hcall
    injection hcall with hcall
    injection hcall with hs _
    subst hs
    rw [hfav]
    by_cases hid : id ∈ s.GetFavorites n
    · simp [hid]
    · simp [hid]
  refine ⟨?_, ?_, ?_⟩
  · intro s os n id
    constructor
    · intro hne
      obtain ⟨s₁, os₁, e₁, hcall, _⟩ := State.AddFavorite_step s os n id hne
      exact ⟨s₁, os₁, e₁, hcall⟩
    · intro hnil
      exact ⟨_, State.AddFavorite_nil s os n id hnil⟩
  · intro s s₁ os os₁ os₂ e₁ n id hcall
    have h := hmem s s₁ os os₁ e₁ n id hcall
    exact ⟨State.AddFavorite_of_mem s₁ os₂ n id h, (State.IsFavorite_iff s₁ n id).2 h⟩
  · intro s os os₂ hne hempty
    obtain ⟨s₁, os₁, e₁, hcall, hfav, _⟩ := State.AddFavorite_step s os "x" "a" hne
    refine ⟨s₁, os₁, e₁, hcall,
      State.AddFavorite_of_mem s₁ os₂ "x" "a" (hmem s s₁ os os₁ e₁ "x" "a" hcall), ?_⟩
    rw [hfav, hempty]
    rfl

/-- Witness for C6: the empty State has a Favorites map and no favorites for `"x"`;
`AddFavorite("x","a")` returns, the second call changes nothing, and the list is `[a]`. -/
theorem AddFavorite_idempotent_witness :
    (State.empty "/cfg/state.json").Favorites ≠ none ∧
    (State.empty "/cfg/state.json").GetFavorites "x" = [] ∧
    ∃ s₁ os₁ e₁,
      (State.empty "/cfg/state.json").AddFavorite exFreshOS "x" "a" = .ok (s₁, os₁, e₁) ∧
      s₁.AddFavorite exFreshOS "x" "a" = .ok (s₁, exFreshOS, none) ∧
      s₁.GetFavorites "x" = ["a"] :=
  ⟨by simp [State.empty], by decide,
    AddFavorite_idempotent.2.2 (State.empty "/cfg/state.json") exFreshOS exFreshOS
      (by simp [State.empty]) (by decide)⟩

/-- Claim C7. `RemoveFavorite(name, id)` for an id that is not among the favorites of `name`
returns nil and leaves the State (Favorites and Recents) and the file as they were. For an id
that is among them it returns, and afterwards the favorites of `name` are the previous ones
without the first entry of `id`, in their previous order; Recents and the favorites of the
other Integrations are as before, and `id` is no favorite any more when the list held it
once. -/
theorem RemoveFavorite_absent_is_noop :
    (∀ (s : State) (os : OS) (n id : String), id ∉ s.GetFavorites n →
      s.RemoveFavorite os n id = .ok (s, os, none)) ∧
    (∀ (s : State) (os : OS) (n id : String), id ∈ s.GetFavorites n →
      ∃ s' os' err pre post, s.RemoveFavorite os n id = .ok (s', os', err) ∧
        s.GetFavorites n = pre ++ id :: post ∧ id ∉ pre ∧
        s'.GetFavorites n = pre ++ post ∧
        s'.Recents = s.Recents ∧
        (∀ n', n ≠ n' → s'.GetFavorites n' = s.GetFavorites n') ∧
        ((s.GetFavorites n).Nodup → s'.IsFavorite n id = false)) := by
  constructor
  · intro s os n id h
    exact State.RemoveFavorite_of_not_mem s os n id h
  · intro s os n id h
    obtain ⟨s', os', err, hcall, hfav, hother, _, hrec, _⟩ := State.RemoveFavorite_step s os n id
    obtain ⟨pre, post, hpre, hsplit⟩ : ∃ pre post, id ∉ pre ∧
        s.GetFavorites n = pre ++ id :: post := by
      have hsome : ∃ i, (s.GetFavorites n).findIdx? (fun x => x == id) = some i := by
        cases hf : (s.GetFavorites n).findIdx? (fun x => x == id) with
        | some i => exact ⟨i, rfl⟩
        | none =>
          have := (findIdx?_none_iff _ _).1 hf id h
          simp at this
      obtain ⟨i, hi⟩ := hsome
      obtain ⟨pre, x, post, hsplit, _, hx, hpre⟩ := findIdx?_split _ _ _ hi
      have hxid : x = id := by simpa using hx
      subst hxid
      exact ⟨pre, post, fun hm => by simpa using hpre x hm, hsplit⟩
    have herase : s'.GetFavorites n = pre ++ post := by
      rw [hfav, hsplit, erase_append_first pre post id hpre]
    refine ⟨s', os', err, pre, post, hcall, hsplit, hpre, herase, hrec, hother, ?_⟩
    intro hnd
    rw [hsplit] at hnd
    have hnot : id ∉ s'.GetFavorites n := by
      rw [herase]
      intro hm
      have h1 : id ∉ post := by
        have := List.nodup_append.1 hnd
        exact (List.nodup_cons.1 this.2.1).1
      rcases List.mem_append.1 hm with hm | hm
      · exact hpre hm
      · exact h1 hm
    cases hfavb : s'.IsFavorite n id with
    | false => rfl
    | true => exact absurd ((State.IsFavorite_iff s' n id).1 hfavb) hnot

/-- Witness for C7: `"missing"` is no favorite of `"x"` in `exStateFavs`, removing it changes
nothing; `"b"` is one, and removing it leaves `[a, c]`. -/
theorem RemoveFavorite_absent_is_noop_witness :
    "missing" ∉ exStateFavs.GetFavorites "x" ∧
    exStateFavs.RemoveFavorite exFreshOS "x" "missing" = .ok (exStateFavs, exFreshOS, none) ∧
    "b" ∈ exStateFavs.GetFavorites "x" ∧
    ∃ s' os' err, exStateFavs.RemoveFavorite exFreshOS "x" "b" = .ok (s', os', err) ∧
      s'.GetFavorites "x" = ["a", "c"] := by
  have hb : "b" ∈ exStateFavs.GetFavorites "x" := by decide
  refine ⟨by decide,
    RemoveFavorite_absent_is_noop.1 exStateFavs exFreshOS "x" "missing" (by decide), hb, ?_⟩
  obtain ⟨s', os', err, pre, post, hcall, hsplit, hpre, hfav, _⟩ :=
    RemoveFavorite_absent_is_noop.2 exStateFavs exFreshOS "x" "b" hb
  refine ⟨s', os', err, hcall, ?_⟩
  have hlist : exStateFavs.GetFavorites "x" = ["a", "b", "c"] := by decide
  rw [hlist] at hsplit
  have herase := congrArg (fun l => l.erase "b") hsplit
  simp only [erase_append_first pre post "b" hpre] at herase
  rw [hfav, ← herase]
  decide

/-- Claim C8. In every State reachable from the empty State by calls of `AddFavorite`,
`RemoveFavorite` and `AddRecent`, no favorites list holds an id twice and no recents list
holds two entries with the same id. -/
theorem reachable_lists_have_no_duplicates (s : State) (h : Reachable s) (n : String) :
    (s.GetFavorites n).Nodup ∧ ((s.recentsOf n).map (fun r => r.ItemID)).Nodup := by
  have hinv := (Reachable.inv h).2.2 n
  refine ⟨hinv.1, ?_⟩
  rw [← State.GetRecents_eq]
  exact hinv.2.1

/-- Witness for C8: the reachable State `exStateTwenty` has twenty recents with distinct
ids. -/
theorem reachable_lists_have_no_duplicates_witness :
    Reachable exStateTwenty ∧
    (exStateTwenty.GetFavorites "x").Nodup ∧
    ((exStateTwenty.recentsOf "x").map (fun r => r.ItemID)).Nodup ∧
    (exStateTwenty.recentsOf "x").length = 20 :=
  ⟨exStateTwenty_reachable,
    (reachable_lists_have_no_duplicates exStateTwenty exStateTwenty_reachable "x").1,
    (reachable_lists_have_no_duplicates exStateTwenty exStateTwenty_reachable "x").2,
    by decide⟩


/-! ## Persistence -/

/-- When creating the directory or writing the file fails with `e`, `saveUnlocked` returns `e`
and the operating system is as before. -/
theorem State.saveUnlocked_of_fault (s : State) (os : OS) (e : GoError)
    (hfail : os.mkdirFault (filepathDir s.statePath) = some e ∨
      (os.mkdirFault (filepathDir s.statePath) = none ∧ os.writeFault s.statePath = some e)) :
    s.saveUnlocked os = (os, some e) := by
  unfold State.saveUnlocked OS.WriteFile
  rcases hfail with h | ⟨h₁, h₂⟩
  · rw [h]
  · rw [h₁]
    simp only [h₂]

/-- Claim C9. When creating the directory or writing the state file fails with the error `e`,
a call that changes the State returns `e` and the change has been made in memory:
after the failed `AddFavorite` of a new id `IsFavorite` is true, after the failed
`RemoveFavorite` of a favorite the list has lost it, and after the failed `AddRecent` the id
is the first of `GetRecents` with the current timestamp. -/
theorem save_failure_keeps_memory_change (s : State) (os : OS) (e : GoError) (n id : String)
    (hfail : os.mkdirFault (filepathDir s.statePath) = some e ∨
      (os.mkdirFault (filepathDir s.statePath) = none ∧ os.writeFault s.statePath = some e)) :
    (s.Favorites ≠ none → id ∉ s.GetFavorites n →
      ∃ s', s.AddFavorite os n id = .ok (s', os, some e) ∧
        s.IsFavorite n id = false ∧ s'.IsFavorite n id = true) ∧
    (id ∈ s.GetFavorites n →
      ∃ s', s.RemoveFavorite os n id = .ok (s', os, some e) ∧
        s'.GetFavorites n = (s.GetFavorites n).erase id ∧
        (s'.GetFavorites n).length + 1 = (s.GetFavorites n).length) ∧
    (∀ now : Int, s.Recents ≠ none →
      ∃ s', s.AddRecent os now n id = .ok (s', os, some e) ∧
        (s'.GetRecents n).head? = some id ∧ s'.GetRecentTimestamp n id = some now) := by
  have hsave : ∀ s' : State, s'.statePath = s.statePath → s'.saveUnlocked os = (os, some e) := by
    intro s' hp
    exact State.saveUnlocked_of_fault s' os e (by rw [hp]; exact hfail)
  refine ⟨?_, ?_, ?_⟩
  · intro hne hid
    obtain ⟨s', os', err, hcall, hfav, _, _, _, hp, _, hnew⟩ :=
      State.AddFavorite_step s os n id hne
    obtain ⟨hos, herr⟩ := hnew hid
    rw [hsave s' hp] at hos herr
    subst hos herr
    refine ⟨s', hcall, ?_, ?_⟩
    · cases hb : s.IsFavorite n id with
      | false => rfl
      | true => exact absurd ((State.IsFavorite_iff s n id).1 hb) hid
    · rw [State.IsFavorite_iff, hfav]
      simp [hid]
  · intro hid
    obtain ⟨s', os', err, hcall, hfav, _, _, _, hp, _, hrem⟩ :=
      State.RemoveFavorite_step s os n id
    obtain ⟨hos, herr⟩ := hrem hid
    rw [hsave s' hp] at hos herr
    subst hos herr
    refine ⟨s', hcall, hfav, ?_⟩
    rw [hfav, List.length_erase_of_mem hid]
    have : 0 < (s.GetFavorites n).length := List.length_pos_of_mem hid
    omega
  · intro now hne
    by_cases hid : id ∈ s.GetRecents n
    · have hid' := hid
      rw [State.GetRecents_eq] at hid'
      obtain ⟨pre, t, post, hsplit, hpre, _⟩ := recents_split _ id hid'
      obtain ⟨s', hcall, hrec, _, _, _, hp⟩ :=
        State.AddRecent_step_present s os now n id pre post t hsplit hpre
      rw [hsave s' hp] at hcall
      refine ⟨s', hcall, ?_, State.GetRecentTimestamp_head s' n id now _ hrec⟩
      rw [State.GetRecents_eq, hrec]
      rfl
    · obtain ⟨s', hcall, hrec, _, _, _, hp⟩ := State.AddRecent_step_new s os now n id hne hid
      rw [hsave s' hp] at hcall
      have hrec' : s'.recentsOf n
          = { ItemID := id, LastAccessed := now } :: (s.recentsOf n).take 19 := by
        rw [hrec]; rfl
      refine ⟨s', hcall, ?_, State.GetRecentTimestamp_head s' n id now _ hrec'⟩
      rw [State.GetRecents_eq, hrec']
      rfl

/-- Witness for C9: with a full disk, `AddFavorite("x","a")` on the empty State returns the
error of the write, and `a` is a favorite in memory. -/
theorem save_failure_keeps_memory_change_witness :
    exFullDiskOS.mkdirFault (filepathDir (State.empty "/cfg/state.json").statePath) = none ∧
    exFullDiskOS.writeFault (State.empty "/cfg/state.json").statePath
      = some { msg := "no space left on device", isNotExist := false } ∧
    ∃ s', (State.empty "/cfg/state.json").AddFavorite exFullDiskOS "x" "a"
        = .ok (s', exFullDiskOS, some { msg := "no space left on device", isNotExist := false }) ∧
      (State.empty "/cfg/state.json").IsFavorite "x" "a" = false ∧
      s'.IsFavorite "x" "a" = true :=
  ⟨rfl, rfl,
    (save_failure_keeps_memory_change (State.empty "/cfg/state.json") exFullDiskOS
      { msg := "no space left on device", isNotExist := false } "x" "a"
      (Or.inr ⟨rfl, rfl⟩)).1 (by simp [State.empty]) (by decide)⟩


/-! ## Loading: errors of the decoder are not "file does not exist" errors -/

/-- An error value, if any, for which `os.IsNotExist` reports false. -/
theorem saveError_isNotExist {saved next : Option GoError}
    (hs : ∀ e, saved = some e → e.isNotExist = false)
    (hn : ∀ e, next = some e → e.isNotExist = false) :
    ∀ e, saveError saved next = some e → e.isNotExist = false := by
  intro e he
  cases saved with
  | some e' => exact hs e he
  | none => exact hn e he

theorem foldl_isNotExist {A B : Type} (f : A × Option GoError → B → A × Option GoError)
    (hf : ∀ acc x, (∀ e, acc.2 = some e → e.isNotExist = false) →
      ∀ e, (f acc x).2 = some e → e.isNotExist = false) :
    ∀ (l : List B) (acc : A × Option GoError),
      (∀ e, acc.2 = some e → e.isNotExist = false) →
      ∀ e, (l.foldl f acc).2 = some e → e.isNotExist = false := by
  intro l
  induction l with
  | nil => intro acc hacc; exact hacc
  | cons x rest ih => intro acc hacc; exact ih (f acc x) (hf acc x hacc)

theorem decodeString_isNotExist (old : String) (j : JSON) :
    ∀ e, (decodeString old j).2 = some e → e.isNotExist = false := by
  intro e he
  cases j <;> simp [decodeString, jsonTypeError] at he <;> simp [← he]

theorem decodeInt64_isNotExist (old : Int) (j : JSON) :
    ∀ e, (decodeInt64 old j).2 = some e → e.isNotExist = false := by
  intro e he
  cases j with
  | num n =>
    simp only [decodeInt64] at he
    split at he
    · simp at he
    · simp [jsonTypeError] at he; simp [← he]
  | null => simp [decodeInt64] at he
  | bool b => simp [decodeInt64, jsonTypeError] at he; simp [← he]
  | real l => simp [decodeInt64, jsonTypeError] at he; simp [← he]
  | str s => simp [decodeInt64, jsonTypeError] at he; simp [← he]
  | arr xs => simp [decodeInt64, jsonTypeError] at he; simp [← he]
  | obj kvs => simp [decodeInt64, jsonTypeError] at he; simp [← he]

theorem decodeRecentItem_isNotExist (old : RecentItem) (j : JSON) :
    ∀ e, (decodeRecentItem old j).2 = some e → e.isNotExist = false := by
  have hfield : ∀ (acc : RecentItem × Option GoError) (kv : String × JSON),
      (∀ e, acc.2 = some e → e.isNotExist = false) →
      ∀ e, (decodeRecentField acc kv).2 = some e → e.isNotExist = false := by
    intro acc kv hacc
    unfold decodeRecentField
    split
    · exact saveError_isNotExist hacc (decodeString_isNotExist _ _)
    · split
      · exact saveError_isNotExist hacc (decodeInt64_isNotExist _ _)
      · exact hacc
  intro e he
  cases j with
  | obj kvs =>
    exact foldl_isNotExist decodeRecentField hfield kvs (old, none) (by simp) e he
  | null => simp [decodeRecentItem] at he
  | bool b => simp [decodeRecentItem, jsonTypeError] at he; simp [← he]
  | num n => simp [decodeRecentItem, jsonTypeError] at he; simp [← he]
  | real l => simp [decodeRecentItem, jsonTypeError] at he; simp [← he]
  | str s => simp [decodeRecentItem, jsonTypeError] at he; simp [← he]
  | arr xs => simp [decodeRecentItem, jsonTypeError] at he; simp [← he]

theorem firstError_isNotExist {α : Type} (rs : List (α × Option GoError))
    (h : ∀ r ∈ rs, ∀ e, r.2 = some e → e.isNotExist = false) :
    ∀ e, firstError rs = some e → e.isNotExist = false := by
  unfold firstError
  have hgen : ∀ (l : List (α × Option GoError)) (saved : Option GoError),
      (∀ r ∈ l, ∀ e, r.2 = some e → e.isNotExist = false) →
      (∀ e, saved = some e → e.isNotExist = false) →
      ∀ e, l.foldl (fun saved r => saveError saved r.2) saved = some e →
        e.isNotExist = false := by
    intro l
    induction l with
    | nil => intro saved _ hs; exact hs
    | cons r rest ih =>
      intro saved hl hs
      exact ih _ (fun r' hr' => hl r' (List.mem_cons_of_mem _ hr'))
        (saveError_isNotExist hs (hl r (List.mem_cons_self _ _)))
  exact hgen rs none h (by simp)

theorem decodeSlice_isNotExist {α : Type} (elem : JSON → α × Option GoError)
    (goType : String) (helem : ∀ j e, (elem j).2 = some e → e.isNotExist = false) (j : JSON) :
    ∀ e, (decodeSlice elem goType j).2 = some e → e.isNotExist = false := by
  intro e he
  cases j with
  | arr xs =>
    refine firstError_isNotExist (xs.map elem) ?_ e he
    intro r hr
    obtain ⟨x, _, rfl⟩ := List.mem_map.1 hr
    exact helem x
  | null => simp [decodeSlice] at he
  | bool b => simp [decodeSlice, jsonTypeError] at he; simp [← he]
  | num n => simp [decodeSlice, jsonTypeError] at he; simp [← he]
  | real l => simp [decodeSlice, jsonTypeError] at he; simp [← he]
  | str s => simp [decodeSlice, jsonTypeError] at he; simp [← he]
  | obj kvs => simp [decodeSlice, jsonTypeError] at he; simp [← he]

theorem decodeMap_isNotExist {V : Type} (elem : JSON → V × Option GoError)
    (goType : String) (helem : ∀ j e, (elem j).2 = some e → e.isNotExist = false)
    (old : GoMap V) (j : JSON) :
    ∀ e, (decodeMap elem goType old j).2 = some e → e.isNotExist = false := by
  intro e he
  cases j with
  | obj kvs =>
    refine foldl_isNotExist (decodeMapEntry elem) ?_ kvs (old.getD [], none) (by simp) e he
    intro acc kv hacc
    exact saveError_isNotExist hacc (helem kv.2)
  | null => simp [decodeMap] at he
  | bool b => simp [decodeMap, jsonTypeError] at he; simp [← he]
  | num n => simp [decodeMap, jsonTypeError] at he; simp [← he]
  | real l => simp [decodeMap, jsonTypeError] at he; simp [← he]
  | str s => simp [decodeMap, jsonTypeError] at he; simp [← he]
  | arr xs => simp [decodeMap, jsonTypeError] at he; simp [← he]

/-- An error of `json.Unmarshal` is never a "file does not exist" error. -/
theorem Unmarshal_isNotExist (data : FileData) (s : State) :
    ∀ e, (Unmarshal data s).2 = some e → e.isNotExist = false := by
  have hfield : ∀ (acc : State × Option GoError) (kv : String × JSON),
      (∀ e, acc.2 = some e → e.isNotExist = false) →
      ∀ e, (decodeStateField acc kv).2 = some e → e.isNotExist = false := by
    intro acc kv hacc
    unfold decodeStateField
    split
    · exact saveError_isNotExist hacc
        (decodeMap_isNotExist _ _
          (decodeSlice_isNotExist _ _ (fun j => decodeString_isNotExist "" j)) _ _)
    · split
      · exact saveError_isNotExist hacc
          (decodeMap_isNotExist _ _
            (decodeSlice_isNotExist _ _ (fun j => decodeRecentItem_isNotExist _ j)) _ _)
      · exact hacc
  intro e he
  cases data with
  | invalid => simp [Unmarshal] at he; simp [← he]
  | text j =>
    cases j with
    | obj kvs => exact foldl_isNotExist decodeStateField hfield kvs (s, none) (by simp) e he
    | null => simp [Unmarshal] at he
    | bool b => simp [Unmarshal, jsonTypeError] at he; simp [← he]
    | num n => simp [Unmarshal, jsonTypeError] at he; simp [← he]
    | real l => simp [Unmarshal, jsonTypeError] at he; simp [← he]
    | str s => simp [Unmarshal, jsonTypeError] at he; simp [← he]
    | arr xs => simp [Unmarshal, jsonTypeError] at he; simp [← he]

/-- Claim C10. When the config directory is known, `NewState` returns a State with empty,
allocated Favorites and Recents and a nil error when reading the state file fails because
the file does not exist; it returns the error and no State when reading fails for another
reason or when the decoder rejects the contents; and it returns the decoded State when the
decoder accepts them. When the home directory is needed and unknown it returns that error and
no State. -/
theorem NewState_missing_file_is_fresh_install :
    (∀ (os : OS) (configDir dir : String), resolveConfigDir os configDir = .ok dir →
      (∀ e, os.files (filepathJoin dir "state.json") = .error e → e.isNotExist = true →
        ∃ s, NewState os configDir = (some s, none) ∧
          s.Favorites = some [] ∧ s.Recents = some [] ∧
          s.statePath = filepathJoin dir "state.json" ∧
          ∀ n, s.GetFavorites n = [] ∧ s.GetRecents n = []) ∧
      (∀ e, os.files (filepathJoin dir "state.json") = .error e → e.isNotExist = false →
        NewState os configDir = (none, some e)) ∧
      (∀ data s' e, os.files (filepathJoin dir "state.json") = .ok data →
        Unmarshal data (State.empty (filepathJoin dir "state.json")) = (s', some e) →
        NewState os configDir = (none, some e)) ∧
      (∀ data s', os.files (filepathJoin dir "state.json") = .ok data →
        Unmarshal data (State.empty (filepathJoin dir "state.json")) = (s', none) →
        NewState os configDir = (some s', none))) ∧
    (∀ (os : OS) (configDir : String) (e : GoError), resolveConfigDir os configDir = .error e →
      NewState os configDir = (none, some e)) := by
  constructor
  · intro os configDir dir hdir
    refine ⟨?_, ?_, ?_, ?_⟩
    · intro e hread hne
      refine ⟨State.empty (filepathJoin dir "state.json"), ?_, rfl, rfl, rfl, fun n => ?_⟩
      · simp [NewState, hdir, State.Load, State.empty, hread, hne]
      · exact ⟨State.GetFavorites_empty _ n,
          by rw [State.GetRecents_eq, State.recentsOf_empty]; rfl⟩
    · intro e hread hne
      simp [NewState, hdir, State.Load, State.empty, hread, hne]
    · intro data s' e hread hdec
      have hne : e.isNotExist = false :=
        Unmarshal_isNotExist data _ e (by rw [hdec])
      simp only [State.empty] at hdec
      simp [NewState, hdir, State.Load, State.empty, hread, hdec, hne]
    · intro data s' hread hdec
      simp only [State.empty] at hdec
      simp [NewState, hdir, State.Load, State.empty, hread, hdec]
  · intro os configDir e hdir
    simp [NewState, hdir]

/-- Witness for C10: on a fresh install `NewState("/cfg")` is the empty State; with an
unreadable file and with a document of the wrong shape it is an error and no State, also when
the key of the document is `favorites` under case folding only. -/
theorem NewState_missing_file_is_fresh_install_witness :
    resolveConfigDir exFreshOS "/cfg" = .ok "/cfg" ∧
    NewState exFreshOS "/cfg" = (some (State.empty "/cfg/state.json"), none) ∧
    NewState exUnreadableOS "/cfg"
      = (none, some { msg := "permission denied", isNotExist := false }) ∧
    (NewState exMalformedOS "/cfg").1 = none ∧ (NewState exMalformedOS "/cfg").2 ≠ none ∧
    keyMatches "favorites" "favorite\u017f" = true ∧
    (NewState exLongSKeyOS "/cfg").1 = none ∧ (NewState exLongSKeyOS "/cfg").2 ≠ none := by
  refine ⟨rfl, ?_, ?_, ?_, ?_, by decide, rfl, by decide⟩
  · obtain ⟨s, hs, hF, hR, hp, _⟩ :=
      (NewState_missing_file_is_fresh_install.1 exFreshOS "/cfg" "/cfg" rfl).1
        { msg := "no such file or directory", isNotExist := true } rfl rfl
    rw [hs]
    obtain ⟨F, R, p⟩ := s
    simp only at hF hR hp
    subst hF hR hp
    rfl
  · exact (NewState_missing_file_is_fresh_install.1 exUnreadableOS "/cfg" "/cfg" rfl).2.1
      { msg := "permission denied", isNotExist := false } rfl rfl
  · rfl
  · decide


/-! ## The registry: `Register`, `Get`, `List` -/

theorem GoMap.find_set {V : Type} (l : List (String × V)) (k : String) (v : V) (n : String) :
    GoMap.find (some (aset k v l)) n = if k = n then some v else GoMap.find (some l) n := by
  by_cases h : k = n
  · subst h
    simp [GoMap.find, alookup_aset_self]
  · simp [GoMap.find, alookup_aset_ne h, h]

/-- A successful `Register`: the registry was allocated, the name is not empty and was free,
and afterwards the name holds the Integration and every other name is as before. -/
theorem Register_new (m : Manager) (i : Integration)
    (l : List (String × Integration)) (hl : m.integrations = some l)
    (hname : i.Name ≠ "") (hfree : m.integrations.find i.Name = none) :
    m.Register (some i) = .ok ({ m with integrations := some (aset i.Name i l) }, none) := by
  simp only [Manager.Register, hname, if_false, hfree]
  rw [hl]
  rfl

/-- A successful `Register` on an allocated registry, for a non-empty free name. -/
theorem Register_free_name (m : Manager) (i : Integration) (hne : m.integrations ≠ none)
    (hname : i.Name ≠ "") (hfree : m.integrations.find i.Name = none) :
    ∃ m', m.Register (some i) = .ok (m', none) ∧ m'.Get i.Name = (some i, none) ∧
      ∀ n, n ≠ i.Name → m'.Get n = m.Get n := by
  obtain ⟨l, hl⟩ : ∃ l, m.integrations = some l := by
    cases h : m.integrations with
    | none => exact absurd h hne
    | some l => exact ⟨l, rfl⟩
  refine ⟨_, Register_new m i l hl hname hfree, ?_, ?_⟩
  · simp [Manager.Get, GoMap.find_set]
  · intro n hn
    have hn' : ¬ i.Name = n := fun h => hn h.symm
    simp [Manager.Get, GoMap.find_set, hn', hl]

/-- What `Register` returns on a Manager whose registry is allocated. -/
theorem Register_outcome (m : Manager) (integration : Option Integration)
    (hne : m.integrations ≠ none) :
    ∃ m' err, m.Register integration = .ok (m', err) ∧
      (err ≠ none ↔ integration = none ∨
        ∃ i, integration = some i ∧ (i.Name = "" ∨ m.integrations.find i.Name ≠ none)) ∧
      (err ≠ none → m' = m ∧ (∀ n, m'.Get n = m.Get n) ∧
        ∀ names, m'.List names ↔ m.List names) ∧
      (err = none → ∃ i, integration = some i ∧ m'.Get i.Name = (some i, none) ∧
        ∀ n, n ≠ i.Name → m'.Get n = m.Get n) := by
  cases integration with
  | none =>
    exact ⟨m, _, rfl, by simp, fun _ => ⟨rfl, fun _ => rfl, fun _ => Iff.rfl⟩,
      fun h => by simp at h⟩
  | some i =>
    by_cases hname : i.Name = ""
    · have hcall : ∃ e, m.Register (some i) = .ok (m, some e) :=
        ⟨_, by simp only [Manager.Register, hname, if_true]; rfl⟩
      obtain ⟨e, hcall⟩ := hcall
      exact ⟨m, some e, hcall, by simp [hname],
        fun _ => ⟨rfl, fun _ => rfl, fun _ => Iff.rfl⟩, fun h => by simp at h⟩
    · cases hfind : m.integrations.find i.Name with
      | some j =>
        have hcall : ∃ e, m.Register (some i) = .ok (m, some e) :=
          ⟨_, by simp only [Manager.Register, hname, if_false, hfind]; rfl⟩
        obtain ⟨e, hcall⟩ := hcall
        exact ⟨m, some e, hcall, by simp [hfind],
          fun _ => ⟨rfl, fun _ => rfl, fun _ => Iff.rfl⟩, fun h => by simp at h⟩
      | none =>
        obtain ⟨m', hcall, hget, hother⟩ := Register_free_name m i hne hname hfind
        exact ⟨m', none, hcall, by simp [hname, hfind], fun h => absurd rfl h,
          fun _ => ⟨i, rfl, hget, hother⟩⟩

/-- Claim C12. On a Manager whose registry is allocated `Register` returns; it returns an
error exactly when the Integration is nil, its name is empty, or its name is already
registered; a call that returns an error leaves the Manager as it was, so `Get` and `List`
answer as before; after a call that returns no error `Get(name)` returns the registered
Integration and every other name is as before. Registering a second Integration under the
name of the first fails, and `Get` still returns the first. -/
theorem Register_fails_iff_invalid :
    (∀ (m : Manager) (integration : Option Integration), m.integrations ≠ none →
      ∃ m' err, m.Register integration = .ok (m', err) ∧
        (err ≠ none ↔ integration = none ∨
          ∃ i, integration = some i ∧ (i.Name = "" ∨ m.integrations.find i.Name ≠ none)) ∧
        (err ≠ none → m' = m ∧ (∀ n, m'.Get n = m.Get n) ∧
          ∀ names, m'.List names ↔ m.List names) ∧
        (err = none → ∃ i, integration = some i ∧ m'.Get i.Name = (some i, none) ∧
          ∀ n, n ≠ i.Name → m'.Get n = m.Get n)) ∧
    (∀ (m : Manager) (first second : Integration), m.integrations ≠ none →
      first.Name ≠ "" → second.Name = first.Name → m.integrations.find first.Name = none →
      ∃ m₁ e₂, m.Register (some first) = .ok (m₁, none) ∧
        m₁.Register (some second) = .ok (m₁, some e₂) ∧
        m₁.Get first.Name = (some first, none)) := by
  constructor
  · intro m integration hne
    exact Register_outcome m integration hne
  · intro m first second hne hname hsame hfree
    obtain ⟨m₁, hcall, hget, _⟩ := Register_free_name m first hne hname hfree
    have hfound : m₁.integrations.find second.Name = some first := by
      rw [hsame]
      simp only [Manager.Get] at hget
      cases hf : m₁.integrations.find first.Name with
      | none => simp [hf] at hget
      | some j => simp [hf] at hget; rw [hget]
    have hsecond : ∃ e, m₁.Register (some second) = .ok (m₁, some e) :=
      ⟨_, by simp only [Manager.Register, hsame ▸ hname, if_false, hfound]; rfl⟩
    obtain ⟨e₂, hsecond⟩ := hsecond
    exact ⟨m₁, e₂, hcall, hsecond, hget⟩

/-- Witness for C12: the Integration `test` registers on the empty registry, registering it
again fails and leaves the Manager as it is, and `Get("test")` returns it. -/
theorem Register_fails_iff_invalid_witness :
    exEmptyManager.integrations ≠ none ∧ (exNamed "test").Name ≠ "" ∧
    exEmptyManager.integrations.find (exNamed "test").Name = none ∧
    ∃ m₁ e₂, exEmptyManager.Register (some (exNamed "test")) = .ok (m₁, none) ∧
      m₁.Register (some (exNamed "test")) = .ok (m₁, some e₂) ∧
      m₁.Get (exNamed "test").Name = (some (exNamed "test"), none) :=
  ⟨by simp [exEmptyManager], by decide, rfl,
    Register_fails_iff_invalid.2 exEmptyManager (exNamed "test") (exNamed "test")
      (by simp [exEmptyManager]) (by decide) rfl rfl⟩


theorem mem_keys_entries_iff {V : Type} (m : GoMap V) (n : String) :
    n ∈ m.entries.map Prod.fst ↔ m.find n ≠ none := by
  rw [GoMap.find_eq_alookup_entries]
  constructor
  · intro h
    obtain ⟨⟨k, v⟩, hmem, hk⟩ := List.mem_map.1 h
    simp only at hk
    subst hk
    rw [(alookup_eq_some_iff_mem (GoMap.nodup_keys_entries m) k v).2 hmem]
    simp
  · intro h
    cases hf : alookup n m.entries with
    | none => exact absurd hf h
    | some v =>
      exact List.mem_map.2
        ⟨(n, v), (alookup_eq_some_iff_mem (GoMap.nodup_keys_entries m) n v).1 hf, rfl⟩

/-- The names `List` returns under an order of iteration: strictly ascending, and exactly
the keys of the registry. -/
theorem List_run_spec (m : Manager) (order : RegistryOrder)
    (hp : order.Perm m.integrations.entries) :
    (Manager.List.run order).Sorted (fun a b => a < b) ∧
    ∀ n, n ∈ Manager.List.run order ↔ m.integrations.find n ≠ none := by
  have hperm : (Manager.List.run order).Perm (m.integrations.entries.map Prod.fst) :=
    (List.perm_insertionSort _ _).trans (hp.map Prod.fst)
  have hnodup : (Manager.List.run order).Nodup :=
    hperm.nodup_iff.2 (GoMap.nodup_keys_entries _)
  refine ⟨List.Sorted.lt_of_le (List.sorted_insertionSort _ _) hnodup, fun n => ?_⟩
  rw [hperm.mem_iff, mem_keys_entries_iff]

theorem sorted_lt_unique {l₁ l₂ : List String} (h₁ : l₁.Sorted (fun a b => a < b))
    (h₂ : l₂.Sorted (fun a b => a < b)) (hmem : ∀ n, n ∈ l₁ ↔ n ∈ l₂) : l₁ = l₂ :=
  List.eq_of_perm_of_sorted ((List.perm_ext_iff_of_nodup h₁.nodup h₂.nodup).2 hmem) h₁ h₂

/-- After `Register` has been called for each Integration of a list, the registered names
are the previous ones and the non-empty names of the list. -/
theorem registerAll_names (is : List Integration) :
    ∀ m : Manager, m.integrations ≠ none →
      ∃ m', registerAll m is = .ok m' ∧ m'.integrations ≠ none ∧
        ∀ n, m'.integrations.find n ≠ none ↔
          (m.integrations.find n ≠ none ∨ (n ≠ "" ∧ ∃ i ∈ is, i.Name = n)) := by
  induction is with
  | nil => intro m hne; exact ⟨m, rfl, hne, by simp⟩
  | cons i rest ih =>
    intro m hne
    obtain ⟨m₁, err, hcall, hiff, hfail, hok⟩ := Register_outcome m (some i) hne
    have hne₁ : m₁.integrations ≠ none := by
      cases herr : err with
      | some e => rw [(hfail (by simp [herr])).1]; exact hne
      | none =>
        obtain ⟨i', hi', hget, _⟩ := hok herr
        intro hnil
        simp [Manager.Get, GoMap.find, hnil] at hget
    have hkeys : ∀ n, m₁.integrations.find n ≠ none ↔
        (m.integrations.find n ≠ none ∨ (n ≠ "" ∧ i.Name = n)) := by
      intro n
      cases herr : err with
      | some e =>
        rw [(hfail (by simp [herr])).1]
        have hbad : i.Name = "" ∨ m.integrations.find i.Name ≠ none := by
          rcases hiff.1 (by simp [herr]) with h | ⟨i', hi', h⟩
          · simp at h
          · simp only [Option.some.injEq] at hi'
            subst hi'
            exact h
        constructor
        · intro h; exact Or.inl h
        · rintro (h | ⟨hn, hi⟩)
          · exact h
          · subst hi
            rcases hbad with hb | hb
            · exact absurd hb hn
            · exact hb
      | none =>
        obtain ⟨i', hi', hget, hother⟩ := hok herr
        simp only [Option.some.injEq] at hi'
        subst hi'
        have hgood : ¬ (i.Name = "" ∨ m.integrations.find i.Name ≠ none) := by
          intro hb
          exact absurd herr (hiff.2 (Or.inr ⟨i, rfl, hb⟩))
        by_cases hn : n = i.Name
        · subst hn
          have h1 : m₁.integrations.find i.Name ≠ none := by
            simp only [Manager.Get] at hget
            cases hf : m₁.integrations.find i.Name with
            | none => simp [hf] at hget
            | some j => simp
          have h2 : i.Name ≠ "" := fun h => hgood (Or.inl h)
          simp [h1, h2]
        · have hget' := hother n hn
          have hfind : m₁.integrations.find n = m.integrations.find n := by
            simp only [Manager.Get] at hget'
            cases hf₁ : m₁.integrations.find n <;> cases hf : m.integrations.find n <;>
              simp [hf₁, hf] at hget' ⊢
            exact hget'
          rw [hfind]
          have hn' : ¬ i.Name = n := fun h => hn h.symm
          simp [hn']
    obtain ⟨m', hrun, hne', hall⟩ := ih m₁ hne₁
    refine ⟨m', by simp only [registerAll, hcall]; exact hrun, hne', fun n => ?_⟩
    rw [hall n, hkeys n]
    simp only [List.mem_cons, exists_eq_or_imp]
    tauto

/-- Claim C13. `List` returns, and what it returns is, whatever the order of iteration over
the map, the registered names, each once, in strictly ascending order. Two Managers with the
same registered names return the same list; in particular registering the same Integrations
in another order gives the same list, which holds the names registered before and the
non-empty names of those Integrations. -/
theorem List_sorted_registered_names :
    (∀ m : Manager, (∃ names, m.List names) ∧
      ∀ names, m.List names →
        names.Sorted (fun a b => a < b) ∧ names.Nodup ∧
        ∀ n, n ∈ names ↔ m.integrations.find n ≠ none) ∧
    (∀ (m₁ m₂ : Manager) (names₁ names₂ : List String),
      (∀ n, m₁.integrations.find n ≠ none ↔ m₂.integrations.find n ≠ none) →
      m₁.List names₁ → m₂.List names₂ → names₁ = names₂) ∧
    (∀ (m : Manager) (is is' : List Integration), m.integrations ≠ none → is.Perm is' →
      ∃ m₁ m₂, registerAll m is = .ok m₁ ∧ registerAll m is' = .ok m₂ ∧
        (∀ names, m₁.List names ↔ m₂.List names) ∧
        ∀ n, m₁.integrations.find n ≠ none ↔
          (m.integrations.find n ≠ none ∨ (n ≠ "" ∧ ∃ i ∈ is, i.Name = n))) := by
  have hspec : ∀ (m : Manager) (names : List String), m.List names →
      names.Sorted (fun a b => a < b) ∧ ∀ n, n ∈ names ↔ m.integrations.find n ≠ none := by
    intro m names h
    obtain ⟨order, hp, rfl⟩ := h
    exact List_run_spec m order hp
  have hsame : ∀ (m₁ m₂ : Manager) (names₁ names₂ : List String),
      (∀ n, m₁.integrations.find n ≠ none ↔ m₂.integrations.find n ≠ none) →
      m₁.List names₁ → m₂.List names₂ → names₁ = names₂ := by
    intro m₁ m₂ names₁ names₂ hkeys h₁ h₂
    obtain ⟨hs₁, hm₁⟩ := hspec m₁ names₁ h₁
    obtain ⟨hs₂, hm₂⟩ := hspec m₂ names₂ h₂
    exact sorted_lt_unique hs₁ hs₂ (fun n => by rw [hm₁, hm₂, hkeys])
  refine ⟨?_, hsame, ?_⟩
  · intro m
    refine ⟨⟨_, _, List.Perm.refl _, rfl⟩, fun names h => ?_⟩
    obtain ⟨hs, hm⟩ := hspec m names h
    exact ⟨hs, hs.nodup, hm⟩
  · intro m is is' hne hperm
    obtain ⟨m₁, hrun₁, _, hkeys₁⟩ := registerAll_names is m hne
    obtain ⟨m₂, hrun₂, _, hkeys₂⟩ := registerAll_names is' m hne
    have hkeys : ∀ n, m₁.integrations.find n ≠ none ↔ m₂.integrations.find n ≠ none := by
      intro n
      rw [hkeys₁, hkeys₂]
      simp only [hperm.mem_iff]
    refine ⟨m₁, m₂, hrun₁, hrun₂, fun names => ?_, hkeys₁⟩
    constructor
    · intro h
      obtain ⟨names₂, h₂⟩ : ∃ names₂, m₂.List names₂ := ⟨_, _, List.Perm.refl _, rfl⟩
      rw [hsame m₁ m₂ names names₂ hkeys h h₂]
      exact h₂
    · intro h
      obtain ⟨names₁, h₁⟩ : ∃ names₁, m₁.List names₁ := ⟨_, _, List.Perm.refl _, rfl⟩
      rw [← hsame m₁ m₂ names₁ names hkeys h₁ h]
      exact h₁

/-- Witness for C13: the three names of the test, registered in two orders, are listed as
`commands`, `learning`, `workflows` both times. -/
theorem List_sorted_registered_names_witness :
    ∃ m₁ m₂,
      registerAll exEmptyManager [exNamed "commands", exNamed "workflows", exNamed "learning"]
        = .ok m₁ ∧
      registerAll exEmptyManager [exNamed "learning", exNamed "workflows", exNamed "commands"]
        = .ok m₂ ∧
      m₁.List ["commands", "learning", "workflows"] ∧
      m₂.List ["commands", "learning", "workflows"] := by
  obtain ⟨m₁, m₂, h₁, h₂, hsame, hkeys⟩ :=
    List_sorted_registered_names.2.2 exEmptyManager
      [exNamed "commands", exNamed "workflows", exNamed "learning"]
      [exNamed "learning", exNamed "workflows", exNamed "commands"]
      (by simp [exEmptyManager])
      (List.reverse_perm [exNamed "learning", exNamed "workflows", exNamed "commands"])
  obtain ⟨⟨names, hlist⟩, hspec⟩ := List_sorted_registered_names.1 m₁
  obtain ⟨hsorted, _, hmem⟩ := hspec names hlist
  have htarget : (["commands", "learning", "workflows"] : List String).Sorted
      (fun a b => a < b) := by
    have h1 : ("commands" : String) < "learning" := String.lt_iff_toList_lt.2 (by decide)
    have h2 : ("commands" : String) < "workflows" := String.lt_iff_toList_lt.2 (by decide)
    have h3 : ("learning" : String) < "workflows" := String.lt_iff_toList_lt.2 (by decide)
    refine List.Pairwise.cons (fun b hb => ?_)
      (List.Pairwise.cons (fun b hb => ?_) (List.pairwise_singleton _ _))
    · rcases List.mem_cons.1 hb with h | h
      · exact h ▸ h1
      · exact (List.mem_singleton.1 h) ▸ h2
    · exact (List.mem_singleton.1 hb) ▸ h3
  have hnames : names = ["commands", "learning", "workflows"] := by
    refine sorted_lt_unique hsorted htarget (fun n => ?_)
    rw [hmem, hkeys]
    simp only [exEmptyManager, GoMap.find, alookup, ne_eq, not_true_eq_false, false_or,
      List.mem_cons, List.mem_singleton, exists_eq_or_imp, exists_eq_left, exNamed,
      mockIntegration, List.not_mem_nil, or_false]
    constructor
    · rintro ⟨_, h | h | h⟩
      · exact Or.inl h.symm
      · exact Or.inr (Or.inr h.symm)
      · exact Or.inr (Or.inl h.symm)
    · rintro (h | h | h)
      · subst h; exact ⟨by decide, Or.inl rfl⟩
      · subst h; exact ⟨by decide, Or.inr (Or.inr rfl)⟩
      · subst h; exact ⟨by decide, Or.inr (Or.inl rfl)⟩
  rw [hnames] at hlist
  exact ⟨m₁, m₂, h₁, h₂, hlist, (hsame _).1 hlist⟩


/-! ## `EnrichItems` -/

theorem enrichItem_Favorite (state : State) (name : String) (item : Item) :
    (enrichItem state name item).Favorite = state.IsFavorite name item.ID := by
  unfold enrichItem
  cases state.GetRecentTimestamp name item.ID <;> rfl

theorem enrichItem_other_fields (state : State) (name : String) (item : Item) :
    { enrichItem state name item with
        Favorite := item.Favorite, Recent := item.Recent, LastAccessed := item.LastAccessed }
      = item := by
  unfold enrichItem
  cases state.GetRecentTimestamp name item.ID <;> rfl

theorem enrichItem_recent_some (state : State) (name : String) (item : Item) (ts : Int)
    (h : state.GetRecentTimestamp name item.ID = some ts) :
    (enrichItem state name item).Recent = true ∧
    (enrichItem state name item).LastAccessed = some ts := by
  unfold enrichItem
  rw [h]
  exact ⟨rfl, rfl⟩

theorem enrichItem_recent_none (state : State) (name : String) (item : Item)
    (h : state.GetRecentTimestamp name item.ID = none) :
    (enrichItem state name item).Recent = item.Recent ∧
    (enrichItem state name item).LastAccessed = item.LastAccessed := by
  unfold enrichItem
  rw [h]
  exact ⟨rfl, rfl⟩

theorem set_append_length {α : Type} (pre post : List α) (x y : α) :
    (pre ++ x :: post).set pre.length y = pre ++ y :: post := by
  induction pre with
  | nil => rfl
  | cons p pre ih => simp [ih]

theorem EnrichItems_round_foldl (state : State) (name : String) (input : GoSlice Item)
    (rest : List Item) :
    ∀ pre : List Item,
      (rest.enumFrom pre.length).foldl (EnrichItems.round state name)
          (input, pre ++ List.replicate rest.length Item.zero)
        = (input, pre ++ rest.map (enrichItem state name)) := by
  induction rest with
  | nil => intro pre; simp
  | cons a t ih =>
    intro pre
    have hstep : EnrichItems.round state name
        (input, pre ++ List.replicate (a :: t).length Item.zero) (pre.length, a)
        = (input, (pre ++ [enrichItem state name a]) ++ List.replicate t.length Item.zero) := by
      simp only [EnrichItems.round, List.length_cons, List.replicate_succ, set_append_length,
        List.append_assoc, List.singleton_append]
    have hlen : pre.length + 1 = (pre ++ [enrichItem state name a]).length := by simp
    rw [List.enumFrom_cons, List.foldl_cons, hstep, hlen, ih]
    simp

/-- The loop of `EnrichItems` leaves the caller's slice as it was and builds the slice that
`EnrichItems` returns. -/
theorem EnrichItems_withInput (m : Manager) (name : String) (items : GoSlice Item) :
    EnrichItems.withInput m name items = (items, m.EnrichItems name items) := by
  unfold EnrichItems.withInput Manager.EnrichItems
  cases m.state with
  | none => rfl
  | some state =>
    have h := EnrichItems_round_foldl state name items items.elems []
    simp only [List.length_nil, List.nil_append] at h
    simp only [h]

/-- Claim C14. With a State, `EnrichItems(name, items)` returns a new slice of the same
length in which the item at every index is the input item at that index with `Favorite`
equal to `State.IsFavorite(name, ID)`, and with every field other than `Favorite`, `Recent`
and `LastAccessed` as in the input item. The slice the caller passed in is not modified: after
the call it holds what it held before. -/
theorem EnrichItems_sets_favorite (m : Manager) (state : State) (name : String)
    (items : GoSlice Item) (hs : m.state = some state) :
    (∃ out : List Item, m.EnrichItems name items = some out ∧
      out.length = items.elems.length ∧
      ∀ (i : Nat) (item : Item), items.elems[i]? = some item →
        ∃ e, out[i]? = some e ∧
          e.Favorite = state.IsFavorite name item.ID ∧
          { e with Favorite := item.Favorite, Recent := item.Recent,
                   LastAccessed := item.LastAccessed } = item) ∧
    (EnrichItems.withInput m name items).1 = items ∧
    (EnrichItems.withInput m name items).2 = m.EnrichItems name items := by
  refine ⟨⟨items.elems.map (enrichItem state name), by simp [Manager.EnrichItems, hs],
    by simp, ?_⟩, by rw [EnrichItems_withInput], by rw [EnrichItems_withInput]⟩
  intro i item hi
  refine ⟨enrichItem state name item, by simp [hi], enrichItem_Favorite state name item,
    enrichItem_other_fields state name item⟩

/-- Witness for C14: of the items `a` and `b`, `a` is a favorite of `"x"`; the enriched
slice has `Favorite` set on `a` only, the titles are as before, and the slice that was passed
in still holds the two items without the flag. -/
theorem EnrichItems_sets_favorite_witness :
    exManagerEnrich.state = some exStateEnrich ∧
    (∃ out, exManagerEnrich.EnrichItems "x" (some exPlainItems) = some out ∧
      out.length = 2 ∧
      out.map (fun e => (e.ID, e.Title, e.Favorite))
        = [("a", "first", true), ("b", "second", false)]) ∧
    (EnrichItems.withInput exManagerEnrich "x" (some exPlainItems)).1 = some exPlainItems ∧
    exPlainItems.map (fun e => (e.ID, e.Title, e.Favorite))
      = [("a", "first", false), ("b", "second", false)] := by
  obtain ⟨⟨out, hout, hlen, _⟩, hin, _⟩ :=
    EnrichItems_sets_favorite exManagerEnrich exStateEnrich "x" (some exPlainItems) rfl
  refine ⟨rfl, ⟨out, hout, hlen, ?_⟩, hin, by decide⟩
  have hout' : exManagerEnrich.EnrichItems "x" (some exPlainItems)
      = some (exPlainItems.map (enrichItem exStateEnrich "x")) := rfl
  rw [hout'] at hout
  injection hout with hout
  rw [← hout]
  decide

/-- Counterexample for C15: the input item `c` is already marked recent with the timestamp 5,
the State has no timestamp for it, and the item returned is still recent with timestamp 5. -/
theorem EnrichItems_recent_counterexample :
    exStateEnrich.GetRecentTimestamp "x" exStaleItem.ID = none ∧
    (exManagerEnrich.EnrichItems "x" (some [exStaleItem])).elems.map
        (fun e => (e.Recent, e.LastAccessed))
      = [(true, some 5)] := by
  decide

/-- Claim C15, amended. With a State, the item that `EnrichItems(name, items)` returns at an
index has `Recent` true and `LastAccessed` equal to the timestamp when
`State.GetRecentTimestamp(name, id)` is present; when it is absent the item keeps the
`Recent` and the `LastAccessed` of the input item. So for input items that are not marked
(`Recent` false, `LastAccessed` absent), `Recent` is true exactly when the timestamp is present
and `LastAccessed` is the timestamp, absent when the id is not in the recents. -/
theorem EnrichItems_sets_recent_when_present (m : Manager) (state : State) (name : String)
    (items : GoSlice Item) (hs : m.state = some state) :
    ∃ out : List Item, m.EnrichItems name items = some out ∧
      ∀ (i : Nat) (item : Item), items.elems[i]? = some item →
        ∃ e, out[i]? = some e ∧
          (∀ ts, state.GetRecentTimestamp name item.ID = some ts →
            e.Recent = true ∧ e.LastAccessed = some ts) ∧
          (state.GetRecentTimestamp name item.ID = none →
            e.Recent = item.Recent ∧ e.LastAccessed = item.LastAccessed) ∧
          (item.Recent = false → item.LastAccessed = none →
            (e.Recent = true ↔ state.GetRecentTimestamp name item.ID ≠ none) ∧
            e.LastAccessed = state.GetRecentTimestamp name item.ID) := by
  refine ⟨items.elems.map (enrichItem state name), by simp [Manager.EnrichItems, hs], ?_⟩
  intro i item hi
  refine ⟨enrichItem state name item, by simp [hi],
    fun ts h => enrichItem_recent_some state name item ts h,
    fun h => enrichItem_recent_none state name item h, ?_⟩
  intro hr hl
  cases hts : state.GetRecentTimestamp name item.ID with
  | none =>
    obtain ⟨h1, h2⟩ := enrichItem_recent_none state name item hts
    rw [h1, h2, hr, hl]
    simp
  | some ts =>
    obtain ⟨h1, h2⟩ := enrichItem_recent_some state name item ts hts
    rw [h1, h2]
    simp

/-- Witness for C15, amended: of the unmarked items `a` and `b`, `b` is in the recents of
`"x"` with the timestamp 7; the enriched slice marks `b` only. -/
theorem EnrichItems_sets_recent_when_present_witness :
    exManagerEnrich.state = some exStateEnrich ∧
    ∃ out, exManagerEnrich.EnrichItems "x" (some exPlainItems) = some out ∧
      out.map (fun e => (e.ID, e.Recent, e.LastAccessed))
        = [("a", false, none), ("b", true, some 7)] := by
  obtain ⟨out, hout, _⟩ :=
    EnrichItems_sets_recent_when_present exManagerEnrich exStateEnrich "x"
      (some exPlainItems) rfl
  refine ⟨rfl, out, hout, ?_⟩
  have hout' : exManagerEnrich.EnrichItems "x" (some exPlainItems)
      = some (exPlainItems.map (enrichItem exStateEnrich "x")) := rfl
  rw [hout'] at hout
  injection hout with hout
  rw [← hout]
  decide

/-! ## A Manager without State -/

/-- Claim C18. When the Manager has no State, `EnrichItems` returns the slice it is given,
`IsFavorite` is false for every name and id, `MarkRecent` returns nil and leaves the Manager
and the file as they are, and `ToggleFavorite` returns an error and leaves them as they are;
none of them panics. -/
theorem no_state_degrades (m : Manager) (hs : m.state = none) :
    (∀ (name : String) (items : GoSlice Item), m.EnrichItems name items = items) ∧
    (∀ name id : String, m.IsFavorite name id = false) ∧
    (∀ (os : OS) (now : Int) (name id : String),
      m.MarkRecent os now name id = .ok (m, os, none)) ∧
    (∀ (os : OS) (name id : String),
      ∃ e, m.ToggleFavorite os name id = .ok (m, os, some e)) := by
  refine ⟨?_, ?_, ?_, ?_⟩
  · intro name items
    simp [Manager.EnrichItems, hs]
  · intro name id
    simp [Manager.IsFavorite, hs]
  · intro os now name id
    simp [Manager.MarkRecent, hs]
  · intro os name id
    exact ⟨_, by simp only [Manager.ToggleFavorite, hs]; rfl⟩

/-- Witness for C18: the state file cannot be read, so `NewManager` builds a Manager without
State; on it the four methods answer as stated, also for a name that is not registered. -/
theorem no_state_degrades_witness :
    (NewManager exUnreadableOS (some exConfigMax2)).state = none ∧
    (NewManager exUnreadableOS (some exConfigMax2)).EnrichItems "x" (some exPlainItems)
      = some exPlainItems ∧
    (NewManager exUnreadableOS (some exConfigMax2)).IsFavorite "x" "a" = false ∧
    (NewManager exUnreadableOS (some exConfigMax2)).MarkRecent exUnreadableOS 1 "x" "a"
      = .ok (NewManager exUnreadableOS (some exConfigMax2), exUnreadableOS, none) ∧
    ∃ e, (NewManager exUnreadableOS (some exConfigMax2)).ToggleFavorite exUnreadableOS "x" "a"
      = .ok (NewManager exUnreadableOS (some exConfigMax2), exUnreadableOS, some e) :=
  have h := no_state_degrades (NewManager exUnreadableOS (some exConfigMax2)) rfl
  ⟨rfl, h.1 "x" (some exPlainItems), h.2.1 "x" "a", h.2.2.1 exUnreadableOS 1 "x" "a",
    h.2.2.2 exUnreadableOS "x" "a"⟩


/-! ## Calls that returned -/

theorem State.IsFavorite_eq_any (s : State) (n id : String) :
    s.IsFavorite n id = (s.GetFavorites n).any (fun x => x == id) := by
  rw [State.GetFavorites_eq]
  rfl

theorem State.GetRecentTimestamp_eq (s : State) (n id : String) :
    s.GetRecentTimestamp n id
      = ((s.recentsOf n).find? (fun r => r.ItemID == id)).map (fun r => r.LastAccessed) :=
  rfl

/-- What a call of `AddFavorite` that returned has done. -/
theorem State.AddFavorite_ok {s s' : State} {os os' : OS} {err : Option GoError}
    {n id : String} (h : s.AddFavorite os n id = .ok (s', os', err)) :
    s'.GetFavorites n = (if id ∈ s.GetFavorites n then s.GetFavorites n
                         else s.GetFavorites n ++ [id]) ∧
    (∀ n', n ≠ n' → s'.GetFavorites n' = s.GetFavorites n') ∧
    s'.Recents = s.Recents := by
  obtain ⟨s'', os'', err'', heq, hfav, hother, _, hrec, _⟩ :=
    State.AddFavorite_step s os n id (State.Favorites_ne_none_of_AddFavorite h)
  rw [heq] at h
  injection h with h
  injection h with hs _
  subst hs
  exact ⟨hfav, hother, hrec⟩

/-- What a call of `RemoveFavorite` that returned has done. -/
theorem State.RemoveFavorite_ok {s s' : State} {os os' : OS} {err : Option GoError}
    {n id : String} (h : s.RemoveFavorite os n id = .ok (s', os', err)) :
    s'.GetFavorites n = (s.GetFavorites n).erase id ∧
    (∀ n', n ≠ n' → s'.GetFavorites n' = s.GetFavorites n') ∧
    s'.Recents = s.Recents := by
  obtain ⟨s'', os'', err'', heq, hfav, hother, _, hrec, _⟩ :=
    State.RemoveFavorite_step s os n id
  rw [heq] at h
  injection h with h
  injection h with hs _
  subst hs
  exact ⟨hfav, hother, hrec⟩

theorem State.Recents_ne_none_of_AddRecent {s s' : State} {os os' : OS}
    {err : Option GoError} {now : Int} {n id : String}
    (h : s.AddRecent os now n id = .ok (s', os', err)) : s.Recents ≠ none := by
  intro hnil
  rw [State.AddRecent_nil s os now n id hnil] at h
  cases h

/-- What a call of `AddRecent` that returned has done. -/
theorem State.AddRecent_ok {s s' : State} {os os' : OS} {err : Option GoError}
    {now : Int} {n id : String} (h : s.AddRecent os now n id = .ok (s', os', err)) :
    (∃ rest, s'.recentsOf n = { ItemID := id, LastAccessed := now } :: rest) ∧
    (∀ n', n ≠ n' → s'.recentsOf n' = s.recentsOf n') ∧
    s'.Favorites = s.Favorites := by
  by_cases hid : id ∈ s.GetRecents n
  · have hid' := hid
    rw [State.GetRecents_eq] at hid'
    obtain ⟨pre, t, post, hsplit, hpre, _⟩ := recents_split _ id hid'
    obtain ⟨s'', heq, hrec, hother, _, hfav, _⟩ :=
      State.AddRecent_step_present s os now n id pre post t hsplit hpre
    rw [heq] at h
    injection h with h
    injection h with hs _
    subst hs
    exact ⟨⟨_, hrec⟩, hother, hfav⟩
  · obtain ⟨s'', heq, hrec, hother, _, hfav, _⟩ :=
      State.AddRecent_step_new s os now n id (State.Recents_ne_none_of_AddRecent h) hid
    rw [heq] at h
    injection h with h
    injection h with hs _
    subst hs
    refine ⟨⟨(s.recentsOf n).take 19, ?_⟩, hother, hfav⟩
    rw [hrec]
    rfl

theorem State.observers_of_Favorites_eq {s s' : State} (h : s'.Favorites = s.Favorites)
    (y i : String) :
    s'.IsFavorite y i = s.IsFavorite y i ∧ s'.GetFavorites y = s.GetFavorites y := by
  simp [State.IsFavorite, State.GetFavorites, h]

theorem State.observers_of_Recents_eq {s s' : State} (h : s'.Recents = s.Recents)
    (y i : String) :
    s'.GetRecents y = s.GetRecents y ∧
    s'.GetRecentTimestamp y i = s.GetRecentTimestamp y i := by
  simp [State.GetRecents, State.GetRecentTimestamp, h]

/-! ## The State is keyed by Integration name and item id -/

/-- Claim C19. A call of `AddFavorite`, `RemoveFavorite` or `AddRecent` for the Integration
`x` that returns leaves, for every other Integration `y` and every id, `IsFavorite(y, id)`,
`GetFavorites(y)`, `GetRecents(y)` and `GetRecentTimestamp(y, id)` as they were; the two
favorite operations leave the recents of every Integration as they were, and `AddRecent`
leaves the favorites of every Integration as they were. -/
theorem calls_on_x_leave_y_alone :
    (∀ (s s' : State) (os os' : OS) (err : Option GoError) (x id : String),
      (s.AddFavorite os x id = .ok (s', os', err) ∨
        s.RemoveFavorite os x id = .ok (s', os', err)) →
      (∀ y i, y ≠ x →
        s'.IsFavorite y i = s.IsFavorite y i ∧ s'.GetFavorites y = s.GetFavorites y) ∧
      (∀ y i, s'.GetRecents y = s.GetRecents y ∧
        s'.GetRecentTimestamp y i = s.GetRecentTimestamp y i)) ∧
    (∀ (s s' : State) (os os' : OS) (err : Option GoError) (now : Int) (x id : String),
      s.AddRecent os now x id = .ok (s', os', err) →
      (∀ y i, y ≠ x →
        s'.GetRecents y = s.GetRecents y ∧
        s'.GetRecentTimestamp y i = s.GetRecentTimestamp y i) ∧
      (∀ y i, s'.IsFavorite y i = s.IsFavorite y i ∧
        s'.GetFavorites y = s.GetFavorites y)) := by
  constructor
  · intro s s' os os' err x id hcall
    have hframe : (∀ y, x ≠ y → s'.GetFavorites y = s.GetFavorites y) ∧
        s'.Recents = s.Recents := by
      rcases hcall with h | h
      · exact ⟨(State.AddFavorite_ok h).2.1, (State.AddFavorite_ok h).2.2⟩
      · exact ⟨(State.RemoveFavorite_ok h).2.1, (State.RemoveFavorite_ok h).2.2⟩
    refine ⟨fun y i hy => ?_, fun y i => State.observers_of_Recents_eq hframe.2 y i⟩
    have hfav := hframe.1 y (fun h => hy h.symm)
    exact ⟨by rw [State.IsFavorite_eq_any, State.IsFavorite_eq_any, hfav], hfav⟩
  · intro s s' os os' err now x id hcall
    obtain ⟨_, hother, hfav⟩ := State.AddRecent_ok hcall
    refine ⟨fun y i hy => ?_, fun y i => State.observers_of_Favorites_eq hfav y i⟩
    have hrec := hother y (fun h => hy h.symm)
    exact ⟨by rw [State.GetRecents_eq, State.GetRecents_eq, hrec],
      by rw [State.GetRecentTimestamp_eq, State.GetRecentTimestamp_eq, hrec]⟩

/-- Witness for C19: `AddFavorite("y","a")` on the State with the favorite `a` and the recent
`b` of `"x"` returns, and `"x"` still has the favorite `a` and the recent `b` at time 7. -/
theorem calls_on_x_leave_y_alone_witness :
    ∃ s' os' err, exStateEnrich.AddFavorite exFreshOS "y" "a" = .ok (s', os', err) ∧
      s'.IsFavorite "y" "a" = true ∧
      s'.GetFavorites "x" = ["a"] ∧ s'.GetRecents "x" = ["b"] ∧
      s'.GetRecentTimestamp "x" "b" = some 7 ∧ s'.IsFavorite "x" "b" = false := by
  obtain ⟨s', os', err, hcall, hfav, _⟩ :=
    State.AddFavorite_step exStateEnrich exFreshOS "y" "a" (by simp [exStateEnrich])
  obtain ⟨hx, hrec⟩ :=
    calls_on_x_leave_y_alone.1 exStateEnrich s' exFreshOS os' err "y" "a" (Or.inl hcall)
  refine ⟨s', os', err, hcall, ?_, ?_, ?_, ?_, ?_⟩
  · rw [State.IsFavorite_iff, hfav]
    decide
  · rw [(hx "x" "a" (by decide)).2]; decide
  · rw [(hrec "x" "b").1]; decide
  · rw [(hrec "x" "b").2]; decide
  · rw [(hx "x" "b" (by decide)).1]; decide


/-! ## `MarkRecent` and `ToggleFavorite` -/

/-- Counterexample for C16: the Manager has no State (its state file cannot be read), the
name `nonexistent` is not registered, and `MarkRecent` returns nil, not an error. -/
theorem MarkRecent_unregistered_counterexample :
    exManagerNoState.state = none ∧
    exManagerNoState.integrations.find "nonexistent" = none ∧
    (exManagerNoState.Get "nonexistent").2 ≠ none ∧
    exManagerNoState.MarkRecent exUnreadableOS 1 "nonexistent" "item1"
      = .ok (exManagerNoState, exUnreadableOS, none) := by
  refine ⟨rfl, rfl, by decide, rfl⟩

/-- Claim C16, amended. For every Manager with a State, `MarkRecent(name, id)` returns an
error and leaves the Manager, hence the State, and the file as they were when `name` is not
registered or when `Get(id)` of the Integration returns an error; otherwise, the Recents map
of the State being allocated, it returns, with the error of saving if any, and afterwards `id`
is the first element of `GetRecents(name)`, with the current timestamp. -/
theorem MarkRecent_with_state (m : Manager) (state : State) (os : OS) (now : Int)
    (name id : String) (hs : m.state = some state) :
    (m.integrations.find name = none →
      ∃ e, m.MarkRecent os now name id = .ok (m, os, some e)) ∧
    (∀ i e, m.integrations.find name = some i → (i.Get id).2 = some e →
      m.MarkRecent os now name id = .ok (m, os, some e)) ∧
    (∀ i, m.integrations.find name = some i → (i.Get id).2 = none → state.Recents ≠ none →
      ∃ state' os' err, m.MarkRecent os now name id
          = .ok ({ m with state := some state' }, os', err) ∧
        (state'.GetRecents name).head? = some id ∧
        state'.GetRecentTimestamp name id = some now) := by
  refine ⟨?_, ?_, ?_⟩
  · intro hfind
    exact ⟨_, by simp only [Manager.MarkRecent, hs, Manager.Get, hfind]; rfl⟩
  · intro i e hfind hget
    rcases hg : i.Get id with ⟨item, err⟩
    rw [hg] at hget
    simp only at hget
    subst hget
    simp only [Manager.MarkRecent, hs, Manager.Get, hfind, hg]
  · intro i hfind hget hne
    rcases hg : i.Get id with ⟨item, err⟩
    rw [hg] at hget
    simp only at hget
    subst hget
    have hreturns : ∃ r, state.AddRecent os now name id = .ok r := by
      by_cases hid : id ∈ state.GetRecents name
      · have hid' := hid
        rw [State.GetRecents_eq] at hid'
        obtain ⟨pre, t, post, hsplit, hpre, _⟩ := recents_split _ id hid'
        obtain ⟨s', hcall, _⟩ :=
          State.AddRecent_step_present state os now name id pre post t hsplit hpre
        exact ⟨_, hcall⟩
      · obtain ⟨s', hcall, _⟩ := State.AddRecent_step_new state os now name id hne hid
        exact ⟨_, hcall⟩
    obtain ⟨⟨state', os', err⟩, hcall⟩ := hreturns
    obtain ⟨⟨rest, hrec⟩, _⟩ := State.AddRecent_ok hcall
    refine ⟨state', os', err, ?_, ?_, State.GetRecentTimestamp_head state' name id now rest hrec⟩
    · simp only [Manager.MarkRecent, hs, Manager.Get, hfind, hg, hcall]
    · rw [State.GetRecents_eq, hrec]
      rfl

/-- Witness for C16, amended: on the Manager with the State `exStateEnrich`, `MarkRecent` of
an item of the unregistered name `nonexistent` returns an error and changes nothing. -/
theorem MarkRecent_with_state_witness :
    exManagerEnrich.state = some exStateEnrich ∧
    exManagerEnrich.integrations.find "nonexistent" = none ∧
    ∃ e, exManagerEnrich.MarkRecent exFreshOS 9 "nonexistent" "item1"
      = .ok (exManagerEnrich, exFreshOS, some e) :=
  ⟨rfl, rfl,
    (MarkRecent_with_state exManagerEnrich exStateEnrich exFreshOS 9 "nonexistent" "item1"
      rfl).1 rfl⟩

/-- Counterexample for C17: the state file lists the favorite `a` of `"x"` twice;
`ToggleFavorite("x","a")` returns nil, and `IsFavorite("x","a")` is true before and after. -/
theorem ToggleFavorite_duplicate_counterexample :
    exManagerDuplicate.state.map (fun s => s.GetFavorites "x") = some ["a", "a"] ∧
    exManagerDuplicate.IsFavorite "x" "a" = true ∧
    exToggleDuplicate = some (true, none) := by
  decide

/-- Claim C17, amended. For every Manager with a State in which the favorites of `name` hold
`id` at most once (as they do in every State reachable from the empty State), after a
`ToggleFavorite(name, id)` that returned, `IsFavorite(name, id)` is the negation of its value
before the call, and the favorite status of every other pair of a name and an id is as
before. -/
theorem ToggleFavorite_flips (m m' : Manager) (state : State) (os os' : OS)
    (err : Option GoError) (name id : String) (hs : m.state = some state)
    (honce : (state.GetFavorites name).count id ≤ 1)
    (hcall : m.ToggleFavorite os name id = .ok (m', os', err)) :
    m'.IsFavorite name id = !m.IsFavorite name id ∧
    ∀ name' id', (name' ≠ name ∨ id' ≠ id) →
      m'.IsFavorite name' id' = m.IsFavorite name' id' := by
  have hm : ∀ n i, m.IsFavorite n i = state.IsFavorite n i := by
    intro n i; simp [Manager.IsFavorite, hs]
  have hgoal : ∀ state' : State, m'.state = some state' →
      (state'.GetFavorites name = (state.GetFavorites name).erase id ∨
        state'.GetFavorites name = state.GetFavorites name ++ [id]) →
      (state.IsFavorite name id = true →
        state'.GetFavorites name = (state.GetFavorites name).erase id) →
      (state.IsFavorite name id = false →
        state'.GetFavorites name = state.GetFavorites name ++ [id]) →
      (∀ n', name ≠ n' → state'.GetFavorites n' = state.GetFavorites n') →
      m'.IsFavorite name id = (!m.IsFavorite name id) ∧
      ∀ name' id', (name' ≠ name ∨ id' ≠ id) →
        m'.IsFavorite name' id' = m.IsFavorite name' id' := by
    intro state' hs' hshape hrem hadd hother
    have hm' : ∀ n i, m'.IsFavorite n i = state'.IsFavorite n i := by
      intro n i; simp [Manager.IsFavorite, hs']
    constructor
    · rw [hm, hm']
      cases hb : state.IsFavorite name id with
      | true =>
        have hmem : id ∉ state'.GetFavorites name := by
          rw [hrem hb, ← List.count_eq_zero, List.count_erase_self]
          omega
        cases hb' : state'.IsFavorite name id with
        | false => rfl
        | true => exact absurd ((State.IsFavorite_iff _ _ _).1 hb') hmem
      | false =>
        have hmem : id ∈ state'.GetFavorites name := by
          rw [hadd hb]; simp
        simpa using (State.IsFavorite_iff _ _ _).2 hmem
    · intro name' id' hne
      rw [hm, hm']
      by_cases hn : name = name'
      · subst hn
        have hid : id' ≠ id := by
          rcases hne with h | h
          · exact absurd rfl h
          · exact h
        have hiff : id' ∈ state'.GetFavorites name ↔ id' ∈ state.GetFavorites name := by
          rcases hshape with h | h
          · rw [h]; exact List.mem_erase_of_ne hid
          · rw [h]; simp [hid]
        rw [Bool.eq_iff_iff, State.IsFavorite_iff, State.IsFavorite_iff, hiff]
      · rw [State.IsFavorite_eq_any, State.IsFavorite_eq_any, hother name' hn]
  simp only [Manager.ToggleFavorite, hs] at hcall
  by_cases hb : state.IsFavorite name id = true
  · simp only [hb, if_true] at hcall
    rcases hrm : state.RemoveFavorite os name id with p | ⟨state', os₁, e₁⟩
    · simp [hrm] at hcall
    · simp only [hrm, Except.ok.injEq, Prod.mk.injEq] at hcall
      obtain ⟨hfav, hother, _⟩ := State.RemoveFavorite_ok hrm
      exact hgoal state' (by rw [← hcall.1]) (Or.inl hfav) (fun _ => hfav)
        (fun h => absurd hb (by simp [h])) hother
  · have hb' : state.IsFavorite name id = false := by simpa using hb
    simp only [hb', Bool.false_eq_true, if_false] at hcall
    rcases hadd : state.AddFavorite os name id with p | ⟨state', os₁, e₁⟩
    · simp [hadd] at hcall
    · simp only [hadd, Except.ok.injEq, Prod.mk.injEq] at hcall
      obtain ⟨hfav, hother, _⟩ := State.AddFavorite_ok hadd
      have hnot : id ∉ state.GetFavorites name := fun h =>
        hb ((State.IsFavorite_iff _ _ _).2 h)
      simp only [hnot, if_false] at hfav
      exact hgoal state' (by rw [← hcall.1]) (Or.inr hfav)
        (fun h => absurd h hb) (fun _ => hfav) hother

/-- Witness for C17, amended: `a` is once among the favorites of `"x"` in `exStateEnrich`;
`ToggleFavorite("x","a")` returns, `a` is a favorite before and none after, and `b` is none
before and after. -/
theorem ToggleFavorite_flips_witness :
    exManagerEnrich.state = some exStateEnrich ∧
    (exStateEnrich.GetFavorites "x").count "a" ≤ 1 ∧
    exManagerEnrich.IsFavorite "x" "a" = true ∧
    ∃ m' os' err, exManagerEnrich.ToggleFavorite exFreshOS "x" "a" = .ok (m', os', err) ∧
      m'.IsFavorite "x" "a" = false ∧ m'.IsFavorite "x" "b" = false := by
  have hcall : ∃ r, exManagerEnrich.ToggleFavorite exFreshOS "x" "a" = .ok r := ⟨_, rfl⟩
  obtain ⟨⟨m', os', err⟩, hcall⟩ := hcall
  have h := ToggleFavorite_flips exManagerEnrich m' exStateEnrich exFreshOS os' err "x" "a"
    rfl (by decide) hcall
  refine ⟨rfl, by decide, by decide, m', os', err, hcall, ?_, ?_⟩
  · rw [h.1]; decide
  · rw [h.2 "x" "b" (Or.inr (by decide))]; decide


/-! ## Texts of ASCII characters -/

/-- On a text of ASCII characters every table gives the same lower-case form. -/
theorem stringsToLower_of_isASCII (u : UnicodeTables) (s : String) (h : isASCII s = true) :
    stringsToLower u s = stringsToLower asciiTables s := by
  unfold stringsToLower
  congr 1
  apply List.map_congr_left
  intro c hc
  have hlt := List.all_eq_true.1 h c hc
  exact u.ToLower_ascii c (by simpa using hlt)

theorem isASCII_stringsTrimSpace (s : String) (h : isASCII s = true) :
    isASCII (stringsTrimSpace s) = true := by
  unfold isASCII at h ⊢
  rw [List.all_eq_true] at h ⊢
  intro c hc
  apply h c
  simp only [stringsTrimSpace, List.mem_reverse] at hc
  exact (List.dropWhile_suffix _).subset
    (List.mem_reverse.1 ((List.dropWhile_suffix _).subset hc))

/-- A table that maps `É` to `é` and `é` to itself, as `unicode.ToLower` does, gives `École`
and `école`, and `Éditeur` and `éditeur`, the same lower-case forms. -/
theorem stringsToLower_accented (u : UnicodeTables)
    (h₁ : u.ToLower '\u00c9' = '\u00e9') (h₂ : u.ToLower '\u00e9' = '\u00e9') :
    stringsToLower u "\u00c9cole" = "\u00e9cole" ∧
    stringsToLower u "\u00e9cole" = "\u00e9cole" ∧
    stringsToLower u "\u00c9diteur" = "\u00e9diteur" ∧
    stringsToLower u "\u00e9diteur" = "\u00e9diteur" := by
  have hcole : stringsToLower u "cole" = "cole" := by
    rw [stringsToLower_of_isASCII u _ (by decide)]; decide
  have hdit : stringsToLower u "diteur" = "diteur" := by
    rw [stringsToLower_of_isASCII u _ (by decide)]; decide
  have hcons : ∀ (c : Char) (s : String),
      stringsToLower u (String.mk (c :: s.data))
        = String.mk (u.ToLower c :: (stringsToLower u s).data) := fun _ _ => rfl
  have e₁ : "\u00c9cole" = String.mk ('\u00c9' :: "cole".data) := by decide
  have e₂ : "\u00e9cole" = String.mk ('\u00e9' :: "cole".data) := by decide
  have e₃ : "\u00c9diteur" = String.mk ('\u00c9' :: "diteur".data) := by decide
  have e₄ : "\u00e9diteur" = String.mk ('\u00e9' :: "diteur".data) := by decide
  refine ⟨?_, ?_, ?_, ?_⟩
  · rw [e₁, hcons, h₁, hcole, e₂]
  · rw [e₂, hcons, h₂, hcole]
  · rw [e₃, hcons, h₁, hdit, e₄]
  · rw [e₄, hcons, h₂, hdit]

/-! ## Filtering -/

theorem containsChars_iff (sub s : List Char) : containsChars sub s = true ↔ sub <:+: s := by
  induction s with
  | nil =>
    simp only [containsChars, List.isPrefixOf_iff_prefix, List.prefix_nil, List.infix_nil]
  | cons c rest ih =>
    simp only [containsChars, Bool.or_eq_true, List.isPrefixOf_iff_prefix, ih,
      List.infix_cons_iff]

theorem stringsContains_iff (s substr : String) :
    stringsContains s substr = true ↔ substr.data <:+: s.data :=
  containsChars_iff _ _

theorem contains_iff (slice : GoSlice String) (item : String) :
    contains slice item = true ↔ item ∈ slice.elems := by
  simp [contains]

theorem containsAny_iff {u : UnicodeTables} (slice : GoSlice String) (query : String) :
    containsAny u slice query = true ↔
      ∃ s ∈ slice.elems, query.data <:+: (stringsToLower u s).data := by
  simp [containsAny, stringsContains_iff]

theorem if_chain_eq_true (c₁ c₂ c₃ c₄ c₅ c₆ : Bool) :
    (if c₁ = true then false else if c₂ = true then false else if c₃ = true then false
      else if c₄ = true then false else if c₅ = true then false else if c₆ = true then false
      else true) = true ↔
    c₁ = false ∧ c₂ = false ∧ c₃ = false ∧ c₄ = false ∧ c₅ = false ∧ c₆ = false := by
  cases c₁ <;> cases c₂ <;> cases c₃ <;> cases c₄ <;> cases c₅ <;> cases c₆ <;> simp

theorem and_not_eq_false_iff (a b : Bool) : (a && !b) = false ↔ (a = true → b = true) := by
  cases a <;> cases b <;> simp

/-- The source's `matchesFilter` decides the criteria of the specification. -/
theorem matchesFilter_iff {u : UnicodeTables} (item : Item) (filter : Filter) :
    matchesFilter u item filter = true ↔ SatisfiesCriteria u item filter := by
  unfold matchesFilter SatisfiesCriteria
  rw [if_chain_eq_true]
  have hlen : ∀ l : List String, decide (l.length > 0) = true ↔ l ≠ [] := by
    intro l; cases l <;> simp
  have hne : ∀ a b : String, (a != b) = true ↔ a ≠ b := by
    intro a b; simp
  have h₁ : (filter.Query != "" &&
      (!stringsContains (stringsToLower u item.Title) (stringsToLower u filter.Query) &&
       !stringsContains (stringsToLower u item.Description) (stringsToLower u filter.Query) &&
       !containsAny u item.Tags (stringsToLower u filter.Query) &&
       !containsAny u item.Keywords (stringsToLower u filter.Query))) = false ↔
      (filter.Query ≠ "" →
        (stringsToLower u filter.Query).data <:+: (stringsToLower u item.Title).data ∨
        (stringsToLower u filter.Query).data <:+: (stringsToLower u item.Description).data ∨
        (∃ tag ∈ item.Tags.elems,
          (stringsToLower u filter.Query).data <:+: (stringsToLower u tag).data) ∨
        (∃ keyword ∈ item.Keywords.elems,
          (stringsToLower u filter.Query).data <:+: (stringsToLower u keyword).data)) := by
    rw [← stringsContains_iff, ← stringsContains_iff, ← containsAny_iff, ← containsAny_iff,
      ← hne]
    cases (filter.Query != "") <;>
      cases stringsContains (stringsToLower u item.Title) (stringsToLower u filter.Query) <;>
      cases stringsContains (stringsToLower u item.Description) (stringsToLower u filter.Query) <;>
      cases containsAny u item.Tags (stringsToLower u filter.Query) <;>
      cases containsAny u item.Keywords (stringsToLower u filter.Query) <;> simp
  have h₂ : (decide (filter.Categories.elems.length > 0) &&
      !contains filter.Categories item.Category) = false ↔
      (filter.Categories.elems ≠ [] → item.Category ∈ filter.Categories.elems) := by
    rw [and_not_eq_false_iff, hlen, contains_iff]
  have h₃ : (decide (filter.Tags.elems.length > 0) &&
      !filter.Tags.elems.any (fun tag => contains item.Tags tag)) = false ↔
      (filter.Tags.elems ≠ [] → ∃ tag ∈ filter.Tags.elems, tag ∈ item.Tags.elems) := by
    rw [and_not_eq_false_iff, hlen, List.any_eq_true]
    simp only [contains_iff]
  have h₄ : (filter.Status != "" && item.Status != filter.Status) = false ↔
      (filter.Status ≠ "" → item.Status = filter.Status) := by
    rw [← hne]
    by_cases h : item.Status = filter.Status
    · simp [h]
    · simp [h]
  have h₅ : (filter.Favorites && !item.Favorite) = false ↔
      (filter.Favorites = true → item.Favorite = true) := and_not_eq_false_iff _ _
  have h₆ : (filter.Recent && !item.Recent) = false ↔
      (filter.Recent = true → item.Recent = true) := and_not_eq_false_iff _ _
  rw [h₁, h₂, h₃, h₄, h₅, h₆]

theorem containsAny_of_ascii (u : UnicodeTables) (slice : GoSlice String) (query : String)
    (h : slice.elems.all isASCII = true) :
    containsAny u slice query = containsAny asciiTables slice query := by
  unfold containsAny
  rw [Bool.eq_iff_iff, List.any_eq_true, List.any_eq_true]
  constructor
  · rintro ⟨s, hs, hc⟩
    exact ⟨s, hs, by rw [← stringsToLower_of_isASCII u s (List.all_eq_true.1 h s hs)]; exact hc⟩
  · rintro ⟨s, hs, hc⟩
    exact ⟨s, hs, by rw [stringsToLower_of_isASCII u s (List.all_eq_true.1 h s hs)]; exact hc⟩

/-- An item and a query of ASCII characters are matched alike under every table. -/
theorem matchesFilter_of_ascii (u : UnicodeTables) (item : Item) (filter : Filter)
    (hi : asciiItem item = true) (hq : isASCII filter.Query = true) :
    matchesFilter u item filter = matchesFilter asciiTables item filter := by
  simp only [asciiItem, Bool.and_eq_true] at hi
  obtain ⟨⟨⟨ht, hd⟩, htags⟩, hkeys⟩ := hi
  unfold matchesFilter
  rw [stringsToLower_of_isASCII u _ hq, stringsToLower_of_isASCII u _ ht,
    stringsToLower_of_isASCII u _ hd, containsAny_of_ascii u _ _ htags,
    containsAny_of_ascii u _ _ hkeys]

/-- Items and a query of ASCII characters are filtered alike under every table. -/
theorem FilterItems_of_ascii (u : UnicodeTables) (items : GoSlice Item) (filter : Filter)
    (hi : items.elems.all asciiItem = true) (hq : isASCII filter.Query = true) :
    FilterItems u items filter = FilterItems asciiTables items filter := by
  unfold FilterItems
  split
  · rfl
  · congr 1
    apply List.filter_congr
    intro item hitem
    exact matchesFilter_of_ascii u item filter (List.all_eq_true.1 hi item hitem) hq

/-- Claim C20. `FilterItems` returns, in their original order, exactly the input items for
which every active criterion holds: the lower-cased query occurs in the lower-cased title,
description, some tag or some keyword; the category is one of the requested categories; some
requested tag is a tag of the item; the status is the requested status; `Favorite` is set when
only favorites are asked for; `Recent` is set when only recent items are asked for. With no
active criterion it returns the slice it was given. -/
theorem FilterItems_keeps_matching (u : UnicodeTables) (items : GoSlice Item) (filter : Filter) :
    (∀ item, matchesFilter u item filter = true ↔ SatisfiesCriteria u item filter) ∧
    (FilterItems u items filter).elems
      = items.elems.filter (fun item => matchesFilter u item filter) ∧
    (filter.inactive → FilterItems u items filter = items) := by
  have hinactive : filter.inactive → FilterItems u items filter = items := by
    rintro ⟨hq, hc, ht, hs, hf, hr⟩
    simp [FilterItems, hq, hc, ht, hs, hf, hr]
  refine ⟨fun item => matchesFilter_iff item filter, ?_, hinactive⟩
  by_cases hin : filter.inactive
  · rw [hinactive hin]
    have hall : ∀ item ∈ items.elems, matchesFilter u item filter = true := by
      intro item _
      rw [matchesFilter_iff]
      obtain ⟨hq, hc, ht, hs, hf, hr⟩ := hin
      exact ⟨fun h => absurd hq h, fun h => absurd hc h, fun h => absurd ht h,
        fun h => absurd hs h, fun h => by simp [hf] at h, fun h => by simp [hr] at h⟩
    exact (List.filter_eq_self.2 hall).symm
  · have hcond : (filter.Query == "" && filter.Categories.elems.length == 0 &&
        filter.Tags.elems.length == 0 && filter.Status == "" &&
        !filter.Favorites && !filter.Recent) = false := by
      cases hb : (filter.Query == "" && filter.Categories.elems.length == 0 &&
        filter.Tags.elems.length == 0 && filter.Status == "" &&
        !filter.Favorites && !filter.Recent) with
      | false => rfl
      | true =>
        exfalso
        apply hin
        simp only [Bool.and_eq_true, beq_iff_eq, Bool.not_eq_true', List.length_eq_zero] at hb
        obtain ⟨⟨⟨⟨⟨hq, hc⟩, ht⟩, hs⟩, hf⟩, hr⟩ := hb
        exact ⟨hq, hc, ht, hs, hf, hr⟩
    simp only [FilterItems, hcond, Bool.false_eq_true, if_false]
    rfl

/-- Witness for C20: of the `Dev` item tagged `go` and the `Ops` item tagged `docker`, the
filter for the category `Dev` keeps the first, the filter for the tags `go` or `docker` keeps
both, the filter for the query `GO` keeps the first, and the empty filter keeps both. Under a
table that maps `É` to `é`, as `unicode.ToLower` does, the query `école` keeps both the item
titled `École` and the item titled `école`. -/
theorem FilterItems_keeps_matching_witness :
    (∀ u : UnicodeTables, u.ToLower '\u00c9' = '\u00e9' → u.ToLower '\u00e9' = '\u00e9' →
      itemIDs (FilterItems u (some exEcoleItems) { Filter.zero with Query := "\u00e9cole" })
        = ["1", "2"]) ∧
    (∀ u : UnicodeTables,
      itemIDs (FilterItems u (some exFilterItems) { Filter.zero with Categories := some ["Dev"] })
        = ["1"] ∧
      itemIDs (FilterItems u (some exFilterItems)
        { Filter.zero with Tags := some ["go", "docker"] }) = ["1", "2"] ∧
      itemIDs (FilterItems u (some exFilterItems) { Filter.zero with Query := "GO" }) = ["1"] ∧
      FilterItems u (some exFilterItems) Filter.zero = some exFilterItems) ∧
    Filter.zero.inactive := by
  have hzero : Filter.zero.inactive := ⟨rfl, rfl, rfl, rfl, rfl, rfl⟩
  refine ⟨fun u h₁ h₂ => ?_, fun u => ⟨?_, ?_, ?_,
    (FilterItems_keeps_matching u (some exFilterItems) Filter.zero).2.2 hzero⟩, hzero⟩
  · obtain ⟨hE, he, _, _⟩ := stringsToLower_accented u h₁ h₂
    have hall : ∀ item ∈ exEcoleItems,
        matchesFilter u item { Filter.zero with Query := "\u00e9cole" } = true := by
      intro item hitem
      refine ((FilterItems_keeps_matching u none _).1 item).2
        ⟨fun _ => Or.inl ?_, fun h => absurd rfl h, fun h => absurd rfl h,
          fun h => absurd rfl h, fun h => (by cases h), fun h => (by cases h)⟩
      simp only [exEcoleItems, List.mem_cons, List.mem_singleton, List.not_mem_nil,
        or_false] at hitem
      rcases hitem with rfl | rfl
      · show (stringsToLower u "\u00e9cole").data <:+: (stringsToLower u "\u00c9cole").data
        rw [he, hE]
      · show (stringsToLower u "\u00e9cole").data <:+: (stringsToLower u "\u00e9cole").data
        exact List.infix_refl _
    unfold itemIDs
    rw [(FilterItems_keeps_matching u _ _).2.1]
    show (exEcoleItems.filter _).map _ = _
    rw [List.filter_eq_self.2 hall]
    decide
  · rw [FilterItems_of_ascii u _ _ (by decide) (by decide)]
    unfold itemIDs
    rw [(FilterItems_keeps_matching asciiTables _ _).2.1]; decide
  · rw [FilterItems_of_ascii u _ _ (by decide) (by decide)]
    unfold itemIDs
    rw [(FilterItems_keeps_matching asciiTables _ _).2.1]; decide
  · rw [FilterItems_of_ascii u _ _ (by decide) (by decide)]
    unfold itemIDs
    rw [(FilterItems_keeps_matching asciiTables _ _).2.1]; decide


/-! ## Persistence round trip -/

theorem alookup_eq_none_of_not_mem_keys {V : Type} (l : List (String × V)) (k : String)
    (h : k ∉ l.map Prod.fst) : alookup k l = none := by
  induction l with
  | nil => rfl
  | cons e rest ih =>
    obtain ⟨k₀, v₀⟩ := e
    simp only [List.map_cons, List.mem_cons, not_or] at h
    have hk : ¬ k₀ = k := fun e => h.1 e.symm
    simp [alookup, hk, ih h.2]

theorem alookup_isSome_of_mem_keys {V : Type} (l : List (String × V)) (k : String)
    (h : k ∈ l.map Prod.fst) : ∃ v, alookup k l = some v := by
  cases hf : alookup k l with
  | some v => exact ⟨v, rfl⟩
  | none =>
    exfalso
    induction l with
    | nil => simp at h
    | cons e rest ih =>
      obtain ⟨k₀, v₀⟩ := e
      by_cases hk : k₀ = k
      · simp [alookup, hk] at hf
      · simp only [alookup, hk, if_false] at hf
        simp only [List.map_cons, List.mem_cons] at h
        rcases h with h | h
        · exact hk h.symm
        · exact ih h hf

theorem mem_sortedKeys {V : Type} (l : List (String × V)) (k : String) :
    k ∈ sortedKeys l ↔ k ∈ l.map Prod.fst := by
  unfold sortedKeys
  rw [(List.perm_insertionSort _ _).mem_iff, List.mem_dedup]

theorem firstError_eq_none {α : Type} (rs : List (α × Option GoError))
    (h : ∀ r ∈ rs, r.2 = none) : firstError rs = none := by
  unfold firstError
  induction rs with
  | nil => rfl
  | cons r rest ih =>
    rw [List.foldl_cons, h r (List.mem_cons_self _ _)]
    exact ih (fun r' hr' => h r' (List.mem_cons_of_mem _ hr'))

/-- A slice that was marshalled decodes to itself when each of its elements does. -/
theorem decodeSlice_marshalled {α : Type} (elem : JSON → α × Option GoError)
    (f : α → JSON) (goType : String) (l : List α) (h : ∀ x ∈ l, elem (f x) = (x, none)) :
    decodeSlice elem goType (.arr (l.map f)) = (some l, none) := by
  have hmap : (l.map f).map (fun x => (elem x).1) = l := by
    rw [List.map_map]
    conv_rhs => rw [← List.map_id l]
    apply List.map_congr_left
    intro x hx
    simp [h x hx]
  have herr : firstError ((l.map f).map elem) = none := by
    apply firstError_eq_none
    intro r hr
    obtain ⟨j, hj, rfl⟩ := List.mem_map.1 hr
    obtain ⟨x, hx, rfl⟩ := List.mem_map.1 hj
    rw [h x hx]
  simp only [decodeSlice, hmap, herr]

theorem decodeStrings_marshalled (v : GoSlice String) :
    decodeSlice (decodeString "") "[]string" (marshalStrings v) = (v, none) := by
  cases v with
  | none => rfl
  | some l => exact decodeSlice_marshalled _ _ _ l (fun x _ => rfl)

theorem decodeRecentItem_marshalled (r : RecentItem)
    (h : -(2 ^ 63) ≤ r.LastAccessed ∧ r.LastAccessed < 2 ^ 63) :
    decodeRecentItem { ItemID := "", LastAccessed := 0 } (marshalRecentItem r) = (r, none) := by
  have h₁ : keyMatches "item_id" "item_id" = true := by decide
  have h₂ : keyMatches "item_id" "last_accessed" = false := by decide
  have h₃ : keyMatches "last_accessed" "last_accessed" = true := by decide
  simp only [decodeRecentItem, marshalRecentItem, List.foldl_cons, List.foldl_nil,
    decodeRecentField, h₁, h₂, h₃, if_true, Bool.false_eq_true, if_false, decodeString,
    decodeInt64, h, and_self, saveError]

theorem decodeRecents_marshalled (v : GoSlice RecentItem)
    (h : ∀ r ∈ v.elems, -(2 ^ 63) ≤ r.LastAccessed ∧ r.LastAccessed < 2 ^ 63) :
    decodeSlice (decodeRecentItem { ItemID := "", LastAccessed := 0 }) "[]RecentItem"
      (marshalRecents v) = (v, none) := by
  cases v with
  | none => rfl
  | some l =>
    exact decodeSlice_marshalled _ _ _ l (fun x hx => decodeRecentItem_marshalled x (h x hx))

/-- Decoding the entries written for the keys `keys` stores the value of each key. -/
theorem foldl_decodeMapEntry_marshalled {V : Type} (elem : JSON → V × Option GoError)
    (f : V → JSON) (l : List (String × V))
    (helem : ∀ k v, alookup k l = some v → elem (f v) = (v, none)) :
    ∀ (keys : List String) (acc : List (String × V)),
      ∃ acc', (keys.filterMap (fun k => (alookup k l).map (fun v => (k, f v)))).foldl
          (decodeMapEntry elem) (acc, none) = (acc', none) ∧
        ∀ k, alookup k acc' =
          match (if k ∈ keys then alookup k l else none) with
          | some v => some v
          | none => alookup k acc := by
  intro keys
  induction keys with
  | nil => intro acc; exact ⟨acc, rfl, fun k => by simp⟩
  | cons k₀ rest ih =>
    intro acc
    cases hk₀ : alookup k₀ l with
    | none =>
      obtain ⟨acc', hrun, hlook⟩ := ih acc
      refine ⟨acc', by simp only [List.filterMap_cons, hk₀, Option.map_none']; exact hrun, ?_⟩
      intro k
      rw [hlook k]
      by_cases hk : k = k₀
      · subst hk
        by_cases hin : k ∈ rest
        · simp [hin, hk₀]
        · simp [hin, hk₀]
      · simp [hk]
    | some v₀ =>
      obtain ⟨acc', hrun, hlook⟩ := ih (aset k₀ v₀ acc)
      refine ⟨acc', ?_, ?_⟩
      · simp only [List.filterMap_cons, hk₀, Option.map_some', List.foldl_cons, decodeMapEntry,
          helem k₀ v₀ hk₀, saveError]
        exact hrun
      · intro k
        rw [hlook k]
        by_cases hk : k = k₀
        · subst hk
          by_cases hin : k ∈ rest
          · simp [hin, hk₀]
          · simp [hin, hk₀, alookup_aset_self]
        · have hk' : k₀ ≠ k := fun e => hk e.symm
          simp only [List.mem_cons, hk, false_or, alookup_aset_ne hk']

/-- A map that was marshalled decodes, into the empty map, to a map with the same value for
every key, when each of its values decodes to itself. -/
theorem decodeMap_marshalled {α : Type} (elem : JSON → GoSlice α × Option GoError)
    (f : GoSlice α → JSON) (goType : String) (m : GoMap (GoSlice α))
    (helem : ∀ l k v, m = some l → alookup k l = some v → elem (f v) = (v, none)) :
    ∃ m', decodeMap elem goType (some []) (marshalMap f m) = (m', none) ∧
      ∀ k, GoMap.get m' k = GoMap.get m k := by
  cases m with
  | none => exact ⟨none, rfl, fun _ => rfl⟩
  | some l =>
    obtain ⟨acc', hrun, hlook⟩ :=
      foldl_decodeMapEntry_marshalled elem f l (fun k v => helem l k v rfl) (sortedKeys l) []
    refine ⟨some acc', ?_, ?_⟩
    · simp only [decodeMap, marshalMap, Option.getD_some, hrun]
    · intro k
      simp only [GoMap.get]
      rw [hlook k]
      by_cases hk : k ∈ l.map Prod.fst
      · obtain ⟨v, hv⟩ := alookup_isSome_of_mem_keys l k hk
        simp only [mem_sortedKeys, hk, if_true, hv]
      · simp only [mem_sortedKeys, hk, if_false, alookup_eq_none_of_not_mem_keys l k hk,
          alookup]

/-- The document `marshalState s`, decoded into the empty State, gives a State with the same
lists for every Integration, when the timestamps are `int64` values. -/
theorem Unmarshal_marshalState (s : State) (p : String)
    (hrange : ∀ n, ∀ r ∈ s.recentsOf n, -(2 ^ 63) ≤ r.LastAccessed ∧ r.LastAccessed < 2 ^ 63) :
    ∃ s', Unmarshal (.text (marshalState s)) (State.empty p) = (s', none) ∧
      s'.statePath = p ∧
      ∀ n, s'.Favorites.get n = s.Favorites.get n ∧ s'.Recents.get n = s.Recents.get n := by
  obtain ⟨F, hF, hFget⟩ := decodeMap_marshalled (decodeSlice (decodeString "") "[]string")
    marshalStrings "map[string][]string" s.Favorites
    (fun _ _ v _ _ => decodeStrings_marshalled v)
  obtain ⟨R, hR, hRget⟩ := decodeMap_marshalled
    (decodeSlice (decodeRecentItem { ItemID := "", LastAccessed := 0 }) "[]RecentItem")
    marshalRecents "map[string][]RecentItem" s.Recents
    (fun l k v hl hv => decodeRecents_marshalled v (by
      have := hrange k
      simp only [State.recentsOf, hl, GoMap.get, hv, Option.getD_some] at this
      exact this))
  have h₁ : keyMatches "favorites" "favorites" = true := by decide
  have h₂ : keyMatches "favorites" "recents" = false := by decide
  have h₃ : keyMatches "recents" "recents" = true := by decide
  refine ⟨{ Favorites := F, Recents := R, statePath := p }, ?_, rfl, fun n => ⟨hFget n, hRget n⟩⟩
  simp only [Unmarshal, marshalState, List.foldl_cons, List.foldl_nil, decodeStateField, h₁, h₂,
    h₃, if_true, Bool.false_eq_true, if_false, State.empty, hF, hR, saveError]

theorem State.saveUnlocked_ok {s : State} {os os' : OS}
    (h : s.saveUnlocked os = (os', none)) :
    os'.files s.statePath = .ok (.text (marshalState s)) ∧ os'.homeDir = os.homeDir := by
  unfold State.saveUnlocked OS.WriteFile at h
  cases hm : os.mkdirFault (filepathDir s.statePath) with
  | some e => simp [hm] at h
  | none =>
    cases hw : os.writeFault s.statePath with
    | some e => simp [hm, hw] at h
    | none =>
      simp only [hm, hw, Prod.mk.injEq, and_true] at h
      subst h
      simp

/-- Claim C11. When `Save` (or the save at the end of a mutating call) has succeeded, and the
timestamps in the State are `int64` values, `NewState` for the directory of that file returns
a State and no error, and for every Integration name and id `GetFavorites`, `GetRecents`,
`GetRecentTimestamp` and `IsFavorite` of the loaded State agree with the State that was
saved. -/
theorem save_then_NewState_round_trip (s : State) (os os' : OS) (configDir dir : String)
    (hrange : ∀ n, ∀ r ∈ s.recentsOf n, -(2 ^ 63) ≤ r.LastAccessed ∧ r.LastAccessed < 2 ^ 63)
    (hsave : s.Save os = (os', none) ∨ s.saveUnlocked os = (os', none))
    (hdir : resolveConfigDir os' configDir = .ok dir)
    (hpath : filepathJoin dir "state.json" = s.statePath) :
    ∃ s', NewState os' configDir = (some s', none) ∧
      ∀ n, s'.GetFavorites n = s.GetFavorites n ∧ s'.GetRecents n = s.GetRecents n ∧
        ∀ id, s'.GetRecentTimestamp n id = s.GetRecentTimestamp n id ∧
          s'.IsFavorite n id = s.IsFavorite n id := by
  have hsave' : s.saveUnlocked os = (os', none) := by
    rcases hsave with h | h
    · exact h
    · exact h
  obtain ⟨hfile, _⟩ := State.saveUnlocked_ok hsave'
  obtain ⟨s', hdec, hp, hget⟩ := Unmarshal_marshalState s s.statePath hrange
  refine ⟨s', ?_, fun n => ?_⟩
  · simp only [State.empty] at hdec
    simp [NewState, hdir, hpath, State.Load, State.empty, hfile, hdec]
  · obtain ⟨hF, hR⟩ := hget n
    refine ⟨by simp [State.GetFavorites, hF], by simp [State.GetRecents, hR], fun id => ?_⟩
    exact ⟨by simp [State.GetRecentTimestamp, hR], by simp [State.IsFavorite, hF]⟩

/-- Witness for C11: the State with the favorite `a` and the recent `b` (time 7) of `"x"` is
saved on a fresh install; `NewState("/cfg")` then returns a State with the same lists. -/
theorem save_then_NewState_round_trip_witness :
    (exStateEnrich.saveUnlocked exFreshOS).2 = none ∧
    ∃ s', NewState (exStateEnrich.saveUnlocked exFreshOS).1 "/cfg" = (some s', none) ∧
      s'.GetFavorites "x" = ["a"] ∧ s'.GetRecents "x" = ["b"] ∧
      s'.GetRecentTimestamp "x" "b" = some 7 ∧ s'.IsFavorite "x" "a" = true := by
  have hrange : ∀ n, ∀ r ∈ exStateEnrich.recentsOf n,
      -(2 ^ 63) ≤ r.LastAccessed ∧ r.LastAccessed < 2 ^ 63 := by
    intro n r hr
    by_cases hn : "x" = n
    · subst hn
      have hx : exStateEnrich.recentsOf "x" = [{ ItemID := "b", LastAccessed := 7 }] := by
        decide
      rw [hx, List.mem_singleton] at hr
      subst hr
      constructor <;> norm_num
    · simp [State.recentsOf, exStateEnrich, GoMap.get, alookup, hn, GoSlice.elems] at hr
  obtain ⟨s', hnew, hsame⟩ :=
    save_then_NewState_round_trip exStateEnrich exFreshOS
      (exStateEnrich.saveUnlocked exFreshOS).1 "/cfg" "/cfg" hrange (Or.inr rfl) rfl
      (by decide)
  obtain ⟨hfav, hrec, hts⟩ := hsame "x"
  refine ⟨rfl, s', hnew, ?_, ?_, ?_, ?_⟩
  · rw [hfav]; decide
  · rw [hrec]; decide
  · rw [(hts "b").1]; decide
  · rw [(hts "a").2]; decide


/-! ## Sorting -/

theorem stringLess_iff (a b : String) : stringLess a b = true ↔ a < b := by
  rw [String.lt_iff_toList_lt]
  simp [stringLess, String.toList]

theorem stringLess_eq_false_iff (a b : String) : stringLess a b = false ↔ b ≤ a := by
  rw [← not_lt, ← stringLess_iff]
  simp

/-- Insertion sort meets the contract of `sort.Slice` for a strict weak order. -/
theorem sortSlice_sorted {α : Type} (less : α → α → Bool) (h : StrictWeakOrder less)
    (xs : List α) : SortedBy less xs (sortSlice less xs) := by
  refine ⟨List.perm_insertionSort _ _, ?_⟩
  haveI : IsTotal α (fun a b => less b a = false) := ⟨fun a b => by
    cases hba : less b a with
    | false => exact Or.inl rfl
    | true => exact Or.inr (h.asymm b a hba)⟩
  haveI : IsTrans α (fun a b => less b a = false) := ⟨fun a b c hab hbc => by
    show less c a = false
    cases hca : less c a with
    | false => rfl
    | true =>
      exfalso
      -- c < a, not b < a, not c < b
      cases hab' : less a b with
      | true =>
        have := h.trans c a b hca hab'
        rw [hbc] at this
        cases this
      | false =>
        cases hbc' : less b c with
        | true =>
          have := h.trans b c a hbc' hca
          rw [hab] at this
          cases this
        | false =>
          have := (h.incomp_trans a b c hab' hab hbc' hbc).2
          rw [hca] at this
          cases this⟩
  exact List.sorted_insertionSort (fun a b => less b a = false) xs

theorem strictWeakOrder_of_key {α κ : Type} [LinearOrder κ] (key : α → κ)
    (less : α → α → Bool) (hless : ∀ a b, less a b = true ↔ key a < key b) :
    StrictWeakOrder less := by
  have hfalse : ∀ a b, less a b = false ↔ key b ≤ key a := by
    intro a b
    rw [← not_lt, ← hless]
    simp
  refine ⟨fun a => ?_, fun a b h => ?_, fun a b c h₁ h₂ => ?_, fun a b c h₁ h₂ h₃ h₄ => ?_⟩
  · rw [hfalse]
  · rw [hfalse]; exact le_of_lt ((hless a b).1 h)
  · rw [hless] at *; exact lt_trans h₁ h₂
  · simp only [hfalse] at *
    exact ⟨le_trans h₃ h₁, le_trans h₂ h₄⟩

theorem lessByTitle_iff (a b : Item) : lessByTitle a b = true ↔ a.Title < b.Title :=
  stringLess_iff _ _

theorem lessByPriority_iff (a b : Item) : lessByPriority a b = true ↔ b.Priority < a.Priority := by
  simp [lessByPriority]

theorem lessByCategory_iff (a b : Item) :
    lessByCategory a b = true ↔
      toLex (a.Category, a.Title) < toLex (b.Category, b.Title) := by
  rw [Prod.Lex.lt_iff]
  unfold lessByCategory
  by_cases h : a.Category = b.Category
  · simp [h, stringLess_iff]
  · simp [h, stringLess_iff]

theorem strictWeakOrder_lessByTitle : StrictWeakOrder lessByTitle :=
  strictWeakOrder_of_key (fun a => a.Title) _ lessByTitle_iff

theorem strictWeakOrder_lessByPriority : StrictWeakOrder lessByPriority :=
  strictWeakOrder_of_key (fun a => OrderDual.toDual a.Priority) _ (fun a b => by
    rw [lessByPriority_iff]; exact Iff.rfl)

theorem strictWeakOrder_lessByCategory : StrictWeakOrder lessByCategory :=
  strictWeakOrder_of_key (fun a => toLex (a.Category, a.Title)) _ lessByCategory_iff

/-- The key `SortByRecent` sorts by: items with a timestamp first, later timestamps first. -/
theorem lessByRecent_iff (a b : Item) :
    lessByRecent a b = true ↔
      (match a.LastAccessed with
        | none => toLex ((1 : Nat), (0 : Int))
        | some x => toLex ((0 : Nat), -x)) <
      (match b.LastAccessed with
        | none => toLex ((1 : Nat), (0 : Int))
        | some y => toLex ((0 : Nat), -y)) := by
  unfold lessByRecent
  cases a.LastAccessed <;> cases b.LastAccessed <;> simp [Prod.Lex.lt_iff]

theorem strictWeakOrder_lessByRecent : StrictWeakOrder lessByRecent :=
  strictWeakOrder_of_key _ _ lessByRecent_iff


/-! ## Combining filters -/

theorem guard_combine (A A₁ A₂ P P₁ P₂ : Prop)
    (h : (¬ A₁ ∧ (A ↔ A₂) ∧ (P ↔ P₂)) ∨ (¬ A₂ ∧ (A ↔ A₁) ∧ (P ↔ P₁))) :
    (A → P) ↔ (A₁ → P₁) ∧ (A₂ → P₂) := by
  rcases h with ⟨h1, h2, h3⟩ | ⟨h1, h2, h3⟩
  · rw [h2, h3]; exact ⟨fun h => ⟨fun a => absurd a h1, h⟩, fun h => h.2⟩
  · rw [h2, h3]; exact ⟨fun h => ⟨h, fun a => absurd a h1⟩, fun h => h.1⟩

theorem SatisfiesCriteria_combine {u : UnicodeTables} (item : Item) (f1 f2 : Filter)
    (h : f1.DisjointCriteria f2) :
    SatisfiesCriteria u item (f1.combine f2) ↔
      SatisfiesCriteria u item f1 ∧ SatisfiesCriteria u item f2 := by
  obtain ⟨hq, hc, ht, hs, hf, hr⟩ := h
  have eq : (f1.Query = "" ∧ (f1.combine f2).Query = f2.Query) ∨
      (f2.Query = "" ∧ (f1.combine f2).Query = f1.Query) := by
    by_cases h1 : f1.Query = ""
    · exact Or.inl ⟨h1, by simp [Filter.combine, h1]⟩
    · exact Or.inr ⟨hq.resolve_left h1, by simp [Filter.combine, h1]⟩
  have ec : (f1.Categories.elems = [] ∧ (f1.combine f2).Categories = f2.Categories) ∨
      (f2.Categories.elems = [] ∧ (f1.combine f2).Categories = f1.Categories) := by
    by_cases h1 : f1.Categories.elems = []
    · exact Or.inl ⟨h1, by simp [Filter.combine, h1]⟩
    · exact Or.inr ⟨hc.resolve_left h1, by simp [Filter.combine, h1]⟩
  have et : (f1.Tags.elems = [] ∧ (f1.combine f2).Tags = f2.Tags) ∨
      (f2.Tags.elems = [] ∧ (f1.combine f2).Tags = f1.Tags) := by
    by_cases h1 : f1.Tags.elems = []
    · exact Or.inl ⟨h1, by simp [Filter.combine, h1]⟩
    · exact Or.inr ⟨ht.resolve_left h1, by simp [Filter.combine, h1]⟩
  have es : (f1.Status = "" ∧ (f1.combine f2).Status = f2.Status) ∨
      (f2.Status = "" ∧ (f1.combine f2).Status = f1.Status) := by
    by_cases h1 : f1.Status = ""
    · exact Or.inl ⟨h1, by simp [Filter.combine, h1]⟩
    · exact Or.inr ⟨hs.resolve_left h1, by simp [Filter.combine, h1]⟩
  have ef : (f1.Favorites = false ∧ (f1.combine f2).Favorites = f2.Favorites) ∨
      (f2.Favorites = false ∧ (f1.combine f2).Favorites = f1.Favorites) := by
    rcases hf with h1 | h1
    · exact Or.inl ⟨h1, by simp [Filter.combine, h1]⟩
    · exact Or.inr ⟨h1, by simp [Filter.combine, h1]⟩
  have er : (f1.Recent = false ∧ (f1.combine f2).Recent = f2.Recent) ∨
      (f2.Recent = false ∧ (f1.combine f2).Recent = f1.Recent) := by
    rcases hr with h1 | h1
    · exact Or.inl ⟨h1, by simp [Filter.combine, h1]⟩
    · exact Or.inr ⟨h1, by simp [Filter.combine, h1]⟩
  unfold SatisfiesCriteria
  generalize f1.combine f2 = g at *
  have c1 := guard_combine (g.Query ≠ "") (f1.Query ≠ "") (f2.Query ≠ "")
    ((stringsToLower u g.Query).data <:+: (stringsToLower u item.Title).data ∨
      (stringsToLower u g.Query).data <:+: (stringsToLower u item.Description).data ∨
      (∃ tag ∈ item.Tags.elems, (stringsToLower u g.Query).data <:+: (stringsToLower u tag).data) ∨
      (∃ keyword ∈ item.Keywords.elems,
        (stringsToLower u g.Query).data <:+: (stringsToLower u keyword).data))
    ((stringsToLower u f1.Query).data <:+: (stringsToLower u item.Title).data ∨
      (stringsToLower u f1.Query).data <:+: (stringsToLower u item.Description).data ∨
      (∃ tag ∈ item.Tags.elems, (stringsToLower u f1.Query).data <:+: (stringsToLower u tag).data) ∨
      (∃ keyword ∈ item.Keywords.elems,
        (stringsToLower u f1.Query).data <:+: (stringsToLower u keyword).data))
    ((stringsToLower u f2.Query).data <:+: (stringsToLower u item.Title).data ∨
      (stringsToLower u f2.Query).data <:+: (stringsToLower u item.Description).data ∨
      (∃ tag ∈ item.Tags.elems, (stringsToLower u f2.Query).data <:+: (stringsToLower u tag).data) ∨
      (∃ keyword ∈ item.Keywords.elems,
        (stringsToLower u f2.Query).data <:+: (stringsToLower u keyword).data))
    (by rcases eq with ⟨h1, h2⟩ | ⟨h1, h2⟩
        · exact Or.inl ⟨by simp [h1], by rw [h2], by rw [h2]⟩
        · exact Or.inr ⟨by simp [h1], by rw [h2], by rw [h2]⟩)
  have c2 := guard_combine (g.Categories.elems ≠ []) (f1.Categories.elems ≠ [])
    (f2.Categories.elems ≠ [])
    (item.Category ∈ g.Categories.elems) (item.Category ∈ f1.Categories.elems)
    (item.Category ∈ f2.Categories.elems)
    (by rcases ec with ⟨h1, h2⟩ | ⟨h1, h2⟩
        · exact Or.inl ⟨by simp [h1], by rw [h2], by rw [h2]⟩
        · exact Or.inr ⟨by simp [h1], by rw [h2], by rw [h2]⟩)
  have c3 := guard_combine (g.Tags.elems ≠ []) (f1.Tags.elems ≠ [])
    (f2.Tags.elems ≠ [])
    (∃ tag ∈ g.Tags.elems, tag ∈ item.Tags.elems)
    (∃ tag ∈ f1.Tags.elems, tag ∈ item.Tags.elems)
    (∃ tag ∈ f2.Tags.elems, tag ∈ item.Tags.elems)
    (by rcases et with ⟨h1, h2⟩ | ⟨h1, h2⟩
        · exact Or.inl ⟨by simp [h1], by rw [h2], by rw [h2]⟩
        · exact Or.inr ⟨by simp [h1], by rw [h2], by rw [h2]⟩)
  have c4 := guard_combine (g.Status ≠ "") (f1.Status ≠ "") (f2.Status ≠ "")
    (item.Status = g.Status) (item.Status = f1.Status)
    (item.Status = f2.Status)
    (by rcases es with ⟨h1, h2⟩ | ⟨h1, h2⟩
        · exact Or.inl ⟨by simp [h1], by rw [h2], by rw [h2]⟩
        · exact Or.inr ⟨by simp [h1], by rw [h2], by rw [h2]⟩)
  have c5 := guard_combine (g.Favorites = true) (f1.Favorites = true)
    (f2.Favorites = true)
    (item.Favorite = true) (item.Favorite = true) (item.Favorite = true)
    (by rcases ef with ⟨h1, h2⟩ | ⟨h1, h2⟩
        · exact Or.inl ⟨by simp [h1], by rw [h2], Iff.rfl⟩
        · exact Or.inr ⟨by simp [h1], by rw [h2], Iff.rfl⟩)
  have c6 := guard_combine (g.Recent = true) (f1.Recent = true) (f2.Recent = true)
    (item.Recent = true) (item.Recent = true) (item.Recent = true)
    (by rcases er with ⟨h1, h2⟩ | ⟨h1, h2⟩
        · exact Or.inl ⟨by simp [h1], by rw [h2], Iff.rfl⟩
        · exact Or.inr ⟨by simp [h1], by rw [h2], Iff.rfl⟩)
  rw [c1, c2, c3, c4, c5, c6]
  constructor
  · rintro ⟨⟨a1, a2⟩, ⟨b1, b2⟩, ⟨c1, c2⟩, ⟨d1, d2⟩, ⟨e1, e2⟩, ⟨g1, g2⟩⟩
    exact ⟨⟨a1, b1, c1, d1, e1, g1⟩, ⟨a2, b2, c2, d2, e2, g2⟩⟩
  · rintro ⟨⟨a1, b1, c1, d1, e1, g1⟩, ⟨a2, b2, c2, d2, e2, g2⟩⟩
    exact ⟨⟨a1, a2⟩, ⟨b1, b2⟩, ⟨c1, c2⟩, ⟨d1, d2⟩, ⟨e1, e2⟩, ⟨g1, g2⟩⟩

theorem matchesFilter_combine {u : UnicodeTables} (item : Item) (f1 f2 : Filter)
    (h : f1.DisjointCriteria f2) :
    matchesFilter u item (f1.combine f2) = (matchesFilter u item f1 && matchesFilter u item f2) := by
  rw [Bool.eq_iff_iff, Bool.and_eq_true, matchesFilter_iff, matchesFilter_iff,
    matchesFilter_iff]
  exact SatisfiesCriteria_combine item f1 f2 h

theorem GoSlice.ext_elems {α : Type} (a b : GoSlice α) (h₁ : a.elems = b.elems)
    (h₂ : a = none ↔ b = none) : a = b := by
  cases a with
  | none => exact (h₂.1 rfl).symm
  | some l =>
    cases b with
    | none => exact h₂.2 rfl
    | some l' => exact congrArg some h₁

theorem Filter.inactive_iff (filter : Filter) :
    (filter.Query == "" && filter.Categories.elems.length == 0 &&
      filter.Tags.elems.length == 0 && filter.Status == "" &&
      !filter.Favorites && !filter.Recent) = true ↔ filter.inactive := by
  simp only [Bool.and_eq_true, beq_iff_eq, Bool.not_eq_true', List.length_eq_zero,
    Filter.inactive, and_assoc]

theorem FilterItems_of_inactive {u : UnicodeTables} (items : GoSlice Item) (filter : Filter)
    (h : filter.inactive) : FilterItems u items filter = items := by
  unfold FilterItems
  rw [if_pos ((Filter.inactive_iff filter).2 h)]

theorem FilterItems_of_active {u : UnicodeTables} (items : GoSlice Item) (filter : Filter)
    (h : ¬ filter.inactive) :
    FilterItems u items filter
      = some (items.elems.filter (fun item => matchesFilter u item filter)) := by
  unfold FilterItems
  rw [if_neg (fun hc => h ((Filter.inactive_iff filter).1 hc))]

theorem matchesFilter_of_inactive {u : UnicodeTables} (item : Item) (filter : Filter)
    (h : filter.inactive) :
    matchesFilter u item filter = true := by
  rw [matchesFilter_iff]
  obtain ⟨hq, hc, ht, hs, hf, hr⟩ := h
  exact ⟨fun h => absurd hq h, fun h => absurd hc h, fun h => absurd ht h,
    fun h => absurd hs h, fun h => by simp [hf] at h, fun h => by simp [hr] at h⟩

theorem FilterItems_elems {u : UnicodeTables} (items : GoSlice Item) (filter : Filter) :
    (FilterItems u items filter).elems
      = items.elems.filter (fun item => matchesFilter u item filter) := by
  by_cases h : filter.inactive
  · rw [FilterItems_of_inactive items filter h]
    exact (List.filter_eq_self.2 (fun item _ => matchesFilter_of_inactive item filter h)).symm
  · rw [FilterItems_of_active items filter h]
    rfl

theorem FilterItems_eq_none_iff {u : UnicodeTables} (items : GoSlice Item) (filter : Filter) :
    FilterItems u items filter = none ↔ items = none ∧ filter.inactive := by
  by_cases h : filter.inactive
  · rw [FilterItems_of_inactive items filter h]
    exact ⟨fun hi => ⟨hi, h⟩, fun hi => hi.1⟩
  · rw [FilterItems_of_active items filter h]
    exact ⟨fun hi => (by cases hi), fun hi => absurd hi.2 h⟩

theorem Filter.combine_inactive_iff (f1 f2 : Filter) :
    (f1.combine f2).inactive ↔ f1.inactive ∧ f2.inactive := by
  unfold Filter.inactive Filter.combine
  by_cases hq : f1.Query = "" <;> by_cases hc : f1.Categories.elems = [] <;>
    by_cases ht : f1.Tags.elems = [] <;> by_cases hs : f1.Status = "" <;>
    (simp [hq, hc, ht, hs]; try tauto)

/-- Claim C21. For two filters that set disjoint criteria, filtering with the filter that
carries the criteria of both gives the same slice as filtering with the first and then
filtering the result with the second, and filtering with the two filters one after the other
gives the same slice in either order. -/
theorem FilterItems_combine_is_composition (u : UnicodeTables) (items : GoSlice Item)
    (f1 f2 : Filter)
    (h : f1.DisjointCriteria f2) :
    FilterItems u items (f1.combine f2) = FilterItems u (FilterItems u items f1) f2 ∧
    FilterItems u (FilterItems u items f1) f2 = FilterItems u (FilterItems u items f2) f1 := by
  have hcomp : ∀ (items : GoSlice Item) (g1 g2 : Filter),
      (FilterItems u (FilterItems u items g1) g2).elems
        = items.elems.filter (fun item => matchesFilter u item g1 && matchesFilter u item g2) := by
    intro items g1 g2
    rw [FilterItems_elems, FilterItems_elems, List.filter_filter]
    apply List.filter_congr
    intro item _
    exact Bool.and_comm _ _
  have hnone : ∀ (items : GoSlice Item) (g1 g2 : Filter),
      FilterItems u (FilterItems u items g1) g2 = none ↔
        items = none ∧ g1.inactive ∧ g2.inactive := by
    intro items g1 g2
    rw [FilterItems_eq_none_iff, FilterItems_eq_none_iff, and_assoc]
  constructor
  · apply GoSlice.ext_elems
    · rw [hcomp, FilterItems_elems]
      apply List.filter_congr
      intro item _
      exact matchesFilter_combine item f1 f2 h
    · rw [hnone, FilterItems_eq_none_iff, Filter.combine_inactive_iff]
  · apply GoSlice.ext_elems
    · rw [hcomp, hcomp]
      apply List.filter_congr
      intro item _
      exact Bool.and_comm _ _
    · rw [hnone, hnone]
      exact ⟨fun ⟨a, b, c⟩ => ⟨a, c, b⟩, fun ⟨a, b, c⟩ => ⟨a, c, b⟩⟩

/-- Witness for C21: the filter of the test "Multiple filters" is the query `tutorial`
combined with the tag `vim`; on the three items of the test it keeps the item `3`, and so do
the two filters applied one after the other, in either order. -/
theorem FilterItems_combine_is_composition_witness :
    exFilterQuery.DisjointCriteria exFilterTag ∧
    (∀ u : UnicodeTables,
      (FilterItems u (some exTestFilterItems) (exFilterQuery.combine exFilterTag)
        = FilterItems u (FilterItems u (some exTestFilterItems) exFilterQuery) exFilterTag ∧
       FilterItems u (FilterItems u (some exTestFilterItems) exFilterQuery) exFilterTag
        = FilterItems u (FilterItems u (some exTestFilterItems) exFilterTag) exFilterQuery) ∧
      itemIDs (FilterItems u (some exTestFilterItems) (exFilterQuery.combine exFilterTag))
        = ["3"]) := by
  have hd : exFilterQuery.DisjointCriteria exFilterTag :=
    ⟨Or.inr rfl, Or.inl rfl, Or.inl rfl, Or.inl rfl, Or.inl rfl, Or.inl rfl⟩
  refine ⟨hd, fun u =>
    ⟨FilterItems_combine_is_composition u (some exTestFilterItems) exFilterQuery exFilterTag hd,
      ?_⟩⟩
  rw [FilterItems_of_ascii u _ _ (by decide) (by decide)]
  unfold itemIDs
  rw [FilterItems_elems]
  decide


/-! ## `SortItems` -/

theorem strictWeakOrder_of_sortLess (sortBy : SortOption) (less : Item → Item → Bool)
    (h : sortLess sortBy = some less) : StrictWeakOrder less := by
  unfold sortLess at h
  split_ifs at h <;> cases h
  · exact strictWeakOrder_lessByTitle
  · exact strictWeakOrder_lessByRecent
  · exact strictWeakOrder_lessByPriority
  · exact strictWeakOrder_lessByCategory

theorem SortItems_run (items : GoSlice Item) (sortBy : SortOption) :
    SortItems items sortBy (SortItems.run items sortBy) := by
  unfold SortItems SortItems.run
  cases h : sortLess sortBy with
  | none => rfl
  | some less =>
    cases items with
    | none => rfl
    | some xs =>
      exact ⟨_, sortSlice_sorted less (strictWeakOrder_of_sortLess sortBy less h) xs, rfl⟩

theorem SortItems_perm (items after : GoSlice Item) (sortBy : SortOption)
    (h : SortItems items sortBy after) : after.elems.Perm items.elems := by
  unfold SortItems at h
  cases hl : sortLess sortBy with
  | none => rw [hl] at h; rw [h]
  | some less =>
    rw [hl] at h
    cases items with
    | none => simp only at h; rw [h]
    | some xs =>
      obtain ⟨out, hs, rfl⟩ := h
      exact hs.1

theorem SortItems_pairwise (items after : GoSlice Item) (sortBy : SortOption)
    (less : Item → Item → Bool) (hl : sortLess sortBy = some less)
    (h : SortItems items sortBy after) :
    after.elems.Pairwise (fun a b => less b a = false) := by
  unfold SortItems at h
  rw [hl] at h
  cases items with
  | none => simp only at h; rw [h]; exact List.Pairwise.nil
  | some xs =>
    obtain ⟨out, hs, rfl⟩ := h
    exact hs.2

/-- A slice whose items are pairwise distinguished by `less` has one sorted order. -/
theorem SortItems_unique (xs expected : List Item) (sortBy : SortOption)
    (less : Item → Item → Bool) (hl : sortLess sortBy = some less)
    (hanti : ∀ a ∈ xs, ∀ b ∈ xs, less b a = false → less a b = false → a = b)
    (hperm : expected.Perm xs) (hsorted : expected.Pairwise (fun a b => less b a = false))
    (after : GoSlice Item) (h : SortItems (some xs) sortBy after) : after = some expected := by
  unfold SortItems at h
  rw [hl] at h
  obtain ⟨out, hs, rfl⟩ := h
  congr 1
  refine List.Perm.eq_of_sorted ?_ hs.2 hsorted (hs.1.trans hperm.symm)
  intro a b ha hb hab hba
  exact hanti a (hs.1.subset ha) b (hperm.subset hb) hab hba

theorem sortLess_title : sortLess SortByTitle = some lessByTitle := rfl

theorem sortLess_recent : sortLess SortByRecent = some lessByRecent := rfl

theorem sortLess_priority : sortLess SortByPriority = some lessByPriority := rfl

theorem sortLess_category : sortLess SortByCategory = some lessByCategory := rfl


theorem lessByTitle_eq_false_iff (a b : Item) :
    lessByTitle b a = false ↔ a.Title ≤ b.Title :=
  stringLess_eq_false_iff _ _

theorem lessByPriority_eq_false_iff (a b : Item) :
    lessByPriority b a = false ↔ b.Priority ≤ a.Priority := by
  simp [lessByPriority]

theorem lessByCategory_eq_false_iff (a b : Item) :
    lessByCategory b a = false ↔
      (a.Category < b.Category ∨ (a.Category = b.Category ∧ a.Title ≤ b.Title)) := by
  unfold lessByCategory
  by_cases h : b.Category = a.Category
  · simp [h, stringLess_eq_false_iff]
  · have h' : ¬ a.Category = b.Category := fun e => h e.symm
    simp only [beq_iff_eq, h, if_false, stringLess_eq_false_iff, h', false_and, or_false]
    exact ⟨fun hle => lt_of_le_of_ne hle h', le_of_lt⟩

theorem lessByRecent_eq_false_iff (a b : Item) :
    lessByRecent b a = false ↔
      ((a.LastAccessed = none → b.LastAccessed = none) ∧
       ∀ x y, a.LastAccessed = some x → b.LastAccessed = some y → y ≤ x) := by
  unfold lessByRecent
  cases a.LastAccessed <;> cases b.LastAccessed <;> simp

theorem split_of_none_last (l : List Item)
    (h : l.Pairwise (fun a b => a.LastAccessed = none → b.LastAccessed = none)) :
    l = l.filter (fun a => a.LastAccessed.isSome) ++
      l.filter (fun a => a.LastAccessed.isNone) := by
  induction l with
  | nil => rfl
  | cons a t ih =>
    rw [List.pairwise_cons] at h
    cases ha : a.LastAccessed with
    | some x =>
      simp only [List.filter_cons, ha, Option.isSome_some, Option.isNone_some, if_true,
        Bool.false_eq_true, if_false, List.cons_append]
      exact congrArg _ (ih h.2)
    | none =>
      have hall : ∀ b ∈ t, b.LastAccessed = none := fun b hb => h.1 b hb ha
      have h₁ : t.filter (fun a => a.LastAccessed.isSome) = [] := by
        rw [List.filter_eq_nil_iff]
        intro b hb
        simp [hall b hb]
      have h₂ : t.filter (fun a => a.LastAccessed.isNone) = t := by
        rw [List.filter_eq_self]
        intro b hb
        simp [hall b hb]
      simp only [List.filter_cons, ha, Option.isSome_none, Option.isNone_none, if_true,
        Bool.false_eq_true, if_false, h₁, h₂, List.nil_append]

/-- Claim C22. `SortItems` returns for every slice and option, and leaves in the slice a
permutation of the items it held: ordered by ascending title for `SortByTitle`, by descending
priority for `SortByPriority`, and for `SortByCategory` by ascending category with items of
equal category in ascending order of title. The items with the categories `B`, `A`, `A` and
the titles `x`, `z`, `y` end in the order `A/y`, `A/z`, `B/x`. -/
theorem SortItems_orders_by_option (items : GoSlice Item) (sortBy : SortOption) :
    (∃ after, SortItems items sortBy after) ∧
    (∀ after, SortItems items sortBy after →
      after.elems.Perm items.elems ∧
      (sortBy = SortByTitle → after.elems.Pairwise (fun a b => a.Title ≤ b.Title)) ∧
      (sortBy = SortByPriority →
        after.elems.Pairwise (fun a b => b.Priority ≤ a.Priority)) ∧
      (sortBy = SortByCategory →
        after.elems.Pairwise (fun a b =>
          a.Category < b.Category ∨ (a.Category = b.Category ∧ a.Title ≤ b.Title)))) ∧
    (∀ after, SortItems (some exCategoryItems) SortByCategory after →
      after = some exCategorySorted) := by
  refine ⟨⟨_, SortItems_run items sortBy⟩, fun after h => ⟨SortItems_perm _ _ _ h, ?_, ?_, ?_⟩,
    fun after h => ?_⟩
  · rintro rfl
    exact (SortItems_pairwise _ _ _ _ sortLess_title h).imp
      (fun {a b} hab => (lessByTitle_eq_false_iff a b).1 hab)
  · rintro rfl
    exact (SortItems_pairwise _ _ _ _ sortLess_priority h).imp
      (fun {a b} hab => (lessByPriority_eq_false_iff a b).1 hab)
  · rintro rfl
    exact (SortItems_pairwise _ _ _ _ sortLess_category h).imp
      (fun {a b} hab => (lessByCategory_eq_false_iff a b).1 hab)
  · exact SortItems_unique exCategoryItems exCategorySorted SortByCategory lessByCategory
      sortLess_category (by decide) (by decide) (by decide) after h

/-- Witness for C22: the three items of the test `TestSortItems` end in the order `2`, `3`,
`1` by title and by priority and in the order `3`, `1`, `2` by category, and the slice sorted
by title is in ascending order of title. -/
theorem SortItems_orders_by_option_witness :
    itemIDs (SortItems.run (some exTestSortItems) SortByTitle) = ["2", "3", "1"] ∧
    itemIDs (SortItems.run (some exTestSortItems) SortByPriority) = ["2", "3", "1"] ∧
    itemIDs (SortItems.run (some exTestSortItems) SortByCategory) = ["3", "1", "2"] ∧
    SortItems (some exTestSortItems) SortByTitle
      (SortItems.run (some exTestSortItems) SortByTitle) ∧
    (SortItems.run (some exTestSortItems) SortByTitle).elems.Pairwise
      (fun a b => a.Title ≤ b.Title) :=
  ⟨by decide, by decide, by decide, SortItems_run _ _,
    ((SortItems_orders_by_option (some exTestSortItems) SortByTitle).2.1 _
      (SortItems_run _ _)).2.1 rfl⟩

/-- Claim C23. `SortItems` with `SortByRecent` returns and leaves in the slice a permutation
of the items it held in which no item without `LastAccessed` comes before an item with one,
so the slice is the items with a `LastAccessed` followed by the items without, and in which
the timestamps of the items that have one do not increase from front to back. The comparison
it sorts by is a strict weak order: irreflexive, asymmetric and transitive, with a transitive
equivalence of the items it does not order. -/
theorem SortItems_recent_order (items : GoSlice Item) :
    (∃ after, SortItems items SortByRecent after) ∧
    (∀ after, SortItems items SortByRecent after →
      after.elems.Perm items.elems ∧
      after.elems.Pairwise (fun a b => a.LastAccessed = none → b.LastAccessed = none) ∧
      after.elems = after.elems.filter (fun a => a.LastAccessed.isSome) ++
        after.elems.filter (fun a => a.LastAccessed.isNone) ∧
      after.elems.Pairwise (fun a b =>
        ∀ x y, a.LastAccessed = some x → b.LastAccessed = some y → y ≤ x)) ∧
    StrictWeakOrder lessByRecent := by
  refine ⟨⟨_, SortItems_run items SortByRecent⟩, fun after h => ?_,
    strictWeakOrder_lessByRecent⟩
  have hp := (SortItems_pairwise _ _ _ _ sortLess_recent h).imp
    (fun {a b} hab => (lessByRecent_eq_false_iff a b).1 hab)
  have h₁ : after.elems.Pairwise (fun a b => a.LastAccessed = none → b.LastAccessed = none) :=
    hp.imp (fun hab => hab.1)
  exact ⟨SortItems_perm _ _ _ h, h₁, split_of_none_last _ h₁, hp.imp (fun hab => hab.2)⟩

/-- Witness for C23: the three items of the test `TestSortItems`, used at 500, at 1000 and
never, end in the order `2`, `1`, `3`, which is the items with a timestamp followed by the
item without. -/
theorem SortItems_recent_order_witness :
    itemIDs (SortItems.run (some exTestSortItems) SortByRecent) = ["2", "1", "3"] ∧
    (SortItems.run (some exTestSortItems) SortByRecent).elems =
      (SortItems.run (some exTestSortItems) SortByRecent).elems.filter
        (fun a => a.LastAccessed.isSome) ++
      (SortItems.run (some exTestSortItems) SortByRecent).elems.filter
        (fun a => a.LastAccessed.isNone) :=
  ⟨by decide,
    ((SortItems_recent_order (some exTestSortItems)).2.1 _ (SortItems_run _ _)).2.2.1⟩


/-! ## Effect of filtering and sorting on the caller's slice -/

theorem FilterItems_round_foldl {u : UnicodeTables} (filter : Filter) (input : GoSlice Item)
    (l acc : List Item) :
    l.foldl (FilterItems.round u filter) (input, acc)
      = (input, acc ++ l.filter (fun item => matchesFilter u item filter)) := by
  induction l generalizing acc with
  | nil => simp
  | cons a t ih =>
    rw [List.foldl_cons]
    cases hm : matchesFilter u a filter with
    | false =>
      have hr : FilterItems.round u filter (input, acc) a = (input, acc) := by
        simp [FilterItems.round, hm]
      rw [hr, ih, List.filter_cons_of_neg (by simp [hm])]
    | true =>
      have hr : FilterItems.round u filter (input, acc) a = (input, acc ++ [a]) := by
        simp [FilterItems.round, hm]
      rw [hr, ih, List.filter_cons_of_pos (by simp [hm]), List.append_assoc]
      rfl

theorem FilterItems_withInput {u : UnicodeTables} (items : GoSlice Item) (filter : Filter) :
    FilterItems.withInput u items filter = (items, FilterItems u items filter) := by
  unfold FilterItems.withInput FilterItems
  split_ifs
  · rfl
  · simp only [FilterItems_round_foldl, List.nil_append]

/-- Counterexample for C24: `SortItems` by title leaves the slice of the test
`TestSortItems`, passed in the order `1`, `2`, `3`, in the order `2`, `3`, `1`; the order it
was passed in is no possible content of the slice after the call. -/
theorem SortItems_reorders_counterexample :
    itemIDs (some exTestSortItems) = ["1", "2", "3"] ∧
    itemIDs (SortItems.run (some exTestSortItems) SortByTitle) = ["2", "3", "1"] ∧
    SortItems (some exTestSortItems) SortByTitle
      (SortItems.run (some exTestSortItems) SortByTitle) ∧
    ¬ SortItems (some exTestSortItems) SortByTitle (some exTestSortItems) :=
  ⟨by decide, by decide, SortItems_run _ _,
    fun h => absurd (SortItems_pairwise _ _ _ _ sortLess_title h) (by decide)⟩

/-- Claim C24, amended. `FilterItems` never changes its input: after the call the slice the
caller passed in holds the same items in the same order as before. `SortItems` sorts the
slice the caller passed in, in place: after the call that slice holds the same items, as a
permutation, in the order of the option, a `nil` slice is still `nil`, and the slice is as
it was before the call only if it was already in the order of the option. -/
theorem FilterItems_keeps_input_SortItems_permutes (u : UnicodeTables) (items : GoSlice Item) :
    (∀ filter, (FilterItems.withInput u items filter).1 = items ∧
      (FilterItems.withInput u items filter).2 = FilterItems u items filter) ∧
    (∀ sortBy, ∃ after, SortItems items sortBy after) ∧
    (∀ sortBy after, SortItems items sortBy after →
      after.elems.Perm items.elems ∧
      (after = none ↔ items = none) ∧
      ∀ less, sortLess sortBy = some less →
        after.elems.Pairwise (fun a b => less b a = false) ∧
        (after = items → items.elems.Pairwise (fun a b => less b a = false))) := by
  refine ⟨fun filter => ?_, fun sortBy => ⟨_, SortItems_run items sortBy⟩,
    fun sortBy after h => ⟨SortItems_perm _ _ _ h, ?_, ?_⟩⟩
  · rw [FilterItems_withInput]
    exact ⟨rfl, rfl⟩
  · unfold SortItems at h
    cases hl : sortLess sortBy with
    | none => rw [hl] at h; rw [h]
    | some less =>
      rw [hl] at h
      cases items with
      | none => simp only at h; rw [h]
      | some xs =>
        obtain ⟨out, _, rfl⟩ := h
        simp
  · intro less hl
    refine ⟨SortItems_pairwise _ _ _ _ hl h, fun heq => ?_⟩
    rw [← heq]
    exact SortItems_pairwise _ _ _ _ hl h

/-- Witness for C24, amended: on the items of the test `TestSortItems`, `FilterItems` with the
query `a item` returns the item `2` and leaves the caller's slice in the order `1`, `2`, `3`;
`SortItems` by priority leaves in the caller's slice a permutation of the three items. -/
theorem FilterItems_keeps_input_SortItems_permutes_witness :
    (∀ u : UnicodeTables,
      itemIDs (FilterItems.withInput u (some exTestSortItems)
        { Filter.zero with Query := "a item" }).2 = ["2"] ∧
      itemIDs (FilterItems.withInput u (some exTestSortItems)
        { Filter.zero with Query := "a item" }).1 = ["1", "2", "3"]) ∧
    (SortItems.run (some exTestSortItems) SortByPriority).elems.Perm exTestSortItems := by
  refine ⟨fun u => ⟨?_, ?_⟩,
    ((FilterItems_keeps_input_SortItems_permutes asciiTables (some exTestSortItems)).2.2
      SortByPriority _ (SortItems_run _ _)).1⟩
  · rw [((FilterItems_keeps_input_SortItems_permutes u (some exTestSortItems)).1 _).2,
      FilterItems_of_ascii u _ _ (by decide) (by decide)]
    unfold itemIDs
    rw [FilterItems_elems]
    decide
  · rw [((FilterItems_keeps_input_SortItems_permutes u (some exTestSortItems)).1 _).1]
    decide


/-! ## Command validation -/

theorem ValidateCommand_eq (u : UnicodeTables) (command : String) :
    ValidateCommand u command =
      (dangerous.find? (fun danger =>
          stringsContains (stringsToLower u (stringsTrimSpace command)) danger)).map
        (fun danger => { msg := "command contains potentially dangerous pattern: " ++ danger,
                         isNotExist := false }) := by
  dsimp only [ValidateCommand]
  split <;> rename_i h <;> rw [h] <;> rfl

/-- A command of ASCII characters is validated alike under every table. -/
theorem ValidateCommand_of_isASCII (u : UnicodeTables) (command : String)
    (h : isASCII command = true) :
    ValidateCommand u command = ValidateCommand asciiTables command := by
  rw [ValidateCommand_eq, ValidateCommand_eq,
    stringsToLower_of_isASCII u _ (isASCII_stringsTrimSpace command h)]

/-- Claim C28. `ValidateCommand` returns an error exactly when the command, trimmed of
surrounding white space and lower-cased, contains one of the four patterns `rm -rf /`,
`dd if=/dev/zero`, `mkfs.` and the fork bomb; the error names the first such pattern. The
commands `ls -la`, `git status` and `rm file.txt` are accepted. -/
theorem ValidateCommand_rejects_iff_dangerous (u : UnicodeTables) (command : String) :
    (ValidateCommand u command ≠ none ↔
      ∃ danger ∈ dangerous,
        danger.data <:+: (stringsToLower u (stringsTrimSpace command)).data) ∧
    (∀ e, ValidateCommand u command = some e →
      ∃ danger ∈ dangerous,
        danger.data <:+: (stringsToLower u (stringsTrimSpace command)).data ∧
        e.msg = "command contains potentially dangerous pattern: " ++ danger) ∧
    dangerous = ["rm -rf /", "dd if=/dev/zero", "mkfs.", ":()\x7b :|:& \x7d;:"] ∧
    ValidateCommand u "ls -la" = none ∧
    ValidateCommand u "git status" = none ∧
    ValidateCommand u "rm file.txt" = none := by
  refine ⟨?_, ?_, rfl,
    (ValidateCommand_of_isASCII u _ (by decide)).trans (by decide),
    (ValidateCommand_of_isASCII u _ (by decide)).trans (by decide),
    (ValidateCommand_of_isASCII u _ (by decide)).trans (by decide)⟩
  · rw [ValidateCommand_eq]
    cases hf : dangerous.find?
        (fun danger => stringsContains (stringsToLower u (stringsTrimSpace command)) danger) with
    | none =>
      simp only [Option.map_none', ne_eq, not_true_eq_false, false_iff, not_exists, not_and]
      intro danger hd hin
      have := List.find?_eq_none.1 hf danger hd
      exact this ((stringsContains_iff _ _).2 hin)
    | some danger =>
      simp only [Option.map_some', ne_eq, reduceCtorEq, not_false_eq_true, true_iff]
      exact ⟨danger, List.mem_of_find?_eq_some hf,
        (stringsContains_iff _ _).1 (List.find?_some hf)⟩
  · intro e he
    rw [ValidateCommand_eq] at he
    cases hf : dangerous.find?
        (fun danger => stringsContains (stringsToLower u (stringsTrimSpace command)) danger) with
    | none => rw [hf] at he; cases he
    | some danger =>
      rw [hf] at he
      simp only [Option.map_some', Option.some.injEq] at he
      exact ⟨danger, List.mem_of_find?_eq_some hf,
        (stringsContains_iff _ _).1 (List.find?_some hf), by rw [← he]⟩

/-- Witness for C28: the four dangerous commands of the test are rejected, also with
surrounding white space and in upper case; and under a table that maps the Kelvin sign U+212A
to `k`, as `unicode.ToLower` does, the command `mkfs.ext4 /dev/sda` written with the Kelvin
sign is rejected. -/
theorem ValidateCommand_rejects_iff_dangerous_witness :
    (∀ u : UnicodeTables, u.ToLower (Char.ofNat 0x212A) = 'k' →
      ValidateCommand u "m\u212afs.ext4 /dev/sda" ≠ none) ∧
    (∀ u : UnicodeTables, ValidateCommand u "rm -rf /" ≠ none) ∧
    (∀ u : UnicodeTables, ValidateCommand u "dd if=/dev/zero of=/dev/sda" ≠ none) ∧
    (∀ u : UnicodeTables, ValidateCommand u "mkfs.ext4 /dev/sda" ≠ none) ∧
    (∀ u : UnicodeTables, ValidateCommand u ":()\x7b :|:& \x7d;:" ≠ none) ∧
    (∀ u : UnicodeTables, ValidateCommand u "  SUDO RM -RF /  " ≠ none) := by
  refine ⟨fun u hk => ?_, fun u => ?_, fun u => ?_, fun u => ?_, fun u => ?_, fun u => ?_⟩
  · refine (ValidateCommand_rejects_iff_dangerous u _).1.2 ⟨"mkfs.", by decide, ?_⟩
    have htrim : stringsTrimSpace "m\u212afs.ext4 /dev/sda" = "m\u212afs.ext4 /dev/sda" := by
      decide
    have hd : "m\u212afs.ext4 /dev/sda".data
        = 'm' :: Char.ofNat 0x212A :: 'f' :: 's' :: '.' :: "ext4 /dev/sda".data := by decide
    rw [htrim]
    show "mkfs.".data <:+: ("m\u212afs.ext4 /dev/sda".data.map u.ToLower)
    rw [hd]
    simp only [List.map_cons]
    rw [u.ToLower_ascii 'm' (by decide), hk, u.ToLower_ascii 'f' (by decide),
      u.ToLower_ascii 's' (by decide), u.ToLower_ascii '.' (by decide)]
    exact ⟨[], _, rfl⟩
  · rw [ValidateCommand_of_isASCII u _ (by decide)]; decide
  · rw [ValidateCommand_of_isASCII u _ (by decide)]; decide
  · rw [ValidateCommand_of_isASCII u _ (by decide)]; decide
  · rw [ValidateCommand_of_isASCII u _ (by decide)]; decide
  · refine (ValidateCommand_rejects_iff_dangerous u "  SUDO RM -RF /  ").1.2
      ⟨"rm -rf /", by decide, ?_⟩
    rw [stringsToLower_of_isASCII u _ (by decide)]
    decide


/-! ## The toolbox: `matchesTool` -/

theorem stringsToLower_data {u : UnicodeTables} (s : String) :
    (stringsToLower u s).data = s.data.map u.ToLower :=
  rfl

theorem searchableText_foldl_data {u : UnicodeTables} (tags : List String) (base : String) :
    (tags.foldl (fun searchable tag => searchable ++ " " ++ stringsToLower u tag) base).data
      = base.data ++ (tags.map (fun tag => ' ' :: (stringsToLower u tag).data)).flatten := by
  induction tags generalizing base with
  | nil => simp
  | cons t rest ih =>
    rw [List.foldl_cons, ih]
    simp [String.data_append]

/-- The characters of the searchable text. -/
theorem searchableText_data {u : UnicodeTables} (name : String) (tool : Tool) :
    (searchableText u name tool).data
      = (stringsToLower u name).data ++ ' ' :: ((stringsToLower u tool.Description).data ++
          ' ' :: ((stringsToLower u tool.WhyUse).data ++
            (tool.Tags.elems.map (fun tag => ' ' :: (stringsToLower u tag).data)).flatten)) := by
  unfold searchableText
  rw [searchableText_foldl_data]
  simp [String.data_append]

theorem prefix_of_prefix_append_sep {q a b : List Char} {sep : Char} (hsep : sep ∉ q)
    (h : q <+: a ++ sep :: b) : q <+: a := by
  induction a generalizing q with
  | nil =>
    cases q with
    | nil => exact List.prefix_rfl
    | cons c q' =>
      rw [List.nil_append, List.cons_prefix_cons] at h
      exact absurd (h.1 ▸ List.mem_cons_self c q') hsep
  | cons x a' ih =>
    cases q with
    | nil => exact List.nil_prefix
    | cons c q' =>
      rw [List.cons_append, List.cons_prefix_cons] at h
      rw [List.cons_prefix_cons]
      exact ⟨h.1, ih (fun hm => hsep (List.mem_cons_of_mem _ hm)) h.2⟩

/-- A text without the separator that occurs in two texts joined by the separator occurs in
one of them. -/
theorem infix_sep_iff {q a b : List Char} {sep : Char} (hsep : sep ∉ q) :
    q <:+: a ++ sep :: b ↔ q <:+: a ∨ q <:+: b := by
  constructor
  · intro h
    induction a with
    | nil =>
      rw [List.nil_append, List.infix_cons_iff] at h
      rcases h with h | h
      · cases q with
        | nil => exact Or.inl List.nil_infix
        | cons c q' =>
          rw [List.cons_prefix_cons] at h
          exact absurd (h.1 ▸ List.mem_cons_self c q') hsep
      · exact Or.inr h
    | cons x a' ih =>
      rw [List.cons_append, List.infix_cons_iff] at h
      rcases h with h | h
      · exact Or.inl (prefix_of_prefix_append_sep (a := x :: a') hsep h).isInfix
      · rcases ih h with h' | h'
        · exact Or.inl (List.infix_cons h')
        · exact Or.inr h'
  · rintro (h | h)
    · exact h.trans (List.infix_append' [] a (sep :: b))
    · exact h.trans ((List.infix_cons (List.infix_refl b)).trans
        (List.suffix_append a (sep :: b)).isInfix)

theorem infix_flatten_sep_iff {q : List Char} {sep : Char} (hsep : sep ∉ q) (hq : q ≠ [])
    (parts : List (List Char)) :
    q <:+: (parts.map (fun p => sep :: p)).flatten ↔ ∃ p ∈ parts, q <:+: p := by
  induction parts with
  | nil =>
    simp only [List.map_nil, List.flatten_nil, List.infix_nil, List.not_mem_nil, false_and,
      exists_false, iff_false]
    exact hq
  | cons p rest ih =>
    rw [List.map_cons, List.flatten_cons, List.cons_append]
    have h₁ : q <:+: sep :: (p ++ (rest.map (fun p => sep :: p)).flatten) ↔
        q <:+: p ++ (rest.map (fun p => sep :: p)).flatten := by
      rw [List.infix_cons_iff]
      constructor
      · rintro (h | h)
        · cases q with
          | nil => exact absurd rfl hq
          | cons c q' =>
            rw [List.cons_prefix_cons] at h
            exact absurd (h.1 ▸ List.mem_cons_self c q') hsep
        · exact h
      · exact Or.inr
    rw [h₁]
    cases rest with
    | nil =>
      simp only [List.map_nil, List.flatten_nil, List.append_nil, List.mem_singleton,
        exists_eq_left]
    | cons r rest' =>
      rw [List.map_cons, List.flatten_cons, List.cons_append, infix_sep_iff hsep]
      have h₂ : q <:+: r ++ (rest'.map (fun p => sep :: p)).flatten ↔
          q <:+: (List.map (fun p => sep :: p) (r :: rest')).flatten := by
        rw [List.map_cons, List.flatten_cons, List.cons_append, List.infix_cons_iff]
        constructor
        · exact Or.inr
        · rintro (h | h)
          · cases q with
            | nil => exact absurd rfl hq
            | cons c q' =>
              rw [List.cons_prefix_cons] at h
              exact absurd (h.1 ▸ List.mem_cons_self c q') hsep
          · exact h
      rw [h₂, ih]
      simp only [List.mem_cons, exists_eq_or_imp]


theorem infix_cons_sep_iff {q : List Char} {sep : Char} (hsep : sep ∉ q) (hq : q ≠ [])
    (l : List Char) : q <:+: sep :: l ↔ q <:+: l := by
  rw [List.infix_cons_iff]
  constructor
  · rintro (h | h)
    · cases q with
      | nil => exact absurd rfl hq
      | cons c q' =>
        rw [List.cons_prefix_cons] at h
        exact absurd (h.1 ▸ List.mem_cons_self c q') hsep
    · exact h
  · exact Or.inr

theorem infix_append_flatten_sep_iff {q : List Char} {sep : Char} (hsep : sep ∉ q)
    (hq : q ≠ []) (a : List Char) (parts : List (List Char)) :
    q <:+: a ++ (parts.map (fun p => sep :: p)).flatten ↔
      q <:+: a ∨ ∃ p ∈ parts, q <:+: p := by
  cases parts with
  | nil => simp
  | cons p rest =>
    rw [← infix_flatten_sep_iff hsep hq (p :: rest), List.map_cons, List.flatten_cons,
      List.cons_append, infix_sep_iff hsep, infix_cons_sep_iff hsep hq]

theorem matchesTool_iff_contained {u : UnicodeTables} (name : String) (tool : Tool)
    (query : String) :
    matchesTool u name tool query = true ↔ query.data <:+: (searchableText u name tool).data :=
  stringsContains_iff _ _

theorem infix_searchable (a d w f : List Char) :
    a <:+: a ++ ' ' :: (d ++ ' ' :: (w ++ f)) ∧
    d <:+: a ++ ' ' :: (d ++ ' ' :: (w ++ f)) ∧
    w <:+: a ++ ' ' :: (d ++ ' ' :: (w ++ f)) ∧
    f <:+: a ++ ' ' :: (d ++ ' ' :: (w ++ f)) := by
  have h₁ : (w ++ f) <:+ d ++ ' ' :: (w ++ f) :=
    (List.suffix_cons ' ' (w ++ f)).trans (List.suffix_append d (' ' :: (w ++ f)))
  have h₂ : (d ++ ' ' :: (w ++ f)) <:+ a ++ ' ' :: (d ++ ' ' :: (w ++ f)) :=
    (List.suffix_cons ' ' _).trans (List.suffix_append a _)
  refine ⟨(List.prefix_append a _).isInfix, ?_, ?_, ?_⟩
  · exact (List.prefix_append d _).isInfix.trans h₂.isInfix
  · exact ((List.prefix_append w f).isInfix.trans h₁.isInfix).trans h₂.isInfix
  · exact ((List.suffix_append w f).trans (h₁.trans h₂)).isInfix

theorem matchesTool_of_occurs {u : UnicodeTables} (name : String) (tool : Tool) (query : String)
    (h : OccursInField u name tool query) : matchesTool u name tool query = true := by
  rw [matchesTool_iff_contained, searchableText_data]
  obtain ⟨ha, hd, hw, hf⟩ := infix_searchable (stringsToLower u name).data
    (stringsToLower u tool.Description).data (stringsToLower u tool.WhyUse).data
    (tool.Tags.elems.map (fun tag => ' ' :: (stringsToLower u tag).data)).flatten
  rcases h with h | h | h | ⟨tag, htag, h⟩
  · exact h.trans ha
  · exact h.trans hd
  · exact h.trans hw
  · have hmem : (' ' :: (stringsToLower u tag).data) ∈
        tool.Tags.elems.map (fun tag => ' ' :: (stringsToLower u tag).data) :=
      List.mem_map.2 ⟨tag, htag, rfl⟩
    exact ((h.trans (List.suffix_cons _ _).isInfix).trans
      (List.infix_of_mem_flatten hmem)).trans hf

theorem matchesTool_iff_occurs_of_no_space {u : UnicodeTables} (name : String) (tool : Tool)
    (query : String)
    (hsp : ' ' ∉ query.data) :
    matchesTool u name tool query = true ↔ OccursInField u name tool query := by
  refine ⟨fun h => ?_, matchesTool_of_occurs name tool query⟩
  by_cases hq : query.data = []
  · exact Or.inl (hq ▸ List.nil_infix)
  · rw [matchesTool_iff_contained, searchableText_data, infix_sep_iff hsp, infix_sep_iff hsp] at h
    rcases h with h | h | h
    · exact Or.inl h
    · exact Or.inr (Or.inl h)
    · have hparts : tool.Tags.elems.map (fun tag => ' ' :: (stringsToLower u tag).data)
          = (tool.Tags.elems.map (fun tag => (stringsToLower u tag).data)).map
              (fun p => ' ' :: p) := by
        rw [List.map_map]; rfl
      rw [hparts, infix_append_flatten_sep_iff hsp hq] at h
      rcases h with h | ⟨p, hp, h⟩
      · exact Or.inr (Or.inr (Or.inl h))
      · obtain ⟨tag, htag, rfl⟩ := List.mem_map.1 hp
        exact Or.inr (Or.inr (Or.inr ⟨tag, htag, h⟩))

theorem asciiTool_iff (name : String) (tool : Tool) :
    asciiTool name tool = true ↔
      isASCII name = true ∧ isASCII tool.Description = true ∧ isASCII tool.WhyUse = true ∧
      ∀ tag ∈ tool.Tags.elems, isASCII tag = true := by
  simp [asciiTool, and_assoc]

/-- A tool whose texts are ASCII is matched alike under every table. -/
theorem matchesTool_of_asciiTool (u : UnicodeTables) (name : String) (tool : Tool)
    (query : String) (h : asciiTool name tool = true) :
    matchesTool u name tool query = matchesTool asciiTables name tool query := by
  obtain ⟨hn, hd, hw, ht⟩ := (asciiTool_iff name tool).1 h
  unfold matchesTool searchableText
  rw [stringsToLower_of_isASCII u _ hn, stringsToLower_of_isASCII u _ hd,
    stringsToLower_of_isASCII u _ hw]
  congr 1
  apply List.foldl_ext
  intro searchable tag htag
  rw [stringsToLower_of_isASCII u _ (ht tag htag)]

theorem OccursInField_of_asciiTool (u : UnicodeTables) (name : String) (tool : Tool)
    (query : String) (h : asciiTool name tool = true) :
    OccursInField u name tool query ↔ OccursInField asciiTables name tool query := by
  obtain ⟨hn, hd, hw, ht⟩ := (asciiTool_iff name tool).1 h
  unfold OccursInField
  rw [stringsToLower_of_isASCII u _ hn, stringsToLower_of_isASCII u _ hd,
    stringsToLower_of_isASCII u _ hw]
  refine or_congr Iff.rfl (or_congr Iff.rfl (or_congr Iff.rfl ?_))
  constructor
  · rintro ⟨tag, htag, hin⟩
    exact ⟨tag, htag, by rw [← stringsToLower_of_isASCII u _ (ht tag htag)]; exact hin⟩
  · rintro ⟨tag, htag, hin⟩
    exact ⟨tag, htag, by rw [stringsToLower_of_isASCII u _ (ht tag htag)]; exact hin⟩

/-- Counterexample for C27: for the tool of the test `TestMatchesTool` under the name
`ripgrep`, the lower-case query `ripgrep fast` matches, though it occurs neither in the name
nor in the description, the `WhyUse` text or a tag: it occurs where the name and the
description are joined by a space. -/
theorem matchesTool_across_fields_counterexample :
    (∀ u : UnicodeTables, matchesTool u "ripgrep" exRipgrep "ripgrep fast" = true) ∧
    (∀ u : UnicodeTables, ¬ OccursInField u "ripgrep" exRipgrep "ripgrep fast") ∧
    (∀ u : UnicodeTables, stringsToLower u "ripgrep fast" = "ripgrep fast") := by
  have hno : ¬ OccursInField asciiTables "ripgrep" exRipgrep "ripgrep fast" := by
    unfold OccursInField
    decide
  refine ⟨fun u => ?_, fun u => ?_, fun u => ?_⟩
  · rw [matchesTool_of_asciiTool u _ _ _ (by decide)]
    decide
  · rw [OccursInField_of_asciiTool u _ _ _ (by decide)]
    exact hno
  · rw [stringsToLower_of_isASCII u _ (by decide)]
    decide

/-- Claim C27, amended. `matchesTool` returns true exactly when the query occurs in the text
made of the lower-cased tool name, description and `WhyUse` text and the lower-cased tags,
joined by single spaces. So it returns true when the query occurs in the lower-cased name, in
the lower-cased description, in the lower-cased `WhyUse` text or in one of the lower-cased
tags; and for a query without a space it returns true only then. -/
theorem matchesTool_iff_occurs (u : UnicodeTables) (name : String) (tool : Tool) (query : String) :
    (matchesTool u name tool query = true ↔
      query.data <:+:
        (stringsToLower u name).data ++ ' ' :: ((stringsToLower u tool.Description).data ++
          ' ' :: ((stringsToLower u tool.WhyUse).data ++
            (tool.Tags.elems.map (fun tag => ' ' :: (stringsToLower u tag).data)).flatten))) ∧
    (OccursInField u name tool query → matchesTool u name tool query = true) ∧
    (' ' ∉ query.data →
      (matchesTool u name tool query = true ↔ OccursInField u name tool query)) :=
  ⟨by rw [matchesTool_iff_contained, searchableText_data],
    matchesTool_of_occurs name tool query,
    matchesTool_iff_occurs_of_no_space name tool query⟩

/-- Witness for C27, amended: the queries of the test `TestMatchesTool`. The queries `search`,
`grep` and `fast` have no space and occur in a field, so they match; `database` has no space
and occurs in no field, so it does not match. Under a table that maps `É` to `é`, as
`unicode.ToLower` does, the query `éditeur` matches the tool whose description is
`Éditeur`. -/
theorem matchesTool_iff_occurs_witness :
    (∀ u : UnicodeTables, u.ToLower '\u00c9' = '\u00e9' → u.ToLower '\u00e9' = '\u00e9' →
      matchesTool u "x" exEditeur "\u00e9diteur" = true) ∧
    (∀ u : UnicodeTables,
      matchesTool u "ripgrep" exRipgrep "search" = true ∧
      matchesTool u "ripgrep" exRipgrep (stringsToLower u "SEARCH") = true ∧
      matchesTool u "ripgrep" exRipgrep "grep" = true ∧
      matchesTool u "ripgrep" exRipgrep "fast" = true) ∧
    ' ' ∉ "database".data ∧
    (∀ u : UnicodeTables, ¬ OccursInField u "ripgrep" exRipgrep "database") ∧
    (∀ u : UnicodeTables, matchesTool u "ripgrep" exRipgrep "database" = false) := by
  have hno : ∀ u : UnicodeTables, ¬ OccursInField u "ripgrep" exRipgrep "database" := by
    intro u
    rw [OccursInField_of_asciiTool u _ _ _ (by decide)]
    unfold OccursInField
    decide
  refine ⟨fun u h₁ h₂ => ?_, fun u => ⟨?_, ?_, ?_, ?_⟩, by decide, hno, fun u => ?_⟩
  · refine (matchesTool_iff_occurs u "x" exEditeur _).2.1 (Or.inr (Or.inl ?_))
    show "\u00e9diteur".data <:+: (stringsToLower u "\u00c9diteur").data
    rw [(stringsToLower_accented u h₁ h₂).2.2.1]
  · rw [matchesTool_of_asciiTool u _ _ _ (by decide)]; decide
  · rw [matchesTool_of_asciiTool u _ _ _ (by decide),
      stringsToLower_of_isASCII u _ (by decide)]
    decide
  · rw [matchesTool_of_asciiTool u _ _ _ (by decide)]; decide
  · refine (matchesTool_iff_occurs u "ripgrep" exRipgrep "fast").2.1 (Or.inr (Or.inl ?_))
    rw [stringsToLower_of_isASCII u _ (by decide)]
    decide
  · have h := (matchesTool_iff_occurs u "ripgrep" exRipgrep "database").2.2 (by decide)
    cases hm : matchesTool u "ripgrep" exRipgrep "database" with
    | false => rfl
    | true => exact absurd (h.1 hm) (hno u)


/-! ## The toolbox: `SearchTools` and `GetToolsByCategory` -/

theorem collectTools_foldl (keep : String → Tool → Bool) (order : ToolOrder)
    (acc : List SearchResult) :
    order.foldl (fun results e =>
        if keep e.1 e.2 then results ++ [{ Name := e.1, Tool := e.2 }] else results) acc
      = acc ++ (order.filter (fun e => keep e.1 e.2)).map
          (fun e => { Name := e.1, Tool := e.2 }) := by
  induction order generalizing acc with
  | nil => simp
  | cons e rest ih =>
    rw [List.foldl_cons, ih]
    cases hk : keep e.1 e.2 with
    | false => simp [List.filter_cons, hk]
    | true => simp [List.filter_cons, hk]

theorem collectTools_eq (keep : String → Tool → Bool) (order : ToolOrder) :
    collectTools keep order
      = (order.filter (fun e => keep e.1 e.2)).map (fun e => { Name := e.1, Tool := e.2 }) := by
  unfold collectTools
  rw [collectTools_foldl, List.nil_append]

theorem strictWeakOrder_lessByName : StrictWeakOrder lessByName :=
  strictWeakOrder_of_key (fun a : SearchResult => a.Name) lessByName
    (fun a b => stringLess_iff a.Name b.Name)

/-- What the loop and the sort of `SearchTools` and `GetToolsByCategory` produce: exactly the
tools of the registry that `keep` accepts, each name once, in ascending order of name. -/
theorem sorted_collect_spec (registry : Registry) (keep : String → Tool → Bool)
    (order : ToolOrder) (hp : order.Perm registry.Tools.entries) (results : List SearchResult)
    (hs : SortedBy lessByName (collectTools keep order) results) :
    (∀ r, r ∈ results ↔
      registry.Tools.find r.Name = some r.Tool ∧ keep r.Name r.Tool = true) ∧
    (results.map (fun r => r.Name)).Nodup ∧
    results.Pairwise (fun a b => a.Name < b.Name) := by
  obtain ⟨hperm, hsorted⟩ := hs
  rw [collectTools_eq] at hperm
  have hnodup_order : (order.map Prod.fst).Nodup :=
    (hp.map Prod.fst).nodup_iff.2 (GoMap.nodup_keys_entries _)
  have hnames : (results.map (fun r => r.Name)).Nodup := by
    have hperm' := hperm.map (fun r => r.Name)
    rw [hperm'.nodup_iff, List.map_map]
    have hsub : ((order.filter (fun e => keep e.1 e.2)).map
        ((fun r : SearchResult => r.Name) ∘ fun e => { Name := e.1, Tool := e.2 })).Sublist
        (order.map Prod.fst) :=
      List.Sublist.map _ (List.filter_sublist _)
    exact hsub.nodup hnodup_order
  refine ⟨fun r => ?_, hnames, ?_⟩
  · rw [hperm.mem_iff, List.mem_map]
    constructor
    · rintro ⟨⟨k, v⟩, hmem, rfl⟩
      rw [List.mem_filter] at hmem
      refine ⟨?_, by simpa using hmem.2⟩
      rw [GoMap.find_eq_alookup_entries,
        alookup_eq_some_iff_mem (GoMap.nodup_keys_entries _)]
      exact hp.mem_iff.1 hmem.1
    · rintro ⟨hfind, hkeep⟩
      rw [GoMap.find_eq_alookup_entries,
        alookup_eq_some_iff_mem (GoMap.nodup_keys_entries _)] at hfind
      exact ⟨(r.Name, r.Tool), List.mem_filter.2 ⟨hp.mem_iff.2 hfind, by simpa using hkeep⟩,
        rfl⟩
  · have hne : results.Pairwise (fun a b => a.Name ≠ b.Name) :=
      (List.pairwise_map.1 hnames)
    refine (hsorted.and hne).imp ?_
    rintro a b ⟨hle, hne⟩
    exact lt_of_le_of_ne ((stringLess_eq_false_iff _ _).1 hle) hne

/-- Two slices with the same results, each in strictly ascending order of name, are equal. -/
theorem results_unique {l₁ l₂ : List SearchResult}
    (h₁ : l₁.Pairwise (fun a b => a.Name < b.Name))
    (h₂ : l₂.Pairwise (fun a b => a.Name < b.Name)) (hmem : ∀ r, r ∈ l₁ ↔ r ∈ l₂) :
    l₁ = l₂ := by
  have hn : ∀ {l : List SearchResult}, l.Pairwise (fun a b => a.Name < b.Name) → l.Nodup :=
    fun h => h.imp (fun {a b} hab e => absurd (e ▸ hab) (lt_irrefl _))
  refine List.Perm.eq_of_sorted ?_ h₁ h₂ ((List.perm_ext_iff_of_nodup (hn h₁) (hn h₂)).2 hmem)
  intro a b _ _ hab hba
  exact absurd (lt_trans hab hba) (lt_irrefl _)

theorem stringsToLower_eq_of_differOnlyInCase {u : UnicodeTables} {q₁ q₂ : String}
    (h : DifferOnlyInCase u q₁ q₂) : stringsToLower u q₁ = stringsToLower u q₂ := by
  have hmap : ∀ l₁ l₂ : List Char, List.Forall₂ (fun a b => u.ToLower a = u.ToLower b) l₁ l₂ →
      l₁.map u.ToLower = l₂.map u.ToLower := by
    intro l₁ l₂ hl
    induction hl with
    | nil => rfl
    | cons hab _ ih => rw [List.map_cons, List.map_cons, hab, ih]
  unfold stringsToLower
  rw [hmap _ _ h]


/-- A registry and a query of ASCII characters give the same run under every table. -/
theorem SearchTools_run_of_ascii (u : UnicodeTables) (registry : Registry) (query : String)
    (hr : registry.Tools.entries.all (fun e => asciiTool e.1 e.2) = true)
    (hq : isASCII query = true) :
    SearchTools.run u registry query = SearchTools.run asciiTables registry query := by
  unfold SearchTools.run
  rw [collectTools_eq, collectTools_eq, stringsToLower_of_isASCII u _ hq]
  congr 2
  apply List.filter_congr
  intro e he
  exact matchesTool_of_asciiTool u e.1 e.2 _ (List.all_eq_true.1 hr e he)

/-- Claim C26. `SearchTools` returns, and every slice it can return holds exactly the tools of
the registry that match the lower-cased query, no name twice, in strictly ascending order of
name; so the result does not depend on the order in which the map is visited, and it is the
same for two queries that differ only in letter case. `GetToolsByCategory` likewise returns
exactly the tools whose category is the argument, in ascending order of name. -/
theorem SearchTools_exact_sorted (u : UnicodeTables) (registry : Registry) (query : String) :
    SearchTools u registry query (SearchTools.run u registry query) ∧
    (∀ results, SearchTools u registry query results →
      (∀ r, r ∈ results ↔
        registry.Tools.find r.Name = some r.Tool ∧
        matchesTool u r.Name r.Tool (stringsToLower u query) = true) ∧
      (results.map (fun r => r.Name)).Nodup ∧
      results.Pairwise (fun a b => a.Name < b.Name) ∧
      results = SearchTools.run u registry query) ∧
    (∀ query', DifferOnlyInCase u query query' →
      ∀ results, SearchTools u registry query' results ↔ SearchTools u registry query results) ∧
    (∀ category,
      GetToolsByCategory registry category (GetToolsByCategory.run registry category) ∧
      ∀ results, GetToolsByCategory registry category results →
        (∀ r, r ∈ results ↔
          registry.Tools.find r.Name = some r.Tool ∧ r.Tool.Category = category) ∧
        (results.map (fun r => r.Name)).Nodup ∧
        results.Pairwise (fun a b => a.Name < b.Name) ∧
        results = GetToolsByCategory.run registry category) := by
  have hrun : ∀ keep : String → Tool → Bool,
      SortedBy lessByName (collectTools keep registry.Tools.entries)
        (sortSlice lessByName (collectTools keep registry.Tools.entries)) :=
    fun keep => sortSlice_sorted lessByName strictWeakOrder_lessByName _
  have hspec : ∀ (keep : String → Tool → Bool) (order : ToolOrder),
      order.Perm registry.Tools.entries → ∀ results,
      SortedBy lessByName (collectTools keep order) results →
      (∀ r, r ∈ results ↔
        registry.Tools.find r.Name = some r.Tool ∧ keep r.Name r.Tool = true) ∧
      (results.map (fun r => r.Name)).Nodup ∧
      results.Pairwise (fun a b => a.Name < b.Name) ∧
      results = sortSlice lessByName (collectTools keep registry.Tools.entries) := by
    intro keep order hp results hs
    obtain ⟨hmem, hnodup, hsorted⟩ := sorted_collect_spec registry keep order hp results hs
    obtain ⟨hmem', _, hsorted'⟩ := sorted_collect_spec registry keep registry.Tools.entries
      (List.Perm.refl _) _ (hrun keep)
    exact ⟨hmem, hnodup, hsorted,
      results_unique hsorted hsorted' (fun r => (hmem r).trans (hmem' r).symm)⟩
  refine ⟨⟨_, List.Perm.refl _, hrun _⟩, ?_, ?_, fun category =>
    ⟨⟨_, List.Perm.refl _, hrun _⟩, ?_⟩⟩
  · rintro results ⟨order, hp, hs⟩
    exact hspec _ order hp results hs
  · intro query' hcase results
    unfold SearchTools
    rw [stringsToLower_eq_of_differOnlyInCase hcase]
  · rintro results ⟨order, hp, hs⟩
    obtain ⟨hmem, hnodup, hsorted, heq⟩ := hspec _ order hp results hs
    refine ⟨fun r => ?_, hnodup, hsorted, heq⟩
    rw [hmem r]
    simp

/-- Witness for C26: on the registry of the test `TestSearchTools` the query `GIT` finds
`git-delta`, as the query `git` does, the query `syntax` finds `bat` and `git-delta` in this
order and the query `nonexistent` finds nothing; on the registry of the test
`TestGetToolsByCategory` the category `version-control` gives `git` and `lazygit`. Under a
table that gives `É` and `é` the same lower-case form, as `unicode.ToLower` does, the queries
`É` and `é` have the same results on every registry. -/
theorem SearchTools_exact_sorted_witness :
    (∀ u : UnicodeTables, u.ToLower '\u00c9' = u.ToLower '\u00e9' →
      DifferOnlyInCase u "\u00e9" "\u00c9" ∧
      ∀ registry results,
        SearchTools u registry "\u00c9" results ↔ SearchTools u registry "\u00e9" results) ∧
    (∀ u : UnicodeTables,
      (SearchTools.run u exRegistry "GIT").map (fun r => r.Name) = ["git-delta"] ∧
      (SearchTools.run u exRegistry "syntax").map (fun r => r.Name) = ["bat", "git-delta"] ∧
      (SearchTools.run u exRegistry "nonexistent").map (fun r => r.Name) = [] ∧
      DifferOnlyInCase u "GIT" "git" ∧
      SearchTools u exRegistry "git" (SearchTools.run u exRegistry "GIT")) ∧
    (GetToolsByCategory.run exRegistryCategories "version-control").map (fun r => r.Name)
      = ["git", "lazygit"] := by
  refine ⟨fun u hE => ?_, fun u => ?_, by decide⟩
  · have hcase : DifferOnlyInCase u "\u00e9" "\u00c9" := by
      show List.Forall₂ _ ['\u00e9'] ['\u00c9']
      exact List.Forall₂.cons hE.symm List.Forall₂.nil
    exact ⟨hcase, fun registry results =>
      (SearchTools_exact_sorted u registry "\u00e9").2.2.1 "\u00c9" hcase results⟩
  have hlow : ∀ a b : Char, a.toNat < 128 → b.toNat < 128 → a.toLower = b.toLower →
      u.ToLower a = u.ToLower b := by
    intro a b ha hb hab
    rw [u.ToLower_ascii a ha, u.ToLower_ascii b hb, hab]
  have hcase : DifferOnlyInCase u "GIT" "git" :=
    List.Forall₂.cons (hlow _ _ (by decide) (by decide) rfl)
      (List.Forall₂.cons (hlow _ _ (by decide) (by decide) rfl)
        (List.Forall₂.cons (hlow _ _ (by decide) (by decide) rfl) List.Forall₂.nil))
  refine ⟨?_, ?_, ?_, hcase, ?_⟩
  · rw [SearchTools_run_of_ascii u _ _ (by decide) (by decide)]; decide
  · rw [SearchTools_run_of_ascii u _ _ (by decide) (by decide)]; decide
  · rw [SearchTools_run_of_ascii u _ _ (by decide) (by decide)]; decide
  · exact ((SearchTools_exact_sorted u exRegistry "GIT").2.2.1 "git" hcase _).2
      (SearchTools_exact_sorted u exRegistry "GIT").1


/-! ## Order of the recents under a clock that does not run backwards -/

theorem mem_of_alookup_eq_some {V : Type} (k : String) (v : V) (l : List (String × V))
    (h : alookup k l = some v) : (k, v) ∈ l := by
  induction l with
  | nil => simp [alookup] at h
  | cons e rest ih =>
    obtain ⟨k₀, v₀⟩ := e
    by_cases hk : k₀ = k
    · simp only [alookup, hk, if_true, Option.some.injEq] at h
      rw [hk, h]
      exact List.mem_cons_self _ _
    · simp only [alookup, hk, if_false] at h
      exact List.mem_cons_of_mem _ (ih h)

/-- A bound on every timestamp of the entries of the map bounds every recents list. -/
theorem recentsOf_le_of_entries (s : State) (now : Int)
    (l : List (String × GoSlice RecentItem)) (hl : s.Recents = some l)
    (h : ∀ e ∈ l, ∀ r ∈ e.2.elems, r.LastAccessed ≤ now) :
    ∀ n, ∀ r ∈ s.recentsOf n, r.LastAccessed ≤ now := by
  intro n r hr
  simp only [State.recentsOf, hl, GoMap.get] at hr
  cases ha : alookup n l with
  | none => simp [ha, GoSlice.elems] at hr
  | some v =>
    rw [ha] at hr
    exact h (n, v) (mem_of_alookup_eq_some n v l ha) r hr

theorem ReachableMonotone.reachable {s : State} (h : ReachableMonotone s) : Reachable s := by
  induction h with
  | empty p => exact Reachable.empty p
  | addFavorite n id _ hcall ih => exact Reachable.addFavorite n id ih hcall
  | removeFavorite n id _ hcall ih => exact Reachable.removeFavorite n id ih hcall
  | addRecent now n id _ _ hcall ih => exact Reachable.addRecent now n id ih hcall

/-- In every State reached under a clock that does not run backwards, the timestamps of a
recents list do not increase from front to back. -/
theorem ReachableMonotone.ordered {s : State} (h : ReachableMonotone s) (m : String) :
    (s.recentsOf m).Pairwise (fun a b => b.LastAccessed ≤ a.LastAccessed) := by
  induction h generalizing m with
  | empty p => rw [State.recentsOf_empty]; exact List.Pairwise.nil
  | @addFavorite s s' os os' err n id hs hcall ih =>
    obtain ⟨s'', os'', err'', heq, _, _, _, hR', _⟩ :=
      State.AddFavorite_step s os n id hs.reachable.inv.1
    rw [heq] at hcall
    injection hcall with hcall
    injection hcall with hs' _
    subst hs'
    have hrec : s''.recentsOf m = s.recentsOf m := by simp [State.recentsOf, hR']
    rw [hrec]; exact ih m
  | @removeFavorite s s' os os' err n id hs hcall ih =>
    obtain ⟨s'', os'', err'', heq, _, _, _, hR', _⟩ := State.RemoveFavorite_step s os n id
    rw [heq] at hcall
    injection hcall with hcall
    injection hcall with hs' _
    subst hs'
    have hrec : s''.recentsOf m = s.recentsOf m := by simp [State.recentsOf, hR']
    rw [hrec]; exact ih m
  | @addRecent s s' os os' err now n id hs hclock hcall ih =>
    by_cases hid : id ∈ s.GetRecents n
    · have hid' := hid
      rw [State.GetRecents_eq] at hid'
      obtain ⟨pre, t, post, hsplit, hpre, _⟩ := recents_split _ id hid'
      obtain ⟨s'', heq, hrec, hother, _⟩ :=
        State.AddRecent_step_present s os now n id pre post t hsplit hpre
      rw [heq] at hcall
      injection hcall with hcall
      injection hcall with hs' _
      subst hs'
      by_cases hm : n = m
      · subst hm
        rw [hrec]
        have hold := ih n
        rw [hsplit] at hold
        have hsub : (pre ++ post).Sublist (pre ++ { ItemID := id, LastAccessed := t } :: post) :=
          List.Sublist.append_left (List.sublist_cons_self _ _) pre
        refine List.Pairwise.cons (fun r hr => ?_) (hold.sublist hsub)
        exact hclock n r (by rw [hsplit]; exact hsub.subset hr)
      · rw [hother m hm]; exact ih m
    · obtain ⟨s'', heq, hrec, hother, _⟩ :=
        State.AddRecent_step_new s os now n id hs.reachable.inv.2.1 hid
      rw [heq] at hcall
      injection hcall with hcall
      injection hcall with hs' _
      subst hs'
      by_cases hm : n = m
      · subst hm
        rw [hrec]
        refine List.Pairwise.sublist (List.take_sublist _ _) ?_
        exact List.Pairwise.cons (fun r hr => hclock n r hr) (ih n)
      · rw [hother m hm]; exact ih m

theorem exStateAB_monotone : ReachableMonotone exStateAB := by
  have h₁ : ∃ os₁ e₁, (State.empty "/cfg/state.json").AddRecent exFreshOS 1 "x" "a"
      = .ok (exStateA, os₁, e₁) := ⟨_, _, rfl⟩
  have h₂ : ∃ os₂ e₂, exStateA.AddRecent exFreshOS 2 "x" "b" = .ok (exStateBA, os₂, e₂) :=
    ⟨_, _, rfl⟩
  have h₃ : ∃ os₃ e₃, exStateBA.AddRecent exFreshOS 3 "x" "a" = .ok (exStateAB, os₃, e₃) :=
    ⟨_, _, rfl⟩
  obtain ⟨os₁, e₁, h₁⟩ := h₁
  obtain ⟨os₂, e₂, h₂⟩ := h₂
  obtain ⟨os₃, e₃, h₃⟩ := h₃
  have r₁ : ReachableMonotone exStateA :=
    ReachableMonotone.addRecent 1 "x" "a" (ReachableMonotone.empty _)
      (recentsOf_le_of_entries _ 1 [] rfl (by decide)) h₁
  have r₂ : ReachableMonotone exStateBA :=
    ReachableMonotone.addRecent 2 "x" "b" r₁
      (recentsOf_le_of_entries _ 2 _ rfl (by decide)) h₂
  exact ReachableMonotone.addRecent 3 "x" "a" r₂
    (recentsOf_le_of_entries _ 3 _ rfl (by decide)) h₃

/-- Claim C29. When the clock value of each `AddRecent` call is at least every timestamp
stored at that moment, every recents list of a State reachable from the empty State has
timestamps that do not increase from front to back: an entry that comes earlier in a list was
not used before an entry that comes later. -/
theorem recents_ordered_by_time (s : State) (h : ReachableMonotone s) (integration : String) :
    (s.recentsOf integration).Pairwise (fun a b => b.LastAccessed ≤ a.LastAccessed) :=
  ReachableMonotone.ordered h integration

/-- Witness for C29: the State after `a` at time 1, `b` at time 2 and `a` again at time 3 is
reached under such a clock, and its list for `"x"` is `a` (time 3), `b` (time 2). -/
theorem recents_ordered_by_time_witness :
    ReachableMonotone exStateAB ∧
    exStateAB.recentsOf "x"
      = [{ ItemID := "a", LastAccessed := 3 }, { ItemID := "b", LastAccessed := 2 }] ∧
    (exStateAB.recentsOf "x").Pairwise (fun a b => b.LastAccessed ≤ a.LastAccessed) :=
  ⟨exStateAB_monotone, by decide, recents_ordered_by_time exStateAB exStateAB_monotone "x"⟩


/-! ## State documents with a `null` field -/

/-- Claim C30, on the failing inputs. `NewState` accepts the document whose `favorites` field
is `null` without error and returns a State whose `Favorites` map is `nil`, on which
`AddFavorite("commands","ls")` panics with an assignment to an entry of a `nil` map; the same
holds for the `recents` field and `AddRecent`. A document in which both fields are missing
leaves the two maps allocated, and both calls return. -/
theorem null_field_makes_add_panic :
    (∃ s, NewState exNullFavoritesOS "/cfg" = (some s, none) ∧
      (State.Load (State.empty "/cfg/state.json") exNullFavoritesOS).2 = none ∧
      s.Favorites = none ∧
      s.AddFavorite exNullFavoritesOS "commands" "ls"
        = .error "assignment to entry in nil map") ∧
    (∃ s, NewState exNullRecentsOS "/cfg" = (some s, none) ∧
      (State.Load (State.empty "/cfg/state.json") exNullRecentsOS).2 = none ∧
      s.Recents = none ∧
      s.AddRecent exNullRecentsOS 1 "commands" "ls"
        = .error "assignment to entry in nil map") ∧
    (∃ s, NewState exMissingFieldsOS "/cfg" = (some s, none) ∧
      (∃ r, s.AddFavorite exMissingFieldsOS "commands" "ls" = .ok r) ∧
      (∃ r, s.AddRecent exMissingFieldsOS 1 "commands" "ls" = .ok r)) :=
  ⟨⟨_, rfl, rfl, rfl, rfl⟩, ⟨_, rfl, rfl, rfl, rfl⟩, ⟨_, rfl, ⟨_, rfl⟩, ⟨_, rfl⟩⟩⟩

end MenuGo
